import Mathlib

/-!
# v3math: a 3-component vector library over caller-owned buffers

Shallow embedding of `src/v3math.c`.

* Memory is a flat array of float cells addressed by natural numbers; a
  `float *p` is the address of its first cell and `p[i]` is the cell `p + i`.
  `NULL` is address `0`.
* `assert(p != NULL)` aborts the process when it fails: every function returns
  `Option`, with `none` for the abort.
* `errno` and the `stderr` stream are fields of the program state.
* The functions are written once, over any type `α` of `float` values with
  the arithmetic and comparisons the source uses, and are read at two such
  types.  At `F32`, a model of IEEE 754 binary32 (round to nearest, ties to
  even, with infinities and NaN), they are the source as it runs.  At an
  ordered field such as the reals or the rationals they are the source with
  exact arithmetic: no rounding, no overflow, no NaN.
* The libm functions `sqrtf` and `acosf` are parameters of the functions that
  call them.  Over the reals they are `Real.sqrt` and `Real.arccos`; in
  binary32 `sqrtf` is the correctly rounded `F32.sqrt` and `acosf` is left
  arbitrary or constrained by its accuracy.
* A theorem over an ordered field is a statement about exact arithmetic.  It
  is given for a claim that the binary32 source also satisfies, or whose
  wording is about exact arithmetic; where the binary32 source breaks a claim,
  the failing input is evaluated in `F32`, and the claim is proved in `F32`,
  for all inputs, with the error bound or the side condition that rounding
  and overflow force.
-/

namespace V3Math

/-- Program state: the float cells of memory, `errno`, and what has been
written to `stderr` so far. -/
structure State (α : Type) where
  mem : Nat → α
  errno : Int
  stderr : List String

/-- The assignment `p[0] = x` for the cell at address `p`. -/
def State.store {α : Type} (s : State α) (p : Nat) (x : α) : State α :=
  ⟨Function.update s.mem p x, s.errno, s.stderr⟩

/-- The three cells of the buffer at `p`, as a triple. -/
def State.vec {α : Type} (s : State α) (p : Nat) : α × α × α :=
  (s.mem (p + 0), s.mem (p + 1), s.mem (p + 2))

/-- Two 3-element buffers share no cell. -/
def disjoint3 (p q : Nat) : Prop := p + 3 ≤ q ∨ q + 3 ≤ p

instance (p q : Nat) : Decidable (disjoint3 p q) :=
  inferInstanceAs (Decidable (p + 3 ≤ q ∨ q + 3 ≤ p))

/-- The value of `EINVAL` in `errno.h`. -/
def EINVAL : Int := 22

section Ops

variable {α : Type} [Add α] [Sub α] [Mul α] [Div α] [Neg α] [Zero α] [One α] [NatCast α]
  [LT α] [LE α] [DecidableRel (fun x y : α => x < y)] [DecidableRel (fun x y : α => x ≤ y)]
  [DecidableEq α]

/-- The constant `#define EPSILON 1e-6f`. -/
def EPSILON : α := 1 / 1000000

/-- Embedding of `void v3_from_points(float *dst, float *a, float *b)`: `dst = b - a`. -/
def v3_from_points (dst a b : Nat) (s : State α) : Option (State α) :=
  if dst ≠ 0 ∧ a ≠ 0 ∧ b ≠ 0 then
    let temp0 := s.mem (b + 0) - s.mem (a + 0)
    let temp1 := s.mem (b + 1) - s.mem (a + 1)
    let temp2 := s.mem (b + 2) - s.mem (a + 2)
    let s := s.store (dst + 0) temp0
    let s := s.store (dst + 1) temp1
    let s := s.store (dst + 2) temp2
    some s
  else none

/-- Embedding of `void v3_add(float *dst, float *a, float *b)`: `dst = a + b`. -/
def v3_add (dst a b : Nat) (s : State α) : Option (State α) :=
  if dst ≠ 0 ∧ a ≠ 0 ∧ b ≠ 0 then
    let temp0 := s.mem (a + 0) + s.mem (b + 0)
    let temp1 := s.mem (a + 1) + s.mem (b + 1)
    let temp2 := s.mem (a + 2) + s.mem (b + 2)
    let s := s.store (dst + 0) temp0
    let s := s.store (dst + 1) temp1
    let s := s.store (dst + 2) temp2
    some s
  else none

/-- Embedding of `void v3_subtract(float *dst, float *a, float *b)`: `dst = a - b`. -/
def v3_subtract (dst a b : Nat) (s : State α) : Option (State α) :=
  if dst ≠ 0 ∧ a ≠ 0 ∧ b ≠ 0 then
    let temp0 := s.mem (a + 0) - s.mem (b + 0)
    let temp1 := s.mem (a + 1) - s.mem (b + 1)
    let temp2 := s.mem (a + 2) - s.mem (b + 2)
    let s := s.store (dst + 0) temp0
    let s := s.store (dst + 1) temp1
    let s := s.store (dst + 2) temp2
    some s
  else none

/-- Embedding of `float v3_dot_product(float *a, float *b)`. -/
def v3_dot_product (a b : Nat) (s : State α) : Option α :=
  if a ≠ 0 ∧ b ≠ 0 then
    some (s.mem (a + 0) * s.mem (b + 0) + s.mem (a + 1) * s.mem (b + 1)
      + s.mem (a + 2) * s.mem (b + 2))
  else none

/-- Embedding of `void v3_cross_product(float *dst, float *a, float *b)`. -/
def v3_cross_product (dst a b : Nat) (s : State α) : Option (State α) :=
  if dst ≠ 0 ∧ a ≠ 0 ∧ b ≠ 0 then
    let temp0 := s.mem (a + 1) * s.mem (b + 2) - s.mem (a + 2) * s.mem (b + 1)
    let temp1 := s.mem (a + 2) * s.mem (b + 0) - s.mem (a + 0) * s.mem (b + 2)
    let temp2 := s.mem (a + 0) * s.mem (b + 1) - s.mem (a + 1) * s.mem (b + 0)
    let s := s.store (dst + 0) temp0
    let s := s.store (dst + 1) temp1
    let s := s.store (dst + 2) temp2
    some s
  else none

/-- Embedding of `void v3_scale(float *dst, float s)`: in place, one cell after the other. -/
def v3_scale (dst : Nat) (k : α) (s : State α) : Option (State α) :=
  if dst ≠ 0 then
    let s := s.store (dst + 0) (s.mem (dst + 0) * k)
    let s := s.store (dst + 1) (s.mem (dst + 1) * k)
    let s := s.store (dst + 2) (s.mem (dst + 2) * k)
    some s
  else none

/-- Embedding of `float v3_length(float *a)`. -/
def v3_length (sqrtf : α → α) (a : Nat) (s : State α) : Option α :=
  if a ≠ 0 then
    some (sqrtf (s.mem (a + 0) * s.mem (a + 0) + s.mem (a + 1) * s.mem (a + 1)
      + s.mem (a + 2) * s.mem (a + 2)))
  else none

/-- The diagnostic of `v3_angle` and `v3_angle_quick`. -/
def angleMsg : String := "Error: Cannot compute angle with zero length vector\n"

/-- The diagnostic of `v3_normalize`. -/
def normalizeMsg : String := "Error: Cannot normalize zero length vector\n"

/-- The degenerate branch: `fprintf(stderr, msg); errno = EINVAL;`. -/
def State.domainError (s : State α) (msg : String) : State α :=
  ⟨s.mem, EINVAL, s.stderr ++ [msg]⟩

/-- The call that took `s` to `t` signalled a domain error: it set `errno` to
`EINVAL` and wrote the diagnostic `msg` to `stderr`. -/
def State.signalled (s t : State α) (msg : String) : Prop :=
  t.errno = EINVAL ∧ t.stderr = s.stderr ++ [msg]

/-- Embedding of `float v3_angle(float *a, float *b)`. -/
def v3_angle (sqrtf acosf : α → α) (a b : Nat) (s : State α) : Option (α × State α) :=
  if a ≠ 0 ∧ b ≠ 0 then
    (v3_length sqrtf a s).bind fun len_a =>
    (v3_length sqrtf b s).bind fun len_b =>
    if len_a < EPSILON ∨ len_b < EPSILON then
      some (0, s.domainError angleMsg)
    else
      (v3_dot_product a b s).bind fun dot =>
      let cos_angle := dot / (len_a * len_b)
      let cos_angle := if cos_angle > 1 then 1 else cos_angle
      let cos_angle := if cos_angle < -1 then -1 else cos_angle
      some (acosf cos_angle, s)
  else none

/-- Embedding of `float v3_angle_quick(float *a, float *b)`. -/
def v3_angle_quick (sqrtf : α → α) (a b : Nat) (s : State α) : Option (α × State α) :=
  if a ≠ 0 ∧ b ≠ 0 then
    (v3_length sqrtf a s).bind fun len_a =>
    (v3_length sqrtf b s).bind fun len_b =>
    if len_a < EPSILON ∨ len_b < EPSILON then
      some (1, s.domainError angleMsg)
    else
      (v3_dot_product a b s).bind fun dot =>
      let cos_angle := dot / (len_a * len_b)
      let cos_angle := if cos_angle > 1 then 1 else cos_angle
      let cos_angle := if cos_angle < -1 then -1 else cos_angle
      some (cos_angle, s)
  else none

/-- Embedding of `void v3_reflect(float *dst, float *v, float *n)`: `dst = v - 2(v . n)n`. -/
def v3_reflect (dst v n : Nat) (s : State α) : Option (State α) :=
  if dst ≠ 0 ∧ v ≠ 0 ∧ n ≠ 0 then
    (v3_dot_product v n s).bind fun dot =>
    let temp0 := s.mem (v + 0) - 2 * dot * s.mem (n + 0)
    let temp1 := s.mem (v + 1) - 2 * dot * s.mem (n + 1)
    let temp2 := s.mem (v + 2) - 2 * dot * s.mem (n + 2)
    let s := s.store (dst + 0) temp0
    let s := s.store (dst + 1) temp1
    let s := s.store (dst + 2) temp2
    some s
  else none

/-- Embedding of `void v3_normalize(float *dst, float *a)`: `dst = a / ||a||`. -/
def v3_normalize (sqrtf : α → α) (dst a : Nat) (s : State α) : Option (State α) :=
  if dst ≠ 0 ∧ a ≠ 0 then
    (v3_length sqrtf a s).bind fun len =>
    if len < EPSILON then
      let s := s.domainError normalizeMsg
      let s := s.store (dst + 0) 0
      let s := s.store (dst + 1) 0
      let s := s.store (dst + 2) 0
      some s
    else
      let inv_len := 1 / len
      let temp0 := s.mem (a + 0) * inv_len
      let temp1 := s.mem (a + 1) * inv_len
      let temp2 := s.mem (a + 2) * inv_len
      let s := s.store (dst + 0) temp0
      let s := s.store (dst + 1) temp1
      let s := s.store (dst + 2) temp2
      some s
  else none

/-- The two clamping statements of `v3_angle` and `v3_angle_quick`, applied to
the quotient `c`: the value they leave in `cos_angle`. -/
def clamped (c : α) : α :=
  if (if c > 1 then 1 else c) < -1 then -1 else (if c > 1 then 1 else c)

end Ops

section EqualsOp

variable {α : Type} [LinearOrderedField α]

/-- The `for (int i = 0; i < 3; i++)` loop of `v3_equals`, entered at index `i`
with `n` iterations left; `false` is the early `return false`, `true` is
falling out of the loop. -/
def v3_equals_loop (a b : Nat) (tolerance : α) (s : State α) : Nat → Nat → Bool
  | _, 0 => true
  | i, n + 1 =>
    let diff := |s.mem (a + i) - s.mem (b + i)|
    if s.mem (a + i) = s.mem (b + i) then v3_equals_loop a b tolerance s (i + 1) n
    else if diff > tolerance then false
    else v3_equals_loop a b tolerance s (i + 1) n

/-- Embedding of `bool v3_equals(float *a, float *b, float tolerance)`. -/
def v3_equals (a b : Nat) (tolerance : α) (s : State α) : Option Bool :=
  if a ≠ 0 ∧ b ≠ 0 then some (v3_equals_loop a b tolerance s 0 3) else none

end EqualsOp

section CheckedOps

variable {α : Type} [Add α] [Sub α] [Mul α] [Div α] [Neg α] [Zero α] [One α] [NatCast α]
  [LT α] [LE α] [DecidableRel (fun x y : α => x < y)] [DecidableRel (fun x y : α => x ≤ y)]
  [DecidableEq α]

/-- Division with the guard the source relies on made explicit: `none` when
the divisor is `0`, where a float quotient is an infinity or a NaN. -/
def checkedDiv (x y : α) : Option α :=
  if y = 0 then none else some (x / y)

/-- The call `acosf(c)` with its domain made explicit: `none` when `c` is
outside `[-1, 1]`, where `acosf` yields a NaN. -/
def checkedAcos (acosf : α → α) (c : α) : Option α :=
  if -1 ≤ c ∧ c ≤ 1 then some (acosf c) else none

/-- The function `v3_angle`, statement for statement, with its division done by
`checkedDiv` and its call of `acosf` done by `checkedAcos`. -/
def v3_angle_checked (sqrtf acosf : α → α) (a b : Nat) (s : State α) :
    Option (α × State α) :=
  if a ≠ 0 ∧ b ≠ 0 then
    (v3_length sqrtf a s).bind fun len_a =>
    (v3_length sqrtf b s).bind fun len_b =>
    if len_a < EPSILON ∨ len_b < EPSILON then
      some (0, s.domainError angleMsg)
    else
      (v3_dot_product a b s).bind fun dot =>
      (checkedDiv dot (len_a * len_b)).bind fun cos_angle =>
      let cos_angle := if cos_angle > 1 then 1 else cos_angle
      let cos_angle := if cos_angle < -1 then -1 else cos_angle
      (checkedAcos acosf cos_angle).bind fun r =>
      some (r, s)
  else none

/-- The states `s` and `t` hold the same value in every cell outside the
3-element buffer at `dst`. -/
def State.sameOutside (s t : State α) (dst : Nat) : Prop :=
  ∀ p, p < dst ∨ dst + 3 ≤ p → t.mem p = s.mem p

end CheckedOps

/-! ## A model of binary32

The source computes in `float`.  `F32` is IEEE 754 binary32 with round to
nearest, ties to even: a value is a NaN, an infinity or a finite rational
(the results of the operations are representable); every operation on finite
values computes the exact rational result and rounds it, overflowing to an
infinity.  The two zeros are one value, which no comparison in the source
tells apart, and all NaNs are one value.
-/

/-- The power `2^k`, for an integer `k`. -/
def pow2 (k : Int) : ℚ :=
  if 0 ≤ k then ((2 ^ k.toNat : Nat) : ℚ) else 1 / ((2 ^ (-k).toNat : Nat) : ℚ)

/-- The number of halvings that take `m` below `2`, at most `f` of them. -/
def log2Aux : Nat → Nat → Nat
  | 0, _ => 0
  | f + 1, m => if m < 2 then 0 else log2Aux f (m / 2) + 1

/-- The integer `floor (log2 n)`, for `n > 0`. -/
def log2Nat (n : Nat) : Nat := log2Aux n n

/-- The integer `floor (log2 q)`, for a positive rational `q`. -/
def ilog2 (q : ℚ) : Int :=
  let e : Int := (log2Nat q.num.natAbs : Int) - (log2Nat q.den : Int)
  if q < pow2 e then e - 1 else e

/-- The integer nearest to the non-negative rational `m`, ties to even. -/
def roundHalfEven (m : ℚ) : Int :=
  let f := Rat.floor m
  let r := m - f
  if r < 1 / 2 then f else if 1 / 2 < r then f + 1 else if f % 2 = 0 then f else f + 1

/-- A binary32 value: a NaN, an infinity with its sign, or a finite rational. -/
inductive F32 where
  | nan : F32
  | inf (negative : Bool) : F32
  | fin (q : ℚ) : F32
deriving DecidableEq

/-- The binary32 value nearest to the rational `q`, ties to even: 24
significant bits, exponents from `-126` (subnormals below), an infinity from
`2^128` on. -/
def F32.round (q : ℚ) : F32 :=
  if q = 0 then F32.fin 0 else
    let a := |q|
    let e := max (ilog2 a) (-126)
    let ulp := pow2 (e - 23)
    let r := (roundHalfEven (a / ulp) : ℚ) * ulp
    if pow2 128 ≤ r then F32.inf (decide (q < 0))
    else F32.fin (if q < 0 then -r else r)

/-- Negation in binary32. -/
def F32.neg : F32 → F32
  | F32.nan => F32.nan
  | F32.inf s => F32.inf (!s)
  | F32.fin q => F32.fin (-q)

/-- Addition in binary32. -/
def F32.add : F32 → F32 → F32
  | F32.fin p, F32.fin q => F32.round (p + q)
  | F32.inf s, F32.inf t => if s = t then F32.inf s else F32.nan
  | F32.inf s, F32.fin _ => F32.inf s
  | F32.fin _, F32.inf t => F32.inf t
  | _, _ => F32.nan

/-- Multiplication in binary32. -/
def F32.mul : F32 → F32 → F32
  | F32.fin p, F32.fin q => F32.round (p * q)
  | F32.inf s, F32.inf t => F32.inf (xor s t)
  | F32.inf s, F32.fin q => if q = 0 then F32.nan else F32.inf (xor s (decide (q < 0)))
  | F32.fin p, F32.inf t => if p = 0 then F32.nan else F32.inf (xor (decide (p < 0)) t)
  | _, _ => F32.nan

/-- Division in binary32; a zero divisor counts as `+0`. -/
def F32.div : F32 → F32 → F32
  | F32.fin p, F32.fin q =>
    if q = 0 then (if p = 0 then F32.nan else F32.inf (decide (p < 0))) else F32.round (p / q)
  | F32.fin _, F32.inf _ => F32.fin 0
  | F32.inf s, F32.fin q => F32.inf (xor s (decide (q < 0)))
  | _, _ => F32.nan

/-- The comparison `x < y` in binary32: false when either side is a NaN. -/
def F32.blt : F32 → F32 → Bool
  | F32.fin p, F32.fin q => decide (p < q)
  | F32.fin _, F32.inf t => !t
  | F32.inf s, F32.fin _ => s
  | F32.inf s, F32.inf t => s && !t
  | _, _ => false

/-- The comparison `x <= y` in binary32: false when either side is a NaN. -/
def F32.ble : F32 → F32 → Bool
  | F32.fin p, F32.fin q => decide (p ≤ q)
  | F32.fin _, F32.inf t => !t
  | F32.inf s, F32.fin _ => s
  | F32.inf s, F32.inf t => s || !t
  | _, _ => false

/-- The integer square root of `x < 2^(2 i)`, one bit at a time from bit
`i - 1` down, added to the bits `r` already found. -/
def isqrtAux (x : Nat) : Nat → Nat → Nat
  | 0, r => r
  | i + 1, r =>
    if (r + 2 ^ i) * (r + 2 ^ i) ≤ x then isqrtAux x i (r + 2 ^ i) else isqrtAux x i r

/-- The function `sqrtf`, correctly rounded: for a finite `q > 0` the argument
is scaled by a power of `4` into `[2^46, 2^48)`, the integer part `m` of its
square root has 24 bits, and the result is `m` or `m + 1`, whichever is nearer
(ties to even). -/
def F32.sqrt : F32 → F32
  | F32.nan => F32.nan
  | F32.inf s => if s then F32.nan else F32.inf false
  | F32.fin q =>
    if q < 0 then F32.nan else if q = 0 then F32.fin 0 else
      let k : Int := Int.fdiv (ilog2 q - 46) 2
      let x := q / pow2 (2 * k)
      let m := isqrtAux (Rat.floor x).toNat 24 0
      let h : ℚ := (m : ℚ) + 1 / 2
      let r : Nat := if x < h * h then m else if h * h < x then m + 1
        else if m % 2 = 0 then m else m + 1
      F32.fin ((r : ℚ) * pow2 k)

instance : Add F32 := ⟨F32.add⟩

instance : Sub F32 := ⟨fun x y => F32.add x (F32.neg y)⟩

instance : Mul F32 := ⟨F32.mul⟩

instance : Div F32 := ⟨F32.div⟩

instance : Neg F32 := ⟨F32.neg⟩

instance : Zero F32 := ⟨F32.fin 0⟩

instance : One F32 := ⟨F32.fin 1⟩

instance : NatCast F32 := ⟨fun n => F32.round n⟩

instance : LT F32 := ⟨fun x y => F32.blt x y = true⟩

instance : LE F32 := ⟨fun x y => F32.ble x y = true⟩

instance : DecidableRel (fun x y : F32 => x < y) :=
  fun x y => inferInstanceAs (Decidable (F32.blt x y = true))

instance : DecidableRel (fun x y : F32 => x ≤ y) :=
  fun x y => inferInstanceAs (Decidable (F32.ble x y = true))

/-- Component-wise negation of a triple. -/
def neg3 {α : Type} [Neg α] (v : α × α × α) : α × α × α :=
  (-v.1, -v.2.1, -v.2.2)

/-- The scalar multiple `k * v` of a triple. -/
def smul3 {α : Type} [Mul α] (k : α) (v : α × α × α) : α × α × α :=
  (k * v.1, k * v.2.1, k * v.2.2)

/-- A state holding the buffer `u` at address `1` and `v` at address `4`
(every other cell is `0`), with `errno` clear and nothing on `stderr`. -/
def twoVecs {α : Type} [Zero α] (u v : α × α × α) : State α :=
  ⟨fun p =>
    if p = 1 then u.1 else if p = 2 then u.2.1 else if p = 3 then u.2.2
    else if p = 4 then v.1 else if p = 5 then v.2.1 else if p = 6 then v.2.2
    else 0, 0, []⟩

/-- A state holding `u` at address `1`, `v` at address `4` and `w` at address
`7` (every other cell is `0`), with `errno` clear and nothing on `stderr`. -/
def threeVecs {α : Type} [Zero α] (u v w : α × α × α) : State α :=
  ⟨fun p =>
    if p = 1 then u.1 else if p = 2 then u.2.1 else if p = 3 then u.2.2
    else if p = 4 then v.1 else if p = 5 then v.2.1 else if p = 6 then v.2.2
    else if p = 7 then w.1 else if p = 8 then w.2.1 else if p = 9 then w.2.2
    else 0, 0, []⟩

/-- The binary32 value is finite: neither an infinity nor a NaN. -/
def F32.isFinite : F32 → Bool
  | F32.fin _ => true
  | _ => false

/-- The accuracy of a correctly rounded `acosf` at the argument `q`, for a
result in `[1, 2)`, where the binary32 values are the multiples of `2^-23`:
`acosf(q)` is such a multiple, within half a unit in the last place (`2^-24`)
of the arccosine of `q`. -/
def NearArccos (acosf : F32 → F32) (q : ℚ) : Prop :=
  ∃ n : ℤ, acosf (F32.fin q) = F32.fin ((n : ℚ) / 8388608)
    ∧ |(n : ℝ) / 8388608 - Real.arccos (q : ℝ)| ≤ 1 / 16777216

/-- The function `acosf` is accurate to `tol` at the argument `q`: it returns a
finite value within `tol` of the arccosine of `q`. -/
def AcosfWithin (acosf : F32 → F32) (q tol : ℚ) : Prop :=
  ∃ r : ℚ, acosf (F32.fin q) = F32.fin r ∧ |(r : ℝ) - Real.arccos (q : ℝ)| ≤ (tol : ℝ)

/-! ## Reading back what the three writes to `dst` stored -/

theorem store3_vec {α : Type} (s : State α) (d : Nat) (x y z : α) :
    (((s.store (d + 0) x).store (d + 1) y).store (d + 2) z).vec d = (x, y, z) := by
  simp [State.vec, State.store, Function.update]

theorem store3_frame {α : Type} (s : State α) (d p : Nat) (x y z : α) (h : p < d ∨ d + 3 ≤ p) :
    (((s.store (d + 0) x).store (d + 1) y).store (d + 2) z).mem p = s.mem p := by
  have h0 : p ≠ d := by omega
  have h1 : p ≠ d + 1 := by omega
  have h2 : p ≠ d + 2 := by omega
  simp [State.store, Function.update, h0, h1, h2]

theorem store3_vec_frame {α : Type} (s : State α) (d q : Nat) (x y z : α) (h : disjoint3 d q) :
    (((s.store (d + 0) x).store (d + 1) y).store (d + 2) z).vec q = s.vec q := by
  unfold disjoint3 at h
  simp only [State.vec]
  rw [store3_frame s d (q + 0) x y z (by omega), store3_frame s d (q + 1) x y z (by omega),
    store3_frame s d (q + 2) x y z (by omega)]

theorem vec_eq_iff {α : Type} (s : State α) (p : Nat) (x y z : α) :
    s.vec p = (x, y, z) ↔ s.mem (p + 0) = x ∧ s.mem (p + 1) = y ∧ s.mem (p + 2) = z := by
  simp [State.vec]

section Lemmas

variable {α : Type} [LinearOrderedField α]

theorem v3_from_points_eq (s : State α) (dst a b : Nat)
    (hd : dst ≠ 0) (ha : a ≠ 0) (hb : b ≠ 0) :
    v3_from_points dst a b s = some
      (((s.store (dst + 0) (s.mem (b + 0) - s.mem (a + 0))).store (dst + 1)
        (s.mem (b + 1) - s.mem (a + 1))).store (dst + 2) (s.mem (b + 2) - s.mem (a + 2))) := by
  simp [v3_from_points, hd, ha, hb]

theorem v3_add_eq (s : State α) (dst a b : Nat)
    (hd : dst ≠ 0) (ha : a ≠ 0) (hb : b ≠ 0) :
    v3_add dst a b s = some
      (((s.store (dst + 0) (s.mem (a + 0) + s.mem (b + 0))).store (dst + 1)
        (s.mem (a + 1) + s.mem (b + 1))).store (dst + 2) (s.mem (a + 2) + s.mem (b + 2))) := by
  simp [v3_add, hd, ha, hb]

theorem v3_subtract_eq (s : State α) (dst a b : Nat)
    (hd : dst ≠ 0) (ha : a ≠ 0) (hb : b ≠ 0) :
    v3_subtract dst a b s = some
      (((s.store (dst + 0) (s.mem (a + 0) - s.mem (b + 0))).store (dst + 1)
        (s.mem (a + 1) - s.mem (b + 1))).store (dst + 2) (s.mem (a + 2) - s.mem (b + 2))) := by
  simp [v3_subtract, hd, ha, hb]

theorem v3_cross_product_eq (s : State α) (dst a b : Nat)
    (hd : dst ≠ 0) (ha : a ≠ 0) (hb : b ≠ 0) :
    v3_cross_product dst a b s = some
      (((s.store (dst + 0) (s.mem (a + 1) * s.mem (b + 2) - s.mem (a + 2) * s.mem (b + 1))).store
        (dst + 1) (s.mem (a + 2) * s.mem (b + 0) - s.mem (a + 0) * s.mem (b + 2))).store
        (dst + 2) (s.mem (a + 0) * s.mem (b + 1) - s.mem (a + 1) * s.mem (b + 0))) := by
  simp [v3_cross_product, hd, ha, hb]

theorem v3_dot_product_eq (s : State α) (a b : Nat) (ha : a ≠ 0) (hb : b ≠ 0) :
    v3_dot_product a b s = some (s.mem (a + 0) * s.mem (b + 0) + s.mem (a + 1) * s.mem (b + 1)
      + s.mem (a + 2) * s.mem (b + 2)) := by
  simp [v3_dot_product, ha, hb]

theorem v3_length_eq (sqrtf : α → α) (s : State α) (a : Nat) (ha : a ≠ 0) :
    v3_length sqrtf a s = some (sqrtf (s.mem (a + 0) * s.mem (a + 0)
      + s.mem (a + 1) * s.mem (a + 1) + s.mem (a + 2) * s.mem (a + 2))) := by
  simp [v3_length, ha]

theorem v3_reflect_eq (s : State α) (dst v n : Nat)
    (hd : dst ≠ 0) (hv : v ≠ 0) (hn : n ≠ 0) :
    v3_reflect dst v n s = some
      (((s.store (dst + 0) (s.mem (v + 0) - 2 * (s.mem (v + 0) * s.mem (n + 0)
          + s.mem (v + 1) * s.mem (n + 1) + s.mem (v + 2) * s.mem (n + 2)) * s.mem (n + 0))).store
        (dst + 1) (s.mem (v + 1) - 2 * (s.mem (v + 0) * s.mem (n + 0)
          + s.mem (v + 1) * s.mem (n + 1) + s.mem (v + 2) * s.mem (n + 2)) * s.mem (n + 1))).store
        (dst + 2) (s.mem (v + 2) - 2 * (s.mem (v + 0) * s.mem (n + 0)
          + s.mem (v + 1) * s.mem (n + 1) + s.mem (v + 2) * s.mem (n + 2)) * s.mem (n + 2))) := by
  simp [v3_reflect, v3_dot_product, hd, hv, hn]

theorem v3_normalize_degenerate (sqrtf : α → α) (s : State α) (dst a : Nat)
    (hd : dst ≠ 0) (ha : a ≠ 0)
    (hlen : sqrtf (s.mem (a + 0) * s.mem (a + 0) + s.mem (a + 1) * s.mem (a + 1)
      + s.mem (a + 2) * s.mem (a + 2)) < EPSILON) :
    v3_normalize sqrtf dst a s = some
      ((((s.domainError normalizeMsg).store (dst + 0) 0).store (dst + 1) 0).store (dst + 2) 0) := by
  simp only [Nat.add_zero] at hlen ⊢
  simp [v3_normalize, v3_length, hd, ha, hlen]

theorem v3_normalize_regular (sqrtf : α → α) (s : State α) (dst a : Nat)
    (hd : dst ≠ 0) (ha : a ≠ 0)
    (hlen : ¬ sqrtf (s.mem (a + 0) * s.mem (a + 0) + s.mem (a + 1) * s.mem (a + 1)
      + s.mem (a + 2) * s.mem (a + 2)) < EPSILON) :
    v3_normalize sqrtf dst a s = some
      (((s.store (dst + 0) (s.mem (a + 0) * (1 / sqrtf (s.mem (a + 0) * s.mem (a + 0)
          + s.mem (a + 1) * s.mem (a + 1) + s.mem (a + 2) * s.mem (a + 2))))).store
        (dst + 1) (s.mem (a + 1) * (1 / sqrtf (s.mem (a + 0) * s.mem (a + 0)
          + s.mem (a + 1) * s.mem (a + 1) + s.mem (a + 2) * s.mem (a + 2))))).store
        (dst + 2) (s.mem (a + 2) * (1 / sqrtf (s.mem (a + 0) * s.mem (a + 0)
          + s.mem (a + 1) * s.mem (a + 1) + s.mem (a + 2) * s.mem (a + 2))))) := by
  simp only [Nat.add_zero] at hlen ⊢
  simp [v3_normalize, v3_length, hd, ha, hlen]

/-- What `v3_normalize` leaves in `dst`, from the contents `(x, y, z)` of `a`:
the degenerate branch. -/
theorem v3_normalize_vec_degenerate (sqrtf : α → α) (s : State α) (dst a : Nat) (x y z : α)
    (hd : dst ≠ 0) (ha : a ≠ 0) (h : s.vec a = (x, y, z))
    (hlen : sqrtf (x * x + y * y + z * z) < EPSILON) :
    ∃ s1, v3_normalize sqrtf dst a s = some s1 ∧ s1.vec dst = (0, 0, 0) := by
  obtain ⟨h0, h1, h2⟩ := (vec_eq_iff s a x y z).1 h
  rw [← h0, ← h1, ← h2] at hlen
  exact ⟨_, v3_normalize_degenerate sqrtf s dst a hd ha hlen, store3_vec _ dst 0 0 0⟩

/-- What `v3_normalize` leaves in `dst`, from the contents `(x, y, z)` of `a`:
the regular branch. -/
theorem v3_normalize_vec_regular (sqrtf : α → α) (s : State α) (dst a : Nat) (x y z : α)
    (hd : dst ≠ 0) (ha : a ≠ 0) (h : s.vec a = (x, y, z))
    (hlen : ¬ sqrtf (x * x + y * y + z * z) < EPSILON) :
    ∃ s1, v3_normalize sqrtf dst a s = some s1 ∧
      s1.vec dst = (x * (1 / sqrtf (x * x + y * y + z * z)),
        y * (1 / sqrtf (x * x + y * y + z * z)), z * (1 / sqrtf (x * x + y * y + z * z))) := by
  obtain ⟨h0, h1, h2⟩ := (vec_eq_iff s a x y z).1 h
  rw [← h0, ← h1, ← h2] at hlen ⊢
  exact ⟨_, v3_normalize_regular sqrtf s dst a hd ha hlen, store3_vec _ dst _ _ _⟩

theorem v3_angle_degenerate (sqrtf acosf : α → α) (s : State α) (a b : Nat) (la lb : α)
    (ha : a ≠ 0) (hb : b ≠ 0)
    (hla : v3_length sqrtf a s = some la) (hlb : v3_length sqrtf b s = some lb)
    (hdeg : la < EPSILON ∨ lb < EPSILON) :
    v3_angle sqrtf acosf a b s = some (0, s.domainError angleMsg) := by
  simp [v3_angle, hla, hlb, ha, hb, hdeg]

theorem v3_angle_regular (sqrtf acosf : α → α) (s : State α) (a b : Nat) (la lb d : α)
    (ha : a ≠ 0) (hb : b ≠ 0)
    (hla : v3_length sqrtf a s = some la) (hlb : v3_length sqrtf b s = some lb)
    (hdot : v3_dot_product a b s = some d) (hdeg : ¬ (la < EPSILON ∨ lb < EPSILON)) :
    v3_angle sqrtf acosf a b s = some (acosf (clamped (d / (la * lb))), s) := by
  simp only [v3_angle, hla, hlb, hdot, Option.some_bind, if_neg hdeg, clamped]
  simp [ha, hb]

theorem v3_angle_quick_degenerate (sqrtf : α → α) (s : State α) (a b : Nat) (la lb : α)
    (ha : a ≠ 0) (hb : b ≠ 0)
    (hla : v3_length sqrtf a s = some la) (hlb : v3_length sqrtf b s = some lb)
    (hdeg : la < EPSILON ∨ lb < EPSILON) :
    v3_angle_quick sqrtf a b s = some (1, s.domainError angleMsg) := by
  simp [v3_angle_quick, hla, hlb, ha, hb, hdeg]

theorem v3_angle_quick_regular (sqrtf : α → α) (s : State α) (a b : Nat) (la lb d : α)
    (ha : a ≠ 0) (hb : b ≠ 0)
    (hla : v3_length sqrtf a s = some la) (hlb : v3_length sqrtf b s = some lb)
    (hdot : v3_dot_product a b s = some d) (hdeg : ¬ (la < EPSILON ∨ lb < EPSILON)) :
    v3_angle_quick sqrtf a b s = some (clamped (d / (la * lb)), s) := by
  simp only [v3_angle_quick, hla, hlb, hdot, Option.some_bind, if_neg hdeg, clamped]
  simp [ha, hb]

theorem v3_scale_eq (s : State α) (dst : Nat) (k : α) (hd : dst ≠ 0) :
    v3_scale dst k s = some
      (((s.store (dst + 0) (s.mem (dst + 0) * k)).store (dst + 1) (s.mem (dst + 1) * k)).store
        (dst + 2) (s.mem (dst + 2) * k)) := by
  simp [v3_scale, hd, State.store, Function.update]

theorem clamped_le_one (c : α) : clamped c ≤ 1 := by
  unfold clamped
  split_ifs <;> linarith

theorem neg_one_le_clamped (c : α) : -1 ≤ clamped c := by
  unfold clamped
  split_ifs <;> linarith

/-- The loop of `v3_equals` falls through to `return true` exactly when every
remaining component pair is within a non-negative tolerance. -/
theorem v3_equals_loop_iff (s : State α) (a b : Nat) (tolerance : α) (htol : 0 ≤ tolerance)
    (n : Nat) : ∀ i : Nat, v3_equals_loop a b tolerance s i n = true ↔
      ∀ j, i ≤ j → j < i + n → |s.mem (a + j) - s.mem (b + j)| ≤ tolerance := by
  induction n with
  | zero =>
    intro i
    simp only [v3_equals_loop, true_iff]
    intro j h1 h2
    omega
  | succ n ih =>
    intro i
    have hstep : (∀ j, i ≤ j → j < i + (n + 1) → |s.mem (a + j) - s.mem (b + j)| ≤ tolerance) ↔
        |s.mem (a + i) - s.mem (b + i)| ≤ tolerance ∧
        ∀ j, i + 1 ≤ j → j < i + 1 + n → |s.mem (a + j) - s.mem (b + j)| ≤ tolerance := by
      constructor
      · intro h
        exact ⟨h i (le_refl i) (by omega), fun j h1 h2 => h j (by omega) (by omega)⟩
      · rintro ⟨h0, h⟩ j h1 h2
        rcases Nat.eq_or_lt_of_le h1 with e | e
        · rw [← e]; exact h0
        · exact h j e (by omega)
    rw [hstep]
    simp only [v3_equals_loop]
    by_cases heq : s.mem (a + i) = s.mem (b + i)
    · rw [if_pos heq, ih (i + 1)]
      have : |s.mem (a + i) - s.mem (b + i)| ≤ tolerance := by
        rw [heq, sub_self, abs_zero]; exact htol
      exact ⟨fun h => ⟨this, h⟩, fun h => h.2⟩
    · rw [if_neg heq]
      by_cases hgt : |s.mem (a + i) - s.mem (b + i)| > tolerance
      · rw [if_pos hgt]
        constructor
        · intro h; exact absurd h (by simp)
        · rintro ⟨h0, _⟩; exact absurd hgt (not_lt.mpr h0)
      · rw [if_neg hgt, ih (i + 1)]
        exact ⟨fun h => ⟨not_lt.mp hgt, h⟩, fun h => h.2⟩

end Lemmas

theorem signalled_domainError {α : Type} (s : State α) (msg : String) :
    s.signalled (s.domainError msg) msg :=
  ⟨rfl, rfl⟩

theorem not_signalled_of_stderr {α : Type} (s t : State α) (msg : String)
    (h : t.stderr = s.stderr) : ¬ s.signalled t msg := by
  rintro ⟨_, h2⟩
  rw [h] at h2
  simp at h2

theorem signalled_store3 {α : Type} (s t : State α) (msg : String) (d : Nat) (x y z : α)
    (h : s.signalled t msg) :
    s.signalled (((t.store (d + 0) x).store (d + 1) y).store (d + 2) z) msg :=
  h

/-- Three writes to the buffer at `d` change no cell outside it. -/
theorem sameOutside_store3 {α : Type} (s : State α) (d : Nat) (x y z : α) :
    s.sameOutside (((s.store (d + 0) x).store (d + 1) y).store (d + 2) z) d :=
  fun p hp => store3_frame s d p x y z hp

/-- A buffer that shares no cell with `dst` is left as it was. -/
theorem vec_of_sameOutside {α : Type} (s t : State α) (dst q : Nat) (h : s.sameOutside t dst)
    (hq : disjoint3 dst q) : t.vec q = s.vec q := by
  unfold disjoint3 at hq
  simp only [State.vec]
  rw [h (q + 0) (by omega), h (q + 1) (by omega), h (q + 2) (by omega)]

/-! ## The claims -/

section Claims

variable {α : Type} [LinearOrderedField α]

/-- C1 (aliasing invariance). For each of `v3_from_points`, `v3_add`,
`v3_subtract`, `v3_cross_product`, `v3_reflect` and `v3_normalize`, whatever
buffer `dst` is (the same as `a`, the same as `b`, overlapping them or
disjoint from them), the call returns and the final contents of `dst` are the
contents that a call with any other destination `fresh` leaves in `fresh`,
started from the same state. -/
theorem aliasing_invariance (sqrtf : α → α) (s : State α) (dst fresh a b : Nat)
    (hd : dst ≠ 0) (hf : fresh ≠ 0) (ha : a ≠ 0) (hb : b ≠ 0) :
    (∃ s1 s2, v3_from_points dst a b s = some s1 ∧ v3_from_points fresh a b s = some s2
      ∧ s1.vec dst = s2.vec fresh) ∧
    (∃ s1 s2, v3_add dst a b s = some s1 ∧ v3_add fresh a b s = some s2
      ∧ s1.vec dst = s2.vec fresh) ∧
    (∃ s1 s2, v3_subtract dst a b s = some s1 ∧ v3_subtract fresh a b s = some s2
      ∧ s1.vec dst = s2.vec fresh) ∧
    (∃ s1 s2, v3_cross_product dst a b s = some s1 ∧ v3_cross_product fresh a b s = some s2
      ∧ s1.vec dst = s2.vec fresh) ∧
    (∃ s1 s2, v3_reflect dst a b s = some s1 ∧ v3_reflect fresh a b s = some s2
      ∧ s1.vec dst = s2.vec fresh) ∧
    (∃ s1 s2, v3_normalize sqrtf dst a s = some s1 ∧ v3_normalize sqrtf fresh a s = some s2
      ∧ s1.vec dst = s2.vec fresh) := by
  refine ⟨⟨_, _, v3_from_points_eq s dst a b hd ha hb, v3_from_points_eq s fresh a b hf ha hb, ?_⟩,
    ⟨_, _, v3_add_eq s dst a b hd ha hb, v3_add_eq s fresh a b hf ha hb, ?_⟩,
    ⟨_, _, v3_subtract_eq s dst a b hd ha hb, v3_subtract_eq s fresh a b hf ha hb, ?_⟩,
    ⟨_, _, v3_cross_product_eq s dst a b hd ha hb, v3_cross_product_eq s fresh a b hf ha hb, ?_⟩,
    ⟨_, _, v3_reflect_eq s dst a b hd ha hb, v3_reflect_eq s fresh a b hf ha hb, ?_⟩, ?_⟩
  · rw [store3_vec, store3_vec]
  · rw [store3_vec, store3_vec]
  · rw [store3_vec, store3_vec]
  · rw [store3_vec, store3_vec]
  · rw [store3_vec, store3_vec]
  · by_cases hlen : sqrtf (s.mem (a + 0) * s.mem (a + 0) + s.mem (a + 1) * s.mem (a + 1)
        + s.mem (a + 2) * s.mem (a + 2)) < EPSILON
    · exact ⟨_, _, v3_normalize_degenerate sqrtf s dst a hd ha hlen,
        v3_normalize_degenerate sqrtf s fresh a hf ha hlen, by rw [store3_vec, store3_vec]⟩
    · exact ⟨_, _, v3_normalize_regular sqrtf s dst a hd ha hlen,
        v3_normalize_regular sqrtf s fresh a hf ha hlen, by rw [store3_vec, store3_vec]⟩

/-- Witness for C1: `dst = a` (address `1`) against the fresh buffer at `7`,
for `a = (1,2,3)` and `b = (4,5,6)`. -/
theorem aliasing_invariance_witness :
    (1 : Nat) ≠ 0 ∧ (7 : Nat) ≠ 0 ∧ (4 : Nat) ≠ 0 ∧
    (∃ s1 s2, v3_cross_product 1 1 4 (twoVecs ((1 : ℝ), 2, 3) (4, 5, 6)) = some s1
      ∧ v3_cross_product 7 1 4 (twoVecs ((1 : ℝ), 2, 3) (4, 5, 6)) = some s2
      ∧ s1.vec 1 = s2.vec 7) ∧
    (∃ s1 s2, v3_normalize Real.sqrt 1 1 (twoVecs ((1 : ℝ), 2, 3) (4, 5, 6)) = some s1
      ∧ v3_normalize Real.sqrt 7 1 (twoVecs ((1 : ℝ), 2, 3) (4, 5, 6)) = some s2
      ∧ s1.vec 1 = s2.vec 7) :=
  ⟨by decide, by decide, by decide,
    (aliasing_invariance Real.sqrt (twoVecs ((1 : ℝ), 2, 3) (4, 5, 6)) 1 7 1 4
      (by decide) (by decide) (by decide) (by decide)).2.2.2.1,
    (aliasing_invariance Real.sqrt (twoVecs ((1 : ℝ), 2, 3) (4, 5, 6)) 1 7 1 4
      (by decide) (by decide) (by decide) (by decide)).2.2.2.2.2⟩

/-- C2 (anticommutativity). For all buffers `a` and `b`, both calls return and
`v3_cross_product(a, b)` is the component-wise negation of
`v3_cross_product(b, a)`. -/
theorem cross_anticommutative (s : State α) (dst dst' a b : Nat)
    (hd : dst ≠ 0) (hd' : dst' ≠ 0) (ha : a ≠ 0) (hb : b ≠ 0) :
    ∃ s1 s2, v3_cross_product dst a b s = some s1 ∧ v3_cross_product dst' b a s = some s2
      ∧ s1.vec dst = neg3 (s2.vec dst') := by
  refine ⟨_, _, v3_cross_product_eq s dst a b hd ha hb,
    v3_cross_product_eq s dst' b a hd' hb ha, ?_⟩
  rw [store3_vec, store3_vec]
  refine Prod.ext ?_ (Prod.ext ?_ ?_) <;> simp only [neg3] <;> ring

/-- Witness for C2: `i x j` against `j x i`. -/
theorem cross_anticommutative_witness :
    (7 : Nat) ≠ 0 ∧ (10 : Nat) ≠ 0 ∧ (1 : Nat) ≠ 0 ∧ (4 : Nat) ≠ 0 ∧
    ∃ s1 s2, v3_cross_product 7 1 4 (twoVecs ((1 : ℚ), 0, 0) (0, 1, 0)) = some s1
      ∧ v3_cross_product 10 4 1 (twoVecs ((1 : ℚ), 0, 0) (0, 1, 0)) = some s2
      ∧ s1.vec 7 = neg3 (s2.vec 10) :=
  ⟨by decide, by decide, by decide, by decide,
    cross_anticommutative (twoVecs ((1 : ℚ), 0, 0) (0, 1, 0)) 7 10 1 4
      (by decide) (by decide) (by decide) (by decide)⟩

/-- Reflection involution over exact arithmetic. Over an ordered
field, where no product or sum is rounded: when the normal in `n` has
`dot(n, n) = 1` and the first destination `d1` shares no cell with `n` (so
that the second call sees the same normal; `d1` may be `v` itself), reflecting
`v` into `d1` and then reflecting `d1` into `d2` returns, and `d2` holds the
original `v` exactly. -/
theorem reflect_involution (s : State α) (d1 d2 v n : Nat)
    (h1 : d1 ≠ 0) (h2 : d2 ≠ 0) (hv : v ≠ 0) (hn : n ≠ 0)
    (hunit : v3_dot_product n n s = some 1) (hsep : disjoint3 d1 n) :
    ∃ s1 s2, v3_reflect d1 v n s = some s1 ∧ v3_reflect d2 d1 n s1 = some s2
      ∧ s2.vec d2 = s.vec v := by
  refine ⟨_, _, v3_reflect_eq s d1 v n h1 hv hn, v3_reflect_eq _ d2 d1 n h2 h1 hn, ?_⟩
  rw [v3_dot_product_eq s n n hn hn] at hunit
  have hu := Option.some.inj hunit
  rw [store3_vec]
  generalize hs1 : ((s.store (d1 + 0) _).store (d1 + 1) _).store (d1 + 2) _ = s1
  have hr := store3_vec s d1 (s.mem (v + 0) - 2 * (s.mem (v + 0) * s.mem (n + 0)
          + s.mem (v + 1) * s.mem (n + 1) + s.mem (v + 2) * s.mem (n + 2)) * s.mem (n + 0))
    (s.mem (v + 1) - 2 * (s.mem (v + 0) * s.mem (n + 0)
          + s.mem (v + 1) * s.mem (n + 1) + s.mem (v + 2) * s.mem (n + 2)) * s.mem (n + 1))
    (s.mem (v + 2) - 2 * (s.mem (v + 0) * s.mem (n + 0)
          + s.mem (v + 1) * s.mem (n + 1) + s.mem (v + 2) * s.mem (n + 2)) * s.mem (n + 2))
  have hnn := store3_vec_frame s d1 n (s.mem (v + 0) - 2 * (s.mem (v + 0) * s.mem (n + 0)
          + s.mem (v + 1) * s.mem (n + 1) + s.mem (v + 2) * s.mem (n + 2)) * s.mem (n + 0))
    (s.mem (v + 1) - 2 * (s.mem (v + 0) * s.mem (n + 0)
          + s.mem (v + 1) * s.mem (n + 1) + s.mem (v + 2) * s.mem (n + 2)) * s.mem (n + 1))
    (s.mem (v + 2) - 2 * (s.mem (v + 0) * s.mem (n + 0)
          + s.mem (v + 1) * s.mem (n + 1) + s.mem (v + 2) * s.mem (n + 2)) * s.mem (n + 2)) hsep
  rw [hs1] at hr hnn
  obtain ⟨r0, r1, r2⟩ := (vec_eq_iff s1 d1 _ _ _).1 hr
  obtain ⟨n0, n1, n2⟩ := (vec_eq_iff s1 n _ _ _).1 hnn
  rw [r0, r1, r2, n0, n1, n2]
  simp only [State.vec]
  refine Prod.ext ?_ (Prod.ext ?_ ?_) <;> simp only
  · linear_combination (4 * (s.mem (v + 0) * s.mem (n + 0) + s.mem (v + 1) * s.mem (n + 1)
      + s.mem (v + 2) * s.mem (n + 2)) * s.mem (n + 0)) * hu
  · linear_combination (4 * (s.mem (v + 0) * s.mem (n + 0) + s.mem (v + 1) * s.mem (n + 1)
      + s.mem (v + 2) * s.mem (n + 2)) * s.mem (n + 1)) * hu
  · linear_combination (4 * (s.mem (v + 0) * s.mem (n + 0) + s.mem (v + 1) * s.mem (n + 1)
      + s.mem (v + 2) * s.mem (n + 2)) * s.mem (n + 2)) * hu

/-- Example of the exact involution: `v = (1,1,0)` reflected in place across
`n = (1,0,0)`, then reflected again into the buffer at `7`. -/
theorem reflect_involution_witness :
    v3_dot_product 4 4 (twoVecs ((1 : ℚ), 1, 0) (1, 0, 0)) = some 1 ∧ disjoint3 1 4 ∧
    ∃ s1 s2, v3_reflect 1 1 4 (twoVecs ((1 : ℚ), 1, 0) (1, 0, 0)) = some s1
      ∧ v3_reflect 7 1 4 s1 = some s2
      ∧ s2.vec 7 = (twoVecs ((1 : ℚ), 1, 0) (1, 0, 0)).vec 1 :=
  ⟨by norm_num [v3_dot_product, twoVecs], by decide,
    reflect_involution (twoVecs ((1 : ℚ), 1, 0) (1, 0, 0)) 1 7 1 4
      (by decide) (by decide) (by decide) (by decide)
      (by norm_num [v3_dot_product, twoVecs]) (by decide)⟩

/-! ### Claims about `sqrtf`, with `Real.sqrt` for `sqrtf` -/

theorem EPSILON_pos : (0 : ℝ) < EPSILON := by
  unfold EPSILON; norm_num

theorem EPSILON_lt_one : (EPSILON : ℝ) < 1 := by
  unfold EPSILON; norm_num

/-- Dividing a vector by its (positive) Euclidean norm gives a vector of norm 1. -/
theorem sqrt_normalized (x y z : ℝ) (hpos : 0 < Real.sqrt (x * x + y * y + z * z)) :
    Real.sqrt (x * (1 / Real.sqrt (x * x + y * y + z * z))
        * (x * (1 / Real.sqrt (x * x + y * y + z * z)))
      + y * (1 / Real.sqrt (x * x + y * y + z * z))
        * (y * (1 / Real.sqrt (x * x + y * y + z * z)))
      + z * (1 / Real.sqrt (x * x + y * y + z * z))
        * (z * (1 / Real.sqrt (x * x + y * y + z * z)))) = 1 := by
  have hq : 0 ≤ x * x + y * y + z * z := by
    nlinarith [mul_self_nonneg x, mul_self_nonneg y, mul_self_nonneg z]
  have hL := Real.mul_self_sqrt hq
  have hne : Real.sqrt (x * x + y * y + z * z) ≠ 0 := ne_of_gt hpos
  generalize Real.sqrt (x * x + y * y + z * z) = L at hL hne hpos ⊢
  have : x * (1 / L) * (x * (1 / L)) + y * (1 / L) * (y * (1 / L))
      + z * (1 / L) * (z * (1 / L)) = 1 := by
    field_simp
    linarith
  rw [this, Real.sqrt_one]

/-- The length that `v3_length` reads back from a freshly written buffer. -/
theorem v3_length_of_vec (s : State ℝ) (p : Nat) (x y z : ℝ) (hp : p ≠ 0)
    (h : s.vec p = (x, y, z)) :
    v3_length Real.sqrt p s = some (Real.sqrt (x * x + y * y + z * z)) := by
  obtain ⟨h0, h1, h2⟩ := (vec_eq_iff s p x y z).1 h
  rw [v3_length_eq Real.sqrt s p hp, h0, h1, h2]

/-- C5, as stated, fails: the vector `(1e-7, 0, 0)` is not the zero vector,
yet its length is below `EPSILON`, so `v3_normalize` writes the zero vector,
whose length `0` is not within `1e-5` of `1`. -/
theorem normalize_unit_length_counterexample :
    (twoVecs ((1 / 10000000 : ℝ), 0, 0) (0, 0, 0)).vec 1 ≠ (0, 0, 0) ∧
    ∃ s1 l, v3_normalize Real.sqrt 7 1 (twoVecs ((1 / 10000000 : ℝ), 0, 0) (0, 0, 0)) = some s1
      ∧ v3_length Real.sqrt 7 s1 = some l ∧ ¬ (|l - 1| ≤ 1 / 100000) := by
  have hlen : Real.sqrt ((twoVecs ((1 / 10000000 : ℝ), 0, 0) (0, 0, 0)).mem (1 + 0)
        * (twoVecs ((1 / 10000000 : ℝ), 0, 0) (0, 0, 0)).mem (1 + 0)
      + (twoVecs ((1 / 10000000 : ℝ), 0, 0) (0, 0, 0)).mem (1 + 1)
        * (twoVecs ((1 / 10000000 : ℝ), 0, 0) (0, 0, 0)).mem (1 + 1)
      + (twoVecs ((1 / 10000000 : ℝ), 0, 0) (0, 0, 0)).mem (1 + 2)
        * (twoVecs ((1 / 10000000 : ℝ), 0, 0) (0, 0, 0)).mem (1 + 2)) < EPSILON := by
    have e : (twoVecs ((1 / 10000000 : ℝ), 0, 0) (0, 0, 0)).mem (1 + 0)
        * (twoVecs ((1 / 10000000 : ℝ), 0, 0) (0, 0, 0)).mem (1 + 0)
      + (twoVecs ((1 / 10000000 : ℝ), 0, 0) (0, 0, 0)).mem (1 + 1)
        * (twoVecs ((1 / 10000000 : ℝ), 0, 0) (0, 0, 0)).mem (1 + 1)
      + (twoVecs ((1 / 10000000 : ℝ), 0, 0) (0, 0, 0)).mem (1 + 2)
        * (twoVecs ((1 / 10000000 : ℝ), 0, 0) (0, 0, 0)).mem (1 + 2)
        = (1 / 10000000) * (1 / 10000000) := by
      norm_num [twoVecs]
    rw [e, Real.sqrt_mul_self (by norm_num)]
    unfold EPSILON; norm_num
  refine ⟨by norm_num [twoVecs, State.vec], _, _,
    v3_normalize_degenerate Real.sqrt _ 7 1 (by decide) (by decide) hlen,
    v3_length_of_vec _ 7 0 0 0 (by decide) (store3_vec _ 7 0 0 0), ?_⟩
  norm_num

/-- A normalised vector has unit length over exact real arithmetic. Over the
reals, where no square overflows and nothing is rounded: when the length of `a` is at least
`EPSILON`, `v3_normalize` returns and the length of what it wrote to `dst` is
exactly `1`, hence within `1e-5` of `1`. -/
theorem normalize_unit_length (s : State ℝ) (dst a : Nat) (la : ℝ)
    (hd : dst ≠ 0) (ha : a ≠ 0)
    (hla : v3_length Real.sqrt a s = some la) (hnd : EPSILON ≤ la) :
    ∃ s1 l, v3_normalize Real.sqrt dst a s = some s1 ∧ v3_length Real.sqrt dst s1 = some l
      ∧ l = 1 ∧ |l - 1| ≤ 1 / 100000 := by
  rw [v3_length_eq Real.sqrt s a ha] at hla
  have hla := Option.some.inj hla
  have hpos : 0 < Real.sqrt (s.mem (a + 0) * s.mem (a + 0) + s.mem (a + 1) * s.mem (a + 1)
      + s.mem (a + 2) * s.mem (a + 2)) := by
    rw [hla]; exact lt_of_lt_of_le EPSILON_pos hnd
  have hlen : ¬ Real.sqrt (s.mem (a + 0) * s.mem (a + 0) + s.mem (a + 1) * s.mem (a + 1)
      + s.mem (a + 2) * s.mem (a + 2)) < EPSILON := by
    rw [hla]; exact not_lt.mpr hnd
  refine ⟨_, _, v3_normalize_regular Real.sqrt s dst a hd ha hlen,
    v3_length_of_vec _ dst _ _ _ hd (store3_vec _ dst _ _ _), ?_⟩
  rw [sqrt_normalized _ _ _ hpos]
  norm_num

/-- Example of the exact unit length: `a = (3,4,0)`, of length `5`. -/
theorem normalize_unit_length_witness :
    v3_length Real.sqrt 1 (twoVecs ((3 : ℝ), 4, 0) (0, 0, 0)) = some 5 ∧ (EPSILON : ℝ) ≤ 5 ∧
    ∃ s1 l, v3_normalize Real.sqrt 7 1 (twoVecs ((3 : ℝ), 4, 0) (0, 0, 0)) = some s1
      ∧ v3_length Real.sqrt 7 s1 = some l ∧ l = 1 ∧ |l - 1| ≤ 1 / 100000 :=
  have h5 : v3_length Real.sqrt 1 (twoVecs ((3 : ℝ), 4, 0) (0, 0, 0)) = some 5 := by
    rw [v3_length_eq Real.sqrt _ 1 (by decide)]
    have e : (twoVecs ((3 : ℝ), 4, 0) (0, 0, 0)).mem (1 + 0)
        * (twoVecs ((3 : ℝ), 4, 0) (0, 0, 0)).mem (1 + 0)
      + (twoVecs ((3 : ℝ), 4, 0) (0, 0, 0)).mem (1 + 1)
        * (twoVecs ((3 : ℝ), 4, 0) (0, 0, 0)).mem (1 + 1)
      + (twoVecs ((3 : ℝ), 4, 0) (0, 0, 0)).mem (1 + 2)
        * (twoVecs ((3 : ℝ), 4, 0) (0, 0, 0)).mem (1 + 2) = 5 * 5 := by
      norm_num [twoVecs]
    rw [e, Real.sqrt_mul_self (by norm_num)]
  have hE : (EPSILON : ℝ) ≤ 5 := by unfold EPSILON; norm_num
  ⟨h5, hE, normalize_unit_length (twoVecs ((3 : ℝ), 4, 0) (0, 0, 0)) 7 1 5
    (by decide) (by decide) h5 hE⟩

/-- C6 (normalization is idempotent). For every vector in `a` (zero, below
`EPSILON` or not), normalizing `a` into `d1` and then `d1` into `d2` returns,
and `d2` holds what the first call wrote to `d1`. Either call may be in place
(`d1 = a`, `d2 = d1`). -/
theorem normalize_idempotent (s : State ℝ) (d1 d2 a : Nat)
    (h1 : d1 ≠ 0) (h2 : d2 ≠ 0) (ha : a ≠ 0) :
    ∃ s1 s2, v3_normalize Real.sqrt d1 a s = some s1 ∧ v3_normalize Real.sqrt d2 d1 s1 = some s2
      ∧ s2.vec d2 = s1.vec d1 := by
  by_cases hlen : Real.sqrt (s.mem (a + 0) * s.mem (a + 0) + s.mem (a + 1) * s.mem (a + 1)
      + s.mem (a + 2) * s.mem (a + 2)) < EPSILON
  · obtain ⟨s1, e1, v1⟩ := v3_normalize_vec_degenerate Real.sqrt s d1 a _ _ _ h1 ha rfl hlen
    have hz : Real.sqrt ((0 : ℝ) * 0 + 0 * 0 + 0 * 0) < EPSILON := by
      norm_num [EPSILON_pos]
    obtain ⟨s2, e2, v2⟩ := v3_normalize_vec_degenerate Real.sqrt s1 d2 d1 0 0 0 h2 h1 v1 hz
    exact ⟨s1, s2, e1, e2, by rw [v1, v2]⟩
  · obtain ⟨s1, e1, v1⟩ := v3_normalize_vec_regular Real.sqrt s d1 a _ _ _ h1 ha rfl hlen
    have hpos : 0 < Real.sqrt (s.mem (a + 0) * s.mem (a + 0) + s.mem (a + 1) * s.mem (a + 1)
        + s.mem (a + 2) * s.mem (a + 2)) :=
      lt_of_lt_of_le EPSILON_pos (not_lt.mp hlen)
    have hone := sqrt_normalized _ _ _ hpos
    have hreg : ¬ Real.sqrt (s.mem (a + 0) * (1 / Real.sqrt (s.mem (a + 0) * s.mem (a + 0)
          + s.mem (a + 1) * s.mem (a + 1) + s.mem (a + 2) * s.mem (a + 2)))
        * (s.mem (a + 0) * (1 / Real.sqrt (s.mem (a + 0) * s.mem (a + 0)
          + s.mem (a + 1) * s.mem (a + 1) + s.mem (a + 2) * s.mem (a + 2))))
      + s.mem (a + 1) * (1 / Real.sqrt (s.mem (a + 0) * s.mem (a + 0)
          + s.mem (a + 1) * s.mem (a + 1) + s.mem (a + 2) * s.mem (a + 2)))
        * (s.mem (a + 1) * (1 / Real.sqrt (s.mem (a + 0) * s.mem (a + 0)
          + s.mem (a + 1) * s.mem (a + 1) + s.mem (a + 2) * s.mem (a + 2))))
      + s.mem (a + 2) * (1 / Real.sqrt (s.mem (a + 0) * s.mem (a + 0)
          + s.mem (a + 1) * s.mem (a + 1) + s.mem (a + 2) * s.mem (a + 2)))
        * (s.mem (a + 2) * (1 / Real.sqrt (s.mem (a + 0) * s.mem (a + 0)
          + s.mem (a + 1) * s.mem (a + 1) + s.mem (a + 2) * s.mem (a + 2))))) < EPSILON := by
      rw [hone]; exact not_lt.mpr (le_of_lt EPSILON_lt_one)
    obtain ⟨s2, e2, v2⟩ := v3_normalize_vec_regular Real.sqrt s1 d2 d1 _ _ _ h2 h1 v1 hreg
    refine ⟨s1, s2, e1, e2, ?_⟩
    rw [v2, v1, hone]
    simp

/-- Witness for C6: `a = (3,4,0)` normalized in place, then normalized again
into the buffer at `7`. -/
theorem normalize_idempotent_witness :
    (1 : Nat) ≠ 0 ∧ (7 : Nat) ≠ 0 ∧
    ∃ s1 s2, v3_normalize Real.sqrt 1 1 (twoVecs ((3 : ℝ), 4, 0) (0, 0, 0)) = some s1
      ∧ v3_normalize Real.sqrt 7 1 s1 = some s2 ∧ s2.vec 7 = s1.vec 1 :=
  ⟨by decide, by decide,
    normalize_idempotent (twoVecs ((3 : ℝ), 4, 0) (0, 0, 0)) 1 7 1
      (by decide) (by decide) (by decide)⟩

/-- C7 (degenerate-input policy). With `EPSILON = 1e-6`: `v3_angle` and
`v3_angle_quick` return, signal a domain error (`errno = EINVAL` and a
diagnostic on `stderr`) exactly when the length of `a` or of `b` is below
`EPSILON`, and then return `0` and `1`; otherwise they leave the state as it
was. `v3_normalize` returns, signals the error exactly when the length of `a`
is below `EPSILON`, and then writes the zero vector to `dst`. In particular,
when `a` holds the zero vector, `v3_angle` returns `0`, `v3_angle_quick`
returns `1` and `v3_normalize` writes the zero vector, each with the error
signalled. -/
theorem degenerate_policy (s : State ℝ) (dst a b : Nat)
    (hd : dst ≠ 0) (ha : a ≠ 0) (hb : b ≠ 0) :
    (∃ la lb r t, v3_length Real.sqrt a s = some la ∧ v3_length Real.sqrt b s = some lb
      ∧ v3_angle Real.sqrt Real.arccos a b s = some (r, t)
      ∧ (s.signalled t angleMsg ↔ la < EPSILON ∨ lb < EPSILON)
      ∧ (la < EPSILON ∨ lb < EPSILON → r = 0)
      ∧ (¬ (la < EPSILON ∨ lb < EPSILON) → t = s)) ∧
    (∃ la lb r t, v3_length Real.sqrt a s = some la ∧ v3_length Real.sqrt b s = some lb
      ∧ v3_angle_quick Real.sqrt a b s = some (r, t)
      ∧ (s.signalled t angleMsg ↔ la < EPSILON ∨ lb < EPSILON)
      ∧ (la < EPSILON ∨ lb < EPSILON → r = 1)
      ∧ (¬ (la < EPSILON ∨ lb < EPSILON) → t = s)) ∧
    (∃ la t, v3_length Real.sqrt a s = some la
      ∧ v3_normalize Real.sqrt dst a s = some t
      ∧ (s.signalled t normalizeMsg ↔ la < EPSILON)
      ∧ (la < EPSILON → t.vec dst = (0, 0, 0))
      ∧ (¬ la < EPSILON → t.errno = s.errno ∧ t.stderr = s.stderr)) ∧
    (s.vec a = (0, 0, 0) →
      (∃ t, v3_angle Real.sqrt Real.arccos a b s = some (0, t) ∧ s.signalled t angleMsg) ∧
      (∃ t, v3_angle_quick Real.sqrt a b s = some (1, t) ∧ s.signalled t angleMsg) ∧
      (∃ t, v3_normalize Real.sqrt dst a s = some t ∧ t.vec dst = (0, 0, 0)
        ∧ s.signalled t normalizeMsg)) := by
  have hla := v3_length_eq Real.sqrt s a ha
  have hlb := v3_length_eq Real.sqrt s b hb
  have hdot := v3_dot_product_eq s a b ha hb
  refine ⟨?_, ?_, ?_, ?_⟩
  · by_cases hdeg : Real.sqrt (s.mem (a + 0) * s.mem (a + 0) + s.mem (a + 1) * s.mem (a + 1)
        + s.mem (a + 2) * s.mem (a + 2)) < EPSILON
      ∨ Real.sqrt (s.mem (b + 0) * s.mem (b + 0) + s.mem (b + 1) * s.mem (b + 1)
        + s.mem (b + 2) * s.mem (b + 2)) < EPSILON
    · exact ⟨_, _, _, _, hla, hlb,
        v3_angle_degenerate Real.sqrt Real.arccos s a b _ _ ha hb hla hlb hdeg,
        ⟨fun _ => hdeg, fun _ => signalled_domainError s angleMsg⟩, fun _ => rfl,
        fun h => absurd hdeg h⟩
    · exact ⟨_, _, _, _, hla, hlb,
        v3_angle_regular Real.sqrt Real.arccos s a b _ _ _ ha hb hla hlb hdot hdeg,
        ⟨fun h => absurd h (not_signalled_of_stderr s s angleMsg rfl), fun h => absurd h hdeg⟩,
        fun h => absurd h hdeg, fun _ => rfl⟩
  · by_cases hdeg : Real.sqrt (s.mem (a + 0) * s.mem (a + 0) + s.mem (a + 1) * s.mem (a + 1)
        + s.mem (a + 2) * s.mem (a + 2)) < EPSILON
      ∨ Real.sqrt (s.mem (b + 0) * s.mem (b + 0) + s.mem (b + 1) * s.mem (b + 1)
        + s.mem (b + 2) * s.mem (b + 2)) < EPSILON
    · exact ⟨_, _, _, _, hla, hlb,
        v3_angle_quick_degenerate Real.sqrt s a b _ _ ha hb hla hlb hdeg,
        ⟨fun _ => hdeg, fun _ => signalled_domainError s angleMsg⟩, fun _ => rfl,
        fun h => absurd hdeg h⟩
    · exact ⟨_, _, _, _, hla, hlb,
        v3_angle_quick_regular Real.sqrt s a b _ _ _ ha hb hla hlb hdot hdeg,
        ⟨fun h => absurd h (not_signalled_of_stderr s s angleMsg rfl), fun h => absurd h hdeg⟩,
        fun h => absurd h hdeg, fun _ => rfl⟩
  · by_cases hlen : Real.sqrt (s.mem (a + 0) * s.mem (a + 0) + s.mem (a + 1) * s.mem (a + 1)
        + s.mem (a + 2) * s.mem (a + 2)) < EPSILON
    · exact ⟨_, _, hla, v3_normalize_degenerate Real.sqrt s dst a hd ha hlen,
        ⟨fun _ => hlen, fun _ => signalled_store3 s _ normalizeMsg dst 0 0 0
          (signalled_domainError s normalizeMsg)⟩,
        fun _ => store3_vec _ dst 0 0 0, fun h => absurd hlen h⟩
    · exact ⟨_, _, hla, v3_normalize_regular Real.sqrt s dst a hd ha hlen,
        ⟨fun h => absurd h (not_signalled_of_stderr s _ normalizeMsg rfl),
          fun h => absurd h hlen⟩,
        fun h => absurd h hlen, fun _ => ⟨rfl, rfl⟩⟩
  · intro hz
    obtain ⟨h0, h1, h2⟩ := (vec_eq_iff s a 0 0 0).1 hz
    have hlen : Real.sqrt (s.mem (a + 0) * s.mem (a + 0) + s.mem (a + 1) * s.mem (a + 1)
        + s.mem (a + 2) * s.mem (a + 2)) < EPSILON := by
      rw [h0, h1, h2]
      norm_num [EPSILON_pos]
    exact ⟨⟨_, v3_angle_degenerate Real.sqrt Real.arccos s a b _ _ ha hb hla hlb (Or.inl hlen),
        signalled_domainError s angleMsg⟩,
      ⟨_, v3_angle_quick_degenerate Real.sqrt s a b _ _ ha hb hla hlb (Or.inl hlen),
        signalled_domainError s angleMsg⟩,
      ⟨_, v3_normalize_degenerate Real.sqrt s dst a hd ha hlen, store3_vec _ dst 0 0 0,
        signalled_store3 s _ normalizeMsg dst 0 0 0 (signalled_domainError s normalizeMsg)⟩⟩

/-- Witness for C7: `a` is the zero vector and `b = (0,1,0)`. -/
theorem degenerate_policy_witness :
    (7 : Nat) ≠ 0 ∧ (1 : Nat) ≠ 0 ∧ (4 : Nat) ≠ 0 ∧
    (twoVecs ((0 : ℝ), 0, 0) (0, 1, 0)).vec 1 = (0, 0, 0) ∧
    (∃ t, v3_angle Real.sqrt Real.arccos 1 4 (twoVecs ((0 : ℝ), 0, 0) (0, 1, 0)) = some (0, t)
      ∧ (twoVecs ((0 : ℝ), 0, 0) (0, 1, 0)).signalled t angleMsg) ∧
    (∃ t, v3_angle_quick Real.sqrt 1 4 (twoVecs ((0 : ℝ), 0, 0) (0, 1, 0)) = some (1, t)
      ∧ (twoVecs ((0 : ℝ), 0, 0) (0, 1, 0)).signalled t angleMsg) ∧
    (∃ t, v3_normalize Real.sqrt 7 1 (twoVecs ((0 : ℝ), 0, 0) (0, 1, 0)) = some t
      ∧ t.vec 7 = (0, 0, 0) ∧ (twoVecs ((0 : ℝ), 0, 0) (0, 1, 0)).signalled t normalizeMsg) :=
  ⟨by decide, by decide, by decide, by simp [twoVecs, State.vec],
    (degenerate_policy (twoVecs ((0 : ℝ), 0, 0) (0, 1, 0)) 7 1 4
      (by decide) (by decide) (by decide)).2.2.2 (by simp [twoVecs, State.vec])⟩

/-- C8 (tolerance equality). For every non-negative `tolerance`, `v3_equals`
returns, and returns `true` if and only if each of the three component pairs
satisfies `|a[i] - b[i]| <= tolerance`. -/
theorem equals_iff_within_tolerance (s : State α) (a b : Nat) (tolerance : α)
    (ha : a ≠ 0) (hb : b ≠ 0) (htol : 0 ≤ tolerance) :
    ∃ r, v3_equals a b tolerance s = some r ∧
      (r = true ↔ ∀ i, i < 3 → |s.mem (a + i) - s.mem (b + i)| ≤ tolerance) := by
  refine ⟨v3_equals_loop a b tolerance s 0 3, by simp [v3_equals, ha, hb], ?_⟩
  rw [v3_equals_loop_iff s a b tolerance htol 3 0]
  constructor
  · intro h i hi
    exact h i (Nat.zero_le i) (by omega)
  · intro h j _ hj
    exact h j (by omega)

/-- Witness for C8: `equals((1,2,3), (1.0000005,2,3), 1e-5)` is `true` and
`equals((1,2,3), (1.1,2,3), 1e-5)` is `false`. -/
theorem equals_iff_within_tolerance_witness :
    (0 : ℚ) ≤ 1 / 100000 ∧
    (∃ r, v3_equals 1 4 (1 / 100000) (twoVecs ((1 : ℚ), 2, 3) (10000005 / 10000000, 2, 3))
        = some r ∧
      (r = true ↔ ∀ i, i < 3 →
        |(twoVecs ((1 : ℚ), 2, 3) (10000005 / 10000000, 2, 3)).mem (1 + i)
          - (twoVecs ((1 : ℚ), 2, 3) (10000005 / 10000000, 2, 3)).mem (4 + i)| ≤ 1 / 100000)) ∧
    v3_equals 1 4 (1 / 100000) (twoVecs ((1 : ℚ), 2, 3) (10000005 / 10000000, 2, 3))
      = some true ∧
    v3_equals 1 4 (1 / 100000) (twoVecs ((1 : ℚ), 2, 3) (11 / 10, 2, 3)) = some false :=
  ⟨by norm_num,
    equals_iff_within_tolerance (twoVecs ((1 : ℚ), 2, 3) (10000005 / 10000000, 2, 3)) 1 4
      (1 / 100000) (by decide) (by decide) (by norm_num),
    by norm_num [v3_equals, v3_equals_loop, twoVecs, abs_le],
    by norm_num [v3_equals, v3_equals_loop, twoVecs, lt_abs]⟩

/-- Both angle functions return, and what `v3_angle` returns is the arccosine
of what `v3_angle_quick` returns, a value of `[-1, 1]`. -/
theorem angle_pair (s : State ℝ) (a b : Nat) (ha : a ≠ 0) (hb : b ≠ 0) :
    ∃ q t1 t2, v3_angle Real.sqrt Real.arccos a b s = some (Real.arccos q, t1)
      ∧ v3_angle_quick Real.sqrt a b s = some (q, t2) ∧ -1 ≤ q ∧ q ≤ 1 := by
  have hla := v3_length_eq Real.sqrt s a ha
  have hlb := v3_length_eq Real.sqrt s b hb
  have hdot := v3_dot_product_eq s a b ha hb
  by_cases hdeg : Real.sqrt (s.mem (a + 0) * s.mem (a + 0) + s.mem (a + 1) * s.mem (a + 1)
      + s.mem (a + 2) * s.mem (a + 2)) < EPSILON
    ∨ Real.sqrt (s.mem (b + 0) * s.mem (b + 0) + s.mem (b + 1) * s.mem (b + 1)
      + s.mem (b + 2) * s.mem (b + 2)) < EPSILON
  · refine ⟨1, s.domainError angleMsg, s.domainError angleMsg, ?_,
      v3_angle_quick_degenerate Real.sqrt s a b _ _ ha hb hla hlb hdeg, by norm_num, le_refl 1⟩
    rw [Real.arccos_one]
    exact v3_angle_degenerate Real.sqrt Real.arccos s a b _ _ ha hb hla hlb hdeg
  · exact ⟨_, _, _, v3_angle_regular Real.sqrt Real.arccos s a b _ _ _ ha hb hla hlb hdot hdeg,
      v3_angle_quick_regular Real.sqrt s a b _ _ _ ha hb hla hlb hdot hdeg,
      neg_one_le_clamped _, clamped_le_one _⟩

/-- Over exact real arithmetic `v3_angle_quick` orders pairs exactly as
`v3_angle` does, reversed, in both directions. Over the reals, with the
strictly decreasing `Real.arccos` for `acosf`: for all `a`, `b`, `c`, `d` (in
particular all non-degenerate ones) the four calls return, and
`v3_angle(a, b) <= v3_angle(c, d)` if and only if
`v3_angle_quick(a, b) >= v3_angle_quick(c, d)`. Binary32 keeps one direction
only. -/
theorem angle_quick_order_proxy (s : State ℝ) (a b c d : Nat)
    (ha : a ≠ 0) (hb : b ≠ 0) (hc : c ≠ 0) (hd : d ≠ 0) :
    ∃ r1 q1 r2 q2 t1 t2 t3 t4,
      v3_angle Real.sqrt Real.arccos a b s = some (r1, t1)
      ∧ v3_angle_quick Real.sqrt a b s = some (q1, t2)
      ∧ v3_angle Real.sqrt Real.arccos c d s = some (r2, t3)
      ∧ v3_angle_quick Real.sqrt c d s = some (q2, t4)
      ∧ (r1 ≤ r2 ↔ q1 ≥ q2) := by
  obtain ⟨q1, t1, t2, e1, e2, l1, u1⟩ := angle_pair s a b ha hb
  obtain ⟨q2, t3, t4, e3, e4, l2, u2⟩ := angle_pair s c d hc hd
  exact ⟨_, q1, _, q2, t1, t2, t3, t4, e1, e2, e3, e4,
    Real.strictAntiOn_arccos.le_iff_le ⟨l1, u1⟩ ⟨l2, u2⟩⟩

/-- Example of the exact order proxy: the right angle between `(1,0,0)` and
`(0,1,0)` against the zero angle between `(1,0,0)` and itself. -/
theorem angle_quick_order_proxy_witness :
    (1 : Nat) ≠ 0 ∧ (4 : Nat) ≠ 0 ∧
    ∃ r1 q1 r2 q2 t1 t2 t3 t4,
      v3_angle Real.sqrt Real.arccos 1 4 (twoVecs ((1 : ℝ), 0, 0) (0, 1, 0)) = some (r1, t1)
      ∧ v3_angle_quick Real.sqrt 1 4 (twoVecs ((1 : ℝ), 0, 0) (0, 1, 0)) = some (q1, t2)
      ∧ v3_angle Real.sqrt Real.arccos 1 1 (twoVecs ((1 : ℝ), 0, 0) (0, 1, 0)) = some (r2, t3)
      ∧ v3_angle_quick Real.sqrt 1 1 (twoVecs ((1 : ℝ), 0, 0) (0, 1, 0)) = some (q2, t4)
      ∧ (r1 ≤ r2 ↔ q1 ≥ q2) :=
  ⟨by decide, by decide,
    angle_quick_order_proxy (twoVecs ((1 : ℝ), 0, 0) (0, 1, 0)) 1 4 1 1
      (by decide) (by decide) (by decide) (by decide)⟩

/-- C12 (linearity/identity). For every vector in `v`: `v3_add(v, zero)`
writes `v`, `v3_subtract(v, v)` writes the zero vector, `v3_scale(v, 1)`
leaves `v` as it was and `v3_scale(v, 0)` leaves the zero vector in `v`; every
call returns. -/
theorem linearity_identity (s : State α) (dst v z : Nat)
    (hd : dst ≠ 0) (hv : v ≠ 0) (hz : z ≠ 0) (hzero : s.vec z = (0, 0, 0)) :
    (∃ t, v3_add dst v z s = some t ∧ t.vec dst = s.vec v) ∧
    (∃ t, v3_subtract dst v v s = some t ∧ t.vec dst = (0, 0, 0)) ∧
    (∃ t, v3_scale v 1 s = some t ∧ t.vec v = s.vec v) ∧
    (∃ t, v3_scale v 0 s = some t ∧ t.vec v = (0, 0, 0)) := by
  obtain ⟨z0, z1, z2⟩ := (vec_eq_iff s z 0 0 0).1 hzero
  refine ⟨⟨_, v3_add_eq s dst v z hd hv hz, ?_⟩, ⟨_, v3_subtract_eq s dst v v hd hv hv, ?_⟩,
    ⟨_, v3_scale_eq s v 1 hv, ?_⟩, ⟨_, v3_scale_eq s v 0 hv, ?_⟩⟩
  · rw [store3_vec, z0, z1, z2]
    simp [State.vec]
  · rw [store3_vec]
    simp
  · rw [store3_vec]
    simp [State.vec]
  · rw [store3_vec]
    simp

/-- Witness for C12: `v = (1,2,3)` at address `1`, the zero vector at `4`. -/
theorem linearity_identity_witness :
    (twoVecs ((1 : ℚ), 2, 3) (0, 0, 0)).vec 4 = (0, 0, 0) ∧
    (∃ t, v3_add 7 1 4 (twoVecs ((1 : ℚ), 2, 3) (0, 0, 0)) = some t
      ∧ t.vec 7 = (twoVecs ((1 : ℚ), 2, 3) (0, 0, 0)).vec 1) ∧
    (∃ t, v3_subtract 7 1 1 (twoVecs ((1 : ℚ), 2, 3) (0, 0, 0)) = some t
      ∧ t.vec 7 = (0, 0, 0)) ∧
    (∃ t, v3_scale 1 1 (twoVecs ((1 : ℚ), 2, 3) (0, 0, 0)) = some t
      ∧ t.vec 1 = (twoVecs ((1 : ℚ), 2, 3) (0, 0, 0)).vec 1) ∧
    (∃ t, v3_scale 1 0 (twoVecs ((1 : ℚ), 2, 3) (0, 0, 0)) = some t ∧ t.vec 1 = (0, 0, 0)) :=
  ⟨by simp [twoVecs, State.vec],
    linearity_identity (twoVecs ((1 : ℚ), 2, 3) (0, 0, 0)) 7 1 4
      (by decide) (by decide) (by decide) (by simp [twoVecs, State.vec])⟩

/-- C13 (dot product symmetry). For all `a` and `b`, `v3_dot_product(a, b)`
and `v3_dot_product(b, a)` return the same value, and that value is
`a[0]*b[0] + a[1]*b[1] + a[2]*b[2]`. -/
theorem dot_product_symmetric (s : State α) (a b : Nat) (ha : a ≠ 0) (hb : b ≠ 0) :
    ∃ d, v3_dot_product a b s = some d ∧ v3_dot_product b a s = some d
      ∧ d = s.mem (a + 0) * s.mem (b + 0) + s.mem (a + 1) * s.mem (b + 1)
        + s.mem (a + 2) * s.mem (b + 2) := by
  refine ⟨_, v3_dot_product_eq s a b ha hb, ?_, rfl⟩
  rw [v3_dot_product_eq s b a hb ha]
  congr 1
  ring

/-- Witness for C13: `(1,2,3) . (4,5,6) = 32` in either order. -/
theorem dot_product_symmetric_witness :
    (1 : Nat) ≠ 0 ∧ (4 : Nat) ≠ 0 ∧
    (∃ d, v3_dot_product 1 4 (twoVecs ((1 : ℚ), 2, 3) (4, 5, 6)) = some d
      ∧ v3_dot_product 4 1 (twoVecs ((1 : ℚ), 2, 3) (4, 5, 6)) = some d
      ∧ d = (twoVecs ((1 : ℚ), 2, 3) (4, 5, 6)).mem (1 + 0)
          * (twoVecs ((1 : ℚ), 2, 3) (4, 5, 6)).mem (4 + 0)
        + (twoVecs ((1 : ℚ), 2, 3) (4, 5, 6)).mem (1 + 1)
          * (twoVecs ((1 : ℚ), 2, 3) (4, 5, 6)).mem (4 + 1)
        + (twoVecs ((1 : ℚ), 2, 3) (4, 5, 6)).mem (1 + 2)
          * (twoVecs ((1 : ℚ), 2, 3) (4, 5, 6)).mem (4 + 2)) ∧
    v3_dot_product 1 4 (twoVecs ((1 : ℚ), 2, 3) (4, 5, 6)) = some 32 :=
  ⟨by decide, by decide,
    dot_product_symmetric (twoVecs ((1 : ℚ), 2, 3) (4, 5, 6)) 1 4 (by decide) (by decide),
    by norm_num [v3_dot_product, twoVecs]⟩

/-- C14 (`v3_from_points` is `b - a`). For all points `a` and `b`,
`v3_from_points(a, b)` returns and writes the per-component difference
`b - a`; this is what `v3_subtract(b, a)` writes, and `v3_from_points(a, a)`
writes the zero vector. -/
theorem from_points_difference (s : State α) (dst dst' a b : Nat)
    (hd : dst ≠ 0) (hd' : dst' ≠ 0) (ha : a ≠ 0) (hb : b ≠ 0) :
    ∃ t1 t2 t3, v3_from_points dst a b s = some t1
      ∧ t1.vec dst = (s.mem (b + 0) - s.mem (a + 0), s.mem (b + 1) - s.mem (a + 1),
          s.mem (b + 2) - s.mem (a + 2))
      ∧ v3_subtract dst' b a s = some t2 ∧ t2.vec dst' = t1.vec dst
      ∧ v3_from_points dst a a s = some t3 ∧ t3.vec dst = (0, 0, 0) := by
  refine ⟨_, _, _, v3_from_points_eq s dst a b hd ha hb, store3_vec _ dst _ _ _,
    v3_subtract_eq s dst' b a hd' hb ha, ?_, v3_from_points_eq s dst a a hd ha ha, ?_⟩
  · rw [store3_vec, store3_vec]
  · rw [store3_vec]
    simp

/-- Witness for C14: `from_points((1,2,3), (4,6,8)) = (3,4,5)`. -/
theorem from_points_difference_witness :
    (7 : Nat) ≠ 0 ∧ (10 : Nat) ≠ 0 ∧ (1 : Nat) ≠ 0 ∧ (4 : Nat) ≠ 0 ∧
    ∃ t1, v3_from_points 7 1 4 (twoVecs ((1 : ℚ), 2, 3) (4, 6, 8)) = some t1
      ∧ t1.vec 7 = (3, 4, 5) :=
  ⟨by decide, by decide, by decide, by decide,
    match from_points_difference (twoVecs ((1 : ℚ), 2, 3) (4, 6, 8)) 7 10 1 4
      (by decide) (by decide) (by decide) (by decide) with
    | ⟨t1, _, _, e1, v1, _⟩ => ⟨t1, e1, by rw [v1]; norm_num [twoVecs]⟩⟩

/-- C15 (`v3_reflect` is `v - 2 (v . n) n`, with `n` taken as it is). For
every `v` and every `n`, of unit length or not, `v3_reflect(v, n)` returns and
writes `v[i] - 2 * dot(v, n) * n[i]` in each component, where `dot(v, n)` is
what `v3_dot_product(v, n)` returns: `n` is not normalized. -/
theorem reflect_formula (s : State α) (dst v n : Nat)
    (hd : dst ≠ 0) (hv : v ≠ 0) (hn : n ≠ 0) :
    ∃ d t, v3_dot_product v n s = some d ∧ v3_reflect dst v n s = some t
      ∧ t.vec dst = (s.mem (v + 0) - 2 * d * s.mem (n + 0),
          s.mem (v + 1) - 2 * d * s.mem (n + 1), s.mem (v + 2) - 2 * d * s.mem (n + 2)) :=
  ⟨_, _, v3_dot_product_eq s v n hv hn, v3_reflect_eq s dst v n hd hv hn,
    store3_vec _ dst _ _ _⟩

/-- Witness for C15: `reflect((1,1,0), (1,0,0)) = (-1,1,0)`, and with the
normal `(2,0,0)`, which is not of unit length, `reflect((1,1,0), (2,0,0))` is
`(1,1,0) - 2 * 2 * (2,0,0) = (-7,1,0)`. -/
theorem reflect_formula_witness :
    (7 : Nat) ≠ 0 ∧ (1 : Nat) ≠ 0 ∧ (4 : Nat) ≠ 0 ∧
    (∃ t, v3_reflect 7 1 4 (twoVecs ((1 : ℚ), 1, 0) (1, 0, 0)) = some t
      ∧ t.vec 7 = (-1, 1, 0)) ∧
    (∃ t, v3_reflect 7 1 4 (twoVecs ((1 : ℚ), 1, 0) (2, 0, 0)) = some t
      ∧ t.vec 7 = (-7, 1, 0)) :=
  ⟨by decide, by decide, by decide,
    match reflect_formula (twoVecs ((1 : ℚ), 1, 0) (1, 0, 0)) 7 1 4
      (by decide) (by decide) (by decide) with
    | ⟨d, t, hdot, e, hvec⟩ => ⟨t, e, by
        rw [v3_dot_product_eq _ 1 4 (by decide) (by decide)] at hdot
        rw [hvec, ← Option.some.inj hdot]; norm_num [twoVecs]⟩,
    match reflect_formula (twoVecs ((1 : ℚ), 1, 0) (2, 0, 0)) 7 1 4
      (by decide) (by decide) (by decide) with
    | ⟨d, t, hdot, e, hvec⟩ => ⟨t, e, by
        rw [v3_dot_product_eq _ 1 4 (by decide) (by decide)] at hdot
        rw [hvec, ← Option.some.inj hdot]; norm_num [twoVecs]⟩⟩

/-- The length of a buffer holding `(x, y, z)` with `x^2 + y^2 + z^2 = l^2`, `l >= 0`. -/
theorem v3_length_pythagorean (s : State ℝ) (p : Nat) (x y z l : ℝ) (hp : p ≠ 0)
    (h : s.vec p = (x, y, z)) (hl : 0 ≤ l) (hsq : x * x + y * y + z * z = l * l) :
    v3_length Real.sqrt p s = some l := by
  rw [v3_length_of_vec s p x y z hp h, hsq, Real.sqrt_mul_self hl]

/-- The clamp leaves a value of `[-1, 1]` as it is. -/
theorem clamped_of_mem (c : α) (h1 : -1 ≤ c) (h2 : c ≤ 1) : clamped c = c := by
  unfold clamped
  rw [if_neg (not_lt.mpr h2), if_neg (not_lt.mpr h1)]

/-- C18 (perpendicular vectors). When `a` and `b` both have length at least
`EPSILON` and `v3_dot_product(a, b)` is `0`, `v3_angle(a, b)` returns `pi / 2`
and `v3_angle_quick(a, b)` returns `0`, both leaving the state as it was. -/
theorem perpendicular_angle (s : State ℝ) (a b : Nat) (la lb : ℝ)
    (ha : a ≠ 0) (hb : b ≠ 0)
    (hla : v3_length Real.sqrt a s = some la) (hlb : v3_length Real.sqrt b s = some lb)
    (hna : EPSILON ≤ la) (hnb : EPSILON ≤ lb)
    (hperp : v3_dot_product a b s = some 0) :
    v3_angle Real.sqrt Real.arccos a b s = some (Real.pi / 2, s)
      ∧ v3_angle_quick Real.sqrt a b s = some (0, s) := by
  have hdeg : ¬ (la < EPSILON ∨ lb < EPSILON) := by
    rintro (h | h)
    · exact absurd h (not_lt.mpr hna)
    · exact absurd h (not_lt.mpr hnb)
  have hc : clamped ((0 : ℝ) / (la * lb)) = 0 := by
    rw [zero_div]
    exact clamped_of_mem 0 (by norm_num) (by norm_num)
  constructor
  · rw [v3_angle_regular Real.sqrt Real.arccos s a b la lb 0 ha hb hla hlb hperp hdeg, hc,
      Real.arccos_zero]
  · rw [v3_angle_quick_regular Real.sqrt s a b la lb 0 ha hb hla hlb hperp hdeg, hc]

/-- Witness for C18: `a = (1,0,0)` and `b = (0,1,0)`. -/
theorem perpendicular_angle_witness :
    v3_length Real.sqrt 1 (twoVecs ((1 : ℝ), 0, 0) (0, 1, 0)) = some 1 ∧
    v3_length Real.sqrt 4 (twoVecs ((1 : ℝ), 0, 0) (0, 1, 0)) = some 1 ∧
    (EPSILON : ℝ) ≤ 1 ∧
    v3_dot_product 1 4 (twoVecs ((1 : ℝ), 0, 0) (0, 1, 0)) = some 0 ∧
    v3_angle Real.sqrt Real.arccos 1 4 (twoVecs ((1 : ℝ), 0, 0) (0, 1, 0))
      = some (Real.pi / 2, twoVecs ((1 : ℝ), 0, 0) (0, 1, 0)) ∧
    v3_angle_quick Real.sqrt 1 4 (twoVecs ((1 : ℝ), 0, 0) (0, 1, 0))
      = some (0, twoVecs ((1 : ℝ), 0, 0) (0, 1, 0)) :=
  have h1 : v3_length Real.sqrt 1 (twoVecs ((1 : ℝ), 0, 0) (0, 1, 0)) = some 1 :=
    v3_length_pythagorean _ 1 1 0 0 1 (by decide) (by simp [twoVecs, State.vec])
      (by norm_num) (by norm_num)
  have h4 : v3_length Real.sqrt 4 (twoVecs ((1 : ℝ), 0, 0) (0, 1, 0)) = some 1 :=
    v3_length_pythagorean _ 4 0 1 0 1 (by decide) (by simp [twoVecs, State.vec])
      (by norm_num) (by norm_num)
  have hE : (EPSILON : ℝ) ≤ 1 := le_of_lt EPSILON_lt_one
  have hp : v3_dot_product 1 4 (twoVecs ((1 : ℝ), 0, 0) (0, 1, 0)) = some 0 := by
    norm_num [v3_dot_product, twoVecs]
  ⟨h1, h4, hE, hp,
    perpendicular_angle (twoVecs ((1 : ℝ), 0, 0) (0, 1, 0)) 1 4 1 1
      (by decide) (by decide) h1 h4 hE hE hp⟩

/-- The cosine quotient of `(x, y, z)` and `k * (x, y, z)` is `k / |k|`. -/
theorem quotient_parallel (x y z k : ℝ) (hpos : 0 < Real.sqrt (x * x + y * y + z * z))
    (hk : k ≠ 0) :
    (x * (k * x) + y * (k * y) + z * (k * z))
      / (Real.sqrt (x * x + y * y + z * z)
        * Real.sqrt (k * x * (k * x) + k * y * (k * y) + k * z * (k * z))) = k / |k| := by
  have hq : 0 ≤ x * x + y * y + z * z := by
    nlinarith [mul_self_nonneg x, mul_self_nonneg y, mul_self_nonneg z]
  have hL := Real.mul_self_sqrt hq
  have e1 : k * x * (k * x) + k * y * (k * y) + k * z * (k * z)
      = k * k * (x * x + y * y + z * z) := by ring
  have e2 : x * (k * x) + y * (k * y) + z * (k * z) = k * (x * x + y * y + z * z) := by ring
  rw [e1, e2, Real.sqrt_mul (mul_self_nonneg k), Real.sqrt_mul_self_eq_abs]
  have hne : Real.sqrt (x * x + y * y + z * z) ≠ 0 := ne_of_gt hpos
  have habs : |k| ≠ 0 := abs_ne_zero.mpr hk
  generalize Real.sqrt (x * x + y * y + z * z) = L at hL hne hpos ⊢
  rw [← hL]
  field_simp
  ring

/-- Parallel and opposite vectors over exact real arithmetic.
Over the reals, where the lengths and the quotient are not rounded: when `b`
holds `k * a` and both `a` and `b` have length at least `EPSILON`, for `k > 0`
`v3_angle(a, b)` returns `0` and `v3_angle_quick(a, b)` returns `1`, and for
`k < 0` `v3_angle(a, b)` returns `pi` and `v3_angle_quick(a, b)` returns `-1`. -/
theorem parallel_angle (s : State ℝ) (a b : Nat) (k la lb : ℝ)
    (ha : a ≠ 0) (hb : b ≠ 0) (hk : s.vec b = smul3 k (s.vec a))
    (hla : v3_length Real.sqrt a s = some la) (hlb : v3_length Real.sqrt b s = some lb)
    (hna : EPSILON ≤ la) (hnb : EPSILON ≤ lb) :
    (0 < k → v3_angle Real.sqrt Real.arccos a b s = some (0, s)
      ∧ v3_angle_quick Real.sqrt a b s = some (1, s)) ∧
    (k < 0 → v3_angle Real.sqrt Real.arccos a b s = some (Real.pi, s)
      ∧ v3_angle_quick Real.sqrt a b s = some (-1, s)) := by
  have hdeg : ¬ (la < EPSILON ∨ lb < EPSILON) := by
    rintro (h | h)
    · exact absurd h (not_lt.mpr hna)
    · exact absurd h (not_lt.mpr hnb)
  have hdot := v3_dot_product_eq s a b ha hb
  have hA := v3_angle_regular Real.sqrt Real.arccos s a b la lb _ ha hb hla hlb hdot hdeg
  have hQ := v3_angle_quick_regular Real.sqrt s a b la lb _ ha hb hla hlb hdot hdeg
  have hla2 := hla
  have hlb2 := hlb
  rw [v3_length_eq Real.sqrt s a ha] at hla2
  rw [v3_length_eq Real.sqrt s b hb] at hlb2
  have hla3 := Option.some.inj hla2
  have hlb3 := Option.some.inj hlb2
  obtain ⟨h0, h1, h2⟩ := (vec_eq_iff s b _ _ _).1 hk
  simp only [State.vec] at h0 h1 h2
  have hpos : 0 < Real.sqrt (s.mem (a + 0) * s.mem (a + 0) + s.mem (a + 1) * s.mem (a + 1)
      + s.mem (a + 2) * s.mem (a + 2)) := by
    rw [hla3]; exact lt_of_lt_of_le EPSILON_pos hna
  have hquot : ∀ hk0 : k ≠ 0, (s.mem (a + 0) * s.mem (b + 0) + s.mem (a + 1) * s.mem (b + 1)
      + s.mem (a + 2) * s.mem (b + 2)) / (la * lb) = k / |k| := by
    intro hk0
    rw [← hla3, ← hlb3, h0, h1, h2]
    exact quotient_parallel _ _ _ k hpos hk0
  constructor
  · intro hkpos
    have hc : clamped ((s.mem (a + 0) * s.mem (b + 0) + s.mem (a + 1) * s.mem (b + 1)
        + s.mem (a + 2) * s.mem (b + 2)) / (la * lb)) = 1 := by
      rw [hquot (ne_of_gt hkpos), abs_of_pos hkpos, div_self (ne_of_gt hkpos)]
      exact clamped_of_mem 1 (by norm_num) (le_refl 1)
    rw [hA, hQ, hc, Real.arccos_one]
    exact ⟨rfl, rfl⟩
  · intro hkneg
    have hc : clamped ((s.mem (a + 0) * s.mem (b + 0) + s.mem (a + 1) * s.mem (b + 1)
        + s.mem (a + 2) * s.mem (b + 2)) / (la * lb)) = -1 := by
      rw [hquot (ne_of_lt hkneg), abs_of_neg hkneg, div_neg, div_self (ne_of_lt hkneg)]
      exact clamped_of_mem (-1) (le_refl _) (by norm_num)
    rw [hA, hQ, hc, Real.arccos_neg_one]
    exact ⟨rfl, rfl⟩

/-- Example of the exact angles: `a = (1,0,0)` with `b = 2 * a`, and with `b = -1 * a`. -/
theorem parallel_angle_witness :
    ((twoVecs ((1 : ℝ), 0, 0) (2, 0, 0)).vec 4
        = smul3 2 ((twoVecs ((1 : ℝ), 0, 0) (2, 0, 0)).vec 1) ∧
      v3_length Real.sqrt 1 (twoVecs ((1 : ℝ), 0, 0) (2, 0, 0)) = some 1 ∧
      v3_length Real.sqrt 4 (twoVecs ((1 : ℝ), 0, 0) (2, 0, 0)) = some 2 ∧
      (EPSILON : ℝ) ≤ 1 ∧ (EPSILON : ℝ) ≤ 2 ∧ (0 : ℝ) < 2 ∧
      v3_angle Real.sqrt Real.arccos 1 4 (twoVecs ((1 : ℝ), 0, 0) (2, 0, 0))
        = some (0, twoVecs ((1 : ℝ), 0, 0) (2, 0, 0)) ∧
      v3_angle_quick Real.sqrt 1 4 (twoVecs ((1 : ℝ), 0, 0) (2, 0, 0))
        = some (1, twoVecs ((1 : ℝ), 0, 0) (2, 0, 0))) ∧
    ((twoVecs ((1 : ℝ), 0, 0) (-1, 0, 0)).vec 4
        = smul3 (-1) ((twoVecs ((1 : ℝ), 0, 0) (-1, 0, 0)).vec 1) ∧
      v3_length Real.sqrt 1 (twoVecs ((1 : ℝ), 0, 0) (-1, 0, 0)) = some 1 ∧
      v3_length Real.sqrt 4 (twoVecs ((1 : ℝ), 0, 0) (-1, 0, 0)) = some 1 ∧
      (-1 : ℝ) < 0 ∧
      v3_angle Real.sqrt Real.arccos 1 4 (twoVecs ((1 : ℝ), 0, 0) (-1, 0, 0))
        = some (Real.pi, twoVecs ((1 : ℝ), 0, 0) (-1, 0, 0)) ∧
      v3_angle_quick Real.sqrt 1 4 (twoVecs ((1 : ℝ), 0, 0) (-1, 0, 0))
        = some (-1, twoVecs ((1 : ℝ), 0, 0) (-1, 0, 0))) :=
  have hv2 : (twoVecs ((1 : ℝ), 0, 0) (2, 0, 0)).vec 4
      = smul3 2 ((twoVecs ((1 : ℝ), 0, 0) (2, 0, 0)).vec 1) := by
    norm_num [twoVecs, State.vec, smul3]
  have ha2 : v3_length Real.sqrt 1 (twoVecs ((1 : ℝ), 0, 0) (2, 0, 0)) = some 1 :=
    v3_length_pythagorean _ 1 1 0 0 1 (by decide) (by simp [twoVecs, State.vec])
      (by norm_num) (by norm_num)
  have hb2 : v3_length Real.sqrt 4 (twoVecs ((1 : ℝ), 0, 0) (2, 0, 0)) = some 2 :=
    v3_length_pythagorean _ 4 2 0 0 2 (by decide) (by simp [twoVecs, State.vec])
      (by norm_num) (by norm_num)
  have hvm : (twoVecs ((1 : ℝ), 0, 0) (-1, 0, 0)).vec 4
      = smul3 (-1) ((twoVecs ((1 : ℝ), 0, 0) (-1, 0, 0)).vec 1) := by
    norm_num [twoVecs, State.vec, smul3]
  have ham : v3_length Real.sqrt 1 (twoVecs ((1 : ℝ), 0, 0) (-1, 0, 0)) = some 1 :=
    v3_length_pythagorean _ 1 1 0 0 1 (by decide) (by simp [twoVecs, State.vec])
      (by norm_num) (by norm_num)
  have hbm : v3_length Real.sqrt 4 (twoVecs ((1 : ℝ), 0, 0) (-1, 0, 0)) = some 1 :=
    v3_length_pythagorean _ 4 (-1) 0 0 1 (by decide) (by simp [twoVecs, State.vec])
      (by norm_num) (by norm_num)
  have hE1 : (EPSILON : ℝ) ≤ 1 := le_of_lt EPSILON_lt_one
  have hE2 : (EPSILON : ℝ) ≤ 2 := le_trans hE1 (by norm_num)
  ⟨⟨hv2, ha2, hb2, hE1, hE2, by norm_num,
      (parallel_angle (twoVecs ((1 : ℝ), 0, 0) (2, 0, 0)) 1 4 2 1 2 (by decide) (by decide)
        hv2 ha2 hb2 hE1 hE2).1 (by norm_num)⟩,
    ⟨hvm, ham, hbm, by norm_num,
      (parallel_angle (twoVecs ((1 : ℝ), 0, 0) (-1, 0, 0)) 1 4 (-1) 1 1 (by decide) (by decide)
        hvm ham hbm hE1 hE1).2 (by norm_num)⟩⟩

/-- C21 (operations write only their designated output). For non-null
buffers: `v3_from_points`, `v3_add`, `v3_subtract`, `v3_cross_product`,
`v3_reflect` and `v3_normalize` return a state that differs from the initial
one in no cell outside `dst[0..2]`, so a source buffer that shares no cell
with `dst` is unchanged; `v3_scale` changes no cell outside its in-place
buffer; `v3_angle` and `v3_angle_quick` return a state with the same memory.
`v3_dot_product`, `v3_length` and `v3_equals` contain no store: they return a
value and no new state. -/
theorem writes_only_output (sqrtf acosf : α → α) (s : State α) (dst a b : Nat)
    (k tolerance : α) (hd : dst ≠ 0) (ha : a ≠ 0) (hb : b ≠ 0) :
    (∃ t, v3_from_points dst a b s = some t ∧ s.sameOutside t dst
      ∧ (disjoint3 dst a → t.vec a = s.vec a) ∧ (disjoint3 dst b → t.vec b = s.vec b)) ∧
    (∃ t, v3_add dst a b s = some t ∧ s.sameOutside t dst
      ∧ (disjoint3 dst a → t.vec a = s.vec a) ∧ (disjoint3 dst b → t.vec b = s.vec b)) ∧
    (∃ t, v3_subtract dst a b s = some t ∧ s.sameOutside t dst
      ∧ (disjoint3 dst a → t.vec a = s.vec a) ∧ (disjoint3 dst b → t.vec b = s.vec b)) ∧
    (∃ t, v3_cross_product dst a b s = some t ∧ s.sameOutside t dst
      ∧ (disjoint3 dst a → t.vec a = s.vec a) ∧ (disjoint3 dst b → t.vec b = s.vec b)) ∧
    (∃ t, v3_reflect dst a b s = some t ∧ s.sameOutside t dst
      ∧ (disjoint3 dst a → t.vec a = s.vec a) ∧ (disjoint3 dst b → t.vec b = s.vec b)) ∧
    (∃ t, v3_normalize sqrtf dst a s = some t ∧ s.sameOutside t dst
      ∧ (disjoint3 dst a → t.vec a = s.vec a)) ∧
    (∃ t, v3_scale dst k s = some t ∧ s.sameOutside t dst) ∧
    (∃ r t, v3_angle sqrtf acosf a b s = some (r, t) ∧ t.mem = s.mem) ∧
    (∃ r t, v3_angle_quick sqrtf a b s = some (r, t) ∧ t.mem = s.mem) ∧
    (∃ d, v3_dot_product a b s = some d) ∧
    (∃ l, v3_length sqrtf a s = some l) ∧
    (∃ r, v3_equals a b tolerance s = some r) := by
  have hla := v3_length_eq sqrtf s a ha
  have hlb := v3_length_eq sqrtf s b hb
  have hdot := v3_dot_product_eq s a b ha hb
  have frame : ∀ x y z : α,
      s.sameOutside (((s.store (dst + 0) x).store (dst + 1) y).store (dst + 2) z) dst
      ∧ (disjoint3 dst a →
          (((s.store (dst + 0) x).store (dst + 1) y).store (dst + 2) z).vec a = s.vec a)
      ∧ (disjoint3 dst b →
          (((s.store (dst + 0) x).store (dst + 1) y).store (dst + 2) z).vec b = s.vec b) :=
    fun x y z => ⟨sameOutside_store3 s dst x y z,
      fun h => store3_vec_frame s dst a x y z h, fun h => store3_vec_frame s dst b x y z h⟩
  refine ⟨⟨_, v3_from_points_eq s dst a b hd ha hb, frame _ _ _⟩,
    ⟨_, v3_add_eq s dst a b hd ha hb, frame _ _ _⟩,
    ⟨_, v3_subtract_eq s dst a b hd ha hb, frame _ _ _⟩,
    ⟨_, v3_cross_product_eq s dst a b hd ha hb, frame _ _ _⟩,
    ⟨_, v3_reflect_eq s dst a b hd ha hb, frame _ _ _⟩, ?_,
    ⟨_, v3_scale_eq s dst k hd, sameOutside_store3 s dst _ _ _⟩, ?_, ?_,
    ⟨_, hdot⟩, ⟨_, hla⟩, ⟨v3_equals_loop a b tolerance s 0 3, by simp [v3_equals, ha, hb]⟩⟩
  · by_cases hlen : sqrtf (s.mem (a + 0) * s.mem (a + 0) + s.mem (a + 1) * s.mem (a + 1)
        + s.mem (a + 2) * s.mem (a + 2)) < EPSILON
    · exact ⟨_, v3_normalize_degenerate sqrtf s dst a hd ha hlen,
        fun p hp => store3_frame (s.domainError normalizeMsg) dst p 0 0 0 hp,
        fun h => store3_vec_frame (s.domainError normalizeMsg) dst a 0 0 0 h⟩
    · exact ⟨_, v3_normalize_regular sqrtf s dst a hd ha hlen, (frame _ _ _).1,
        (frame _ _ _).2.1⟩
  · by_cases hdeg : sqrtf (s.mem (a + 0) * s.mem (a + 0) + s.mem (a + 1) * s.mem (a + 1)
        + s.mem (a + 2) * s.mem (a + 2)) < EPSILON
      ∨ sqrtf (s.mem (b + 0) * s.mem (b + 0) + s.mem (b + 1) * s.mem (b + 1)
        + s.mem (b + 2) * s.mem (b + 2)) < EPSILON
    · exact ⟨_, _, v3_angle_degenerate sqrtf acosf s a b _ _ ha hb hla hlb hdeg, rfl⟩
    · exact ⟨_, _, v3_angle_regular sqrtf acosf s a b _ _ _ ha hb hla hlb hdot hdeg, rfl⟩
  · by_cases hdeg : sqrtf (s.mem (a + 0) * s.mem (a + 0) + s.mem (a + 1) * s.mem (a + 1)
        + s.mem (a + 2) * s.mem (a + 2)) < EPSILON
      ∨ sqrtf (s.mem (b + 0) * s.mem (b + 0) + s.mem (b + 1) * s.mem (b + 1)
        + s.mem (b + 2) * s.mem (b + 2)) < EPSILON
    · exact ⟨_, _, v3_angle_quick_degenerate sqrtf s a b _ _ ha hb hla hlb hdeg, rfl⟩
    · exact ⟨_, _, v3_angle_quick_regular sqrtf s a b _ _ _ ha hb hla hlb hdot hdeg, rfl⟩

/-- Witness for C21: `v3_cross_product` of `a = (1,2,3)` and `b = (4,5,6)`
in place (`dst = a`, at address `1`): `b`, at address `4`, keeps its value;
and the in-place `v3_scale` of `a` by `2`. -/
theorem writes_only_output_witness :
    (1 : Nat) ≠ 0 ∧ (4 : Nat) ≠ 0 ∧ disjoint3 1 4 ∧
    (∃ t, v3_cross_product 1 1 4 (twoVecs ((1 : ℝ), 2, 3) (4, 5, 6)) = some t
      ∧ t.vec 4 = (twoVecs ((1 : ℝ), 2, 3) (4, 5, 6)).vec 4) ∧
    (∃ t, v3_scale 1 2 (twoVecs ((1 : ℝ), 2, 3) (4, 5, 6)) = some t
      ∧ (twoVecs ((1 : ℝ), 2, 3) (4, 5, 6)).sameOutside t 1) :=
  ⟨by decide, by decide, by decide,
    match (writes_only_output Real.sqrt Real.arccos (twoVecs ((1 : ℝ), 2, 3) (4, 5, 6)) 1 1 4 2
      (1 / 100000) (by decide) (by decide) (by decide)).2.2.2.1 with
    | ⟨t, e, _, _, hb⟩ => ⟨t, e, hb (by decide)⟩,
    (writes_only_output Real.sqrt Real.arccos (twoVecs ((1 : ℝ), 2, 3) (4, 5, 6)) 1 1 4 2
      (1 / 100000) (by decide) (by decide) (by decide)).2.2.2.2.2.2.1⟩

/-- Cauchy-Schwarz for triples: `(a . b)^2 <= (a . a) (b . b)`. -/
theorem cauchy_schwarz3 (x y z u v w : ℝ) :
    (x * u + y * v + z * w) ^ 2 ≤ (x * x + y * y + z * z) * (u * u + v * v + w * w) := by
  nlinarith [sq_nonneg (x * v - y * u), sq_nonneg (y * w - z * v), sq_nonneg (z * u - x * w)]

/-- The dot product is bounded by the product of the lengths. -/
theorem abs_dot_le (x y z u v w : ℝ) :
    |x * u + y * v + z * w|
      ≤ Real.sqrt (x * x + y * y + z * z) * Real.sqrt (u * u + v * v + w * w) := by
  have hq : 0 ≤ x * x + y * y + z * z := by
    nlinarith [mul_self_nonneg x, mul_self_nonneg y, mul_self_nonneg z]
  rw [← Real.sqrt_mul hq]
  exact Real.abs_le_sqrt (cauchy_schwarz3 x y z u v w)

/-- C22 (the clamp is the identity over the reals). When `a` and `b` both
have length at least `EPSILON`, the quotient `dot(a, b) / (len_a * len_b)`
lies in `[-1, 1]`, `v3_angle_quick(a, b)` returns that quotient and
`v3_angle(a, b)` returns its arccosine. -/
theorem clamp_is_identity (s : State ℝ) (a b : Nat) (la lb : ℝ)
    (ha : a ≠ 0) (hb : b ≠ 0)
    (hla : v3_length Real.sqrt a s = some la) (hlb : v3_length Real.sqrt b s = some lb)
    (hna : EPSILON ≤ la) (hnb : EPSILON ≤ lb) :
    ∃ d, v3_dot_product a b s = some d
      ∧ -1 ≤ d / (la * lb) ∧ d / (la * lb) ≤ 1
      ∧ clamped (d / (la * lb)) = d / (la * lb)
      ∧ v3_angle_quick Real.sqrt a b s = some (d / (la * lb), s)
      ∧ v3_angle Real.sqrt Real.arccos a b s = some (Real.arccos (d / (la * lb)), s) := by
  have hdeg : ¬ (la < EPSILON ∨ lb < EPSILON) := by
    rintro (h | h)
    · exact absurd h (not_lt.mpr hna)
    · exact absurd h (not_lt.mpr hnb)
  have hdot := v3_dot_product_eq s a b ha hb
  have hA := v3_angle_regular Real.sqrt Real.arccos s a b la lb _ ha hb hla hlb hdot hdeg
  have hQ := v3_angle_quick_regular Real.sqrt s a b la lb _ ha hb hla hlb hdot hdeg
  have hla2 := hla
  have hlb2 := hlb
  rw [v3_length_eq Real.sqrt s a ha] at hla2
  rw [v3_length_eq Real.sqrt s b hb] at hlb2
  have hla3 := Option.some.inj hla2
  have hlb3 := Option.some.inj hlb2
  have hpos : 0 < la * lb :=
    mul_pos (lt_of_lt_of_le EPSILON_pos hna) (lt_of_lt_of_le EPSILON_pos hnb)
  have hcs : |s.mem (a + 0) * s.mem (b + 0) + s.mem (a + 1) * s.mem (b + 1)
      + s.mem (a + 2) * s.mem (b + 2)| ≤ la * lb := by
    rw [← hla3, ← hlb3]
    exact abs_dot_le _ _ _ _ _ _
  obtain ⟨hlo, hhi⟩ := abs_le.mp hcs
  have h1 : -1 ≤ (s.mem (a + 0) * s.mem (b + 0) + s.mem (a + 1) * s.mem (b + 1)
      + s.mem (a + 2) * s.mem (b + 2)) / (la * lb) := by
    rw [le_div_iff₀ hpos]; linarith
  have h2 : (s.mem (a + 0) * s.mem (b + 0) + s.mem (a + 1) * s.mem (b + 1)
      + s.mem (a + 2) * s.mem (b + 2)) / (la * lb) ≤ 1 := by
    rw [div_le_iff₀ hpos]; linarith
  have hc := clamped_of_mem _ h1 h2
  refine ⟨_, hdot, h1, h2, hc, ?_, ?_⟩
  · rw [hQ, hc]
  · rw [hA, hc]

/-- Witness for C22: `a = (1,0,0)` and `b = (0,1,0)`, both of length `1`. -/
theorem clamp_is_identity_witness :
    v3_length Real.sqrt 1 (twoVecs ((1 : ℝ), 0, 0) (0, 1, 0)) = some 1 ∧
    v3_length Real.sqrt 4 (twoVecs ((1 : ℝ), 0, 0) (0, 1, 0)) = some 1 ∧
    (EPSILON : ℝ) ≤ 1 ∧
    ∃ d, v3_dot_product 1 4 (twoVecs ((1 : ℝ), 0, 0) (0, 1, 0)) = some d
      ∧ -1 ≤ d / (1 * 1) ∧ d / (1 * 1) ≤ 1
      ∧ clamped (d / (1 * 1)) = d / (1 * 1)
      ∧ v3_angle_quick Real.sqrt 1 4 (twoVecs ((1 : ℝ), 0, 0) (0, 1, 0))
          = some (d / (1 * 1), twoVecs ((1 : ℝ), 0, 0) (0, 1, 0))
      ∧ v3_angle Real.sqrt Real.arccos 1 4 (twoVecs ((1 : ℝ), 0, 0) (0, 1, 0))
          = some (Real.arccos (d / (1 * 1)), twoVecs ((1 : ℝ), 0, 0) (0, 1, 0)) :=
  have h1 : v3_length Real.sqrt 1 (twoVecs ((1 : ℝ), 0, 0) (0, 1, 0)) = some 1 :=
    v3_length_pythagorean _ 1 1 0 0 1 (by decide) (by simp [twoVecs, State.vec])
      (by norm_num) (by norm_num)
  have h4 : v3_length Real.sqrt 4 (twoVecs ((1 : ℝ), 0, 0) (0, 1, 0)) = some 1 :=
    v3_length_pythagorean _ 4 0 1 0 1 (by decide) (by simp [twoVecs, State.vec])
      (by norm_num) (by norm_num)
  have hE : (EPSILON : ℝ) ≤ 1 := le_of_lt EPSILON_lt_one
  ⟨h1, h4, hE,
    clamp_is_identity (twoVecs ((1 : ℝ), 0, 0) (0, 1, 0)) 1 4 1 1
      (by decide) (by decide) h1 h4 hE hE⟩

/-- The cross product is orthogonal to its operands over exact
arithmetic. Over an ordered field, where no product or sum is rounded: for
all `a` and `b`, `v3_cross_product(a, b)` returns, and the triple it writes to
`dst` has dot product `0` with the operand values of `a` and of `b`. When
`dst` shares no cell with `a` (with `b`), so that the operand is still in
memory after the call, `v3_dot_product(dst, a)` (`v3_dot_product(dst, b)`)
returns `0`. -/
theorem cross_orthogonal (s : State α) (dst a b : Nat)
    (hd : dst ≠ 0) (ha : a ≠ 0) (hb : b ≠ 0) :
    ∃ t, v3_cross_product dst a b s = some t
      ∧ t.mem (dst + 0) * s.mem (a + 0) + t.mem (dst + 1) * s.mem (a + 1)
          + t.mem (dst + 2) * s.mem (a + 2) = 0
      ∧ t.mem (dst + 0) * s.mem (b + 0) + t.mem (dst + 1) * s.mem (b + 1)
          + t.mem (dst + 2) * s.mem (b + 2) = 0
      ∧ (disjoint3 dst a → v3_dot_product dst a t = some 0)
      ∧ (disjoint3 dst b → v3_dot_product dst b t = some 0) := by
  refine ⟨_, v3_cross_product_eq s dst a b hd ha hb, ?_⟩
  generalize ht : ((s.store (dst + 0) _).store (dst + 1) _).store (dst + 2) _ = t
  have hvec := store3_vec s dst
    (s.mem (a + 1) * s.mem (b + 2) - s.mem (a + 2) * s.mem (b + 1))
    (s.mem (a + 2) * s.mem (b + 0) - s.mem (a + 0) * s.mem (b + 2))
    (s.mem (a + 0) * s.mem (b + 1) - s.mem (a + 1) * s.mem (b + 0))
  have hfr := sameOutside_store3 s dst
    (s.mem (a + 1) * s.mem (b + 2) - s.mem (a + 2) * s.mem (b + 1))
    (s.mem (a + 2) * s.mem (b + 0) - s.mem (a + 0) * s.mem (b + 2))
    (s.mem (a + 0) * s.mem (b + 1) - s.mem (a + 1) * s.mem (b + 0))
  rw [ht] at hvec hfr
  obtain ⟨c0, c1, c2⟩ := (vec_eq_iff t dst _ _ _).1 hvec
  have oa : t.mem (dst + 0) * s.mem (a + 0) + t.mem (dst + 1) * s.mem (a + 1)
      + t.mem (dst + 2) * s.mem (a + 2) = 0 := by
    rw [c0, c1, c2]; ring
  have ob : t.mem (dst + 0) * s.mem (b + 0) + t.mem (dst + 1) * s.mem (b + 1)
      + t.mem (dst + 2) * s.mem (b + 2) = 0 := by
    rw [c0, c1, c2]; ring
  refine ⟨oa, ob, ?_, ?_⟩
  · intro hsep
    obtain ⟨a0, a1, a2⟩ := (vec_eq_iff t a _ _ _).1 (vec_of_sameOutside s t dst a hfr hsep)
    rw [v3_dot_product_eq t dst a hd ha, a0, a1, a2, oa]
  · intro hsep
    obtain ⟨b0, b1, b2⟩ := (vec_eq_iff t b _ _ _).1 (vec_of_sameOutside s t dst b hfr hsep)
    rw [v3_dot_product_eq t dst b hd hb, b0, b1, b2, ob]

/-- Example of the exact orthogonality: `a = (1,2,3)`, `b = (4,5,6)`, the product
written to the buffer at `7`. -/
theorem cross_orthogonal_witness :
    (7 : Nat) ≠ 0 ∧ (1 : Nat) ≠ 0 ∧ (4 : Nat) ≠ 0 ∧ disjoint3 7 1 ∧ disjoint3 7 4 ∧
    ∃ t, v3_cross_product 7 1 4 (twoVecs ((1 : ℚ), 2, 3) (4, 5, 6)) = some t
      ∧ v3_dot_product 7 1 t = some 0 ∧ v3_dot_product 7 4 t = some 0 :=
  ⟨by decide, by decide, by decide, by decide, by decide,
    match cross_orthogonal (twoVecs ((1 : ℚ), 2, 3) (4, 5, 6)) 7 1 4
      (by decide) (by decide) (by decide) with
    | ⟨t, e, _, _, h1, h4⟩ => ⟨t, e, h1 (by decide), h4 (by decide)⟩⟩

end Claims

/-! ## The source in binary32

The definitions above, instantiated at `F32` with `F32.sqrt` for `sqrtf`, are
the source as it runs.  The inputs below are written as the source would read
them: `F32.round q` is the `float` literal nearest to `q`. -/

section Binary32

/-- The model against known binary32 values: `0.1f = 0x3DCCCCCD`,
`1.0f / 3.0f = 0x3EAAAAAB`, `sqrtf(2.0f) = 0x3FB504F3`; the ties `2^24 + 1` and
`2^24 + 3` go to the even neighbour; `FLT_MAX = 2^128 - 2^104` is finite and
the midpoint `2^128 - 2^103` above it overflows; `2^-149` is the smallest
subnormal, `2^-150` underflows to `0` and `3 * 2^-150` rounds to `2^-148`;
`inf - inf`, `0 * inf` and `inf / inf` are NaN, and no comparison holds for a
NaN. -/
theorem binary32_examples :
    F32.round (1 / 10) = F32.fin (13421773 / 134217728) ∧
    (1 : F32) / 3 = F32.fin (11184811 / 33554432) ∧
    F32.sqrt 2 = F32.fin (11863283 / 8388608) ∧
    F32.round 16777217 = F32.fin 16777216 ∧
    F32.round 16777219 = F32.fin 16777220 ∧
    F32.round (2 ^ 128 - 2 ^ 104) = F32.fin (2 ^ 128 - 2 ^ 104) ∧
    F32.round (2 ^ 128 - 2 ^ 103 - 1) = F32.fin (2 ^ 128 - 2 ^ 104) ∧
    F32.round (2 ^ 128 - 2 ^ 103) = F32.inf false ∧
    F32.round (-(2 ^ 128)) = F32.inf true ∧
    F32.round (1 / 2 ^ 149) = F32.fin (1 / 2 ^ 149) ∧
    F32.round (1 / 2 ^ 150) = F32.fin 0 ∧
    F32.round (3 / 2 ^ 150) = F32.fin (1 / 2 ^ 148) ∧
    F32.inf false - F32.inf false = F32.nan ∧
    (0 : F32) * F32.inf false = F32.nan ∧
    F32.inf false / F32.inf false = F32.nan ∧
    (1 : F32) / F32.inf false = 0 ∧
    F32.sqrt (F32.inf false) = F32.inf false ∧
    ¬ (F32.nan < (1 : F32)) ∧ ¬ ((1 : F32) < F32.nan) ∧ ¬ (F32.nan ≤ F32.nan) :=
  ⟨by decide!, by decide!, by decide!, by decide!, by decide!, by decide!, by decide!,
    by decide!, by decide!, by decide!, by decide!, by decide!, by decide!, by decide!,
    by decide!, by decide!, by decide!, by decide!, by decide!, by decide!⟩

/-- The constant `EPSILON` in binary32 is the `float` literal `1e-6f`,
`8796093 / 2^43`. -/
theorem EPSILON_binary32 : (EPSILON : F32) = F32.fin (8796093 / 8796093022208) := by
  decide!

theorem f32_sub_self (p : ℚ) : F32.fin p - F32.fin p = 0 := by
  show F32.add (F32.fin p) (F32.neg (F32.fin p)) = F32.fin 0
  simp [F32.add, F32.neg, F32.round]

theorem f32_mul_fin (p q : ℚ) : F32.fin p * F32.fin q = F32.round (p * q) := rfl

theorem f32_isFinite_iff (x : F32) : x.isFinite = true ↔ ∃ p, x = F32.fin p := by
  cases x <;> simp [F32.isFinite]

/-- C3, as stated, fails in binary32: `a = b = (1e20f, 1e20f, 0)` are finite and
parallel (`b = 1 * a`), the products `a[0] * b[1]` and `a[1] * b[0]` overflow
to infinity, their difference is a NaN, and `v3_cross_product` writes
`(0, 0, NaN)`, which is not the zero vector. -/
theorem cross_parallel_zero_counterexample :
    F32.round (10 ^ 20) = F32.fin 100000002004087734272 ∧
    (twoVecs (F32.round (10 ^ 20), F32.round (10 ^ 20), (0 : F32))
        (F32.round (10 ^ 20), F32.round (10 ^ 20), 0)).vec 4
      = smul3 1 ((twoVecs (F32.round (10 ^ 20), F32.round (10 ^ 20), (0 : F32))
        (F32.round (10 ^ 20), F32.round (10 ^ 20), 0)).vec 1) ∧
    ∃ t, v3_cross_product 7 1 4 (twoVecs (F32.round (10 ^ 20), F32.round (10 ^ 20), (0 : F32))
        (F32.round (10 ^ 20), F32.round (10 ^ 20), 0)) = some t
      ∧ t.vec 7 = (0, 0, F32.nan) ∧ t.vec 7 ≠ (0, 0, 0) :=
  ⟨by decide!, by decide!, _, rfl, by decide!, by decide!⟩

/-- C3, amended. In binary32, when `a` and `b` are finite and exactly parallel
(`b[i] = k * a[i]` for a rational `k`, or `a[i] = k * b[i]`, with no rounding)
and the products `a[1] * b[2]`, `a[2] * b[0]`, `a[0] * b[1]` do not overflow,
`v3_cross_product(a, b)` returns and writes the zero vector. -/
theorem cross_parallel_zero_binary32 (s : State F32) (dst a b : Nat)
    (x0 x1 x2 y0 y1 y2 : ℚ) (hd : dst ≠ 0) (ha : a ≠ 0) (hb : b ≠ 0)
    (hx : s.vec a = (F32.fin x0, F32.fin x1, F32.fin x2))
    (hy : s.vec b = (F32.fin y0, F32.fin y1, F32.fin y2))
    (hpar : (∃ k : ℚ, y0 = k * x0 ∧ y1 = k * x1 ∧ y2 = k * x2)
      ∨ (∃ k : ℚ, x0 = k * y0 ∧ x1 = k * y1 ∧ x2 = k * y2))
    (h0 : (F32.fin x1 * F32.fin y2).isFinite = true)
    (h1 : (F32.fin x2 * F32.fin y0).isFinite = true)
    (h2 : (F32.fin x0 * F32.fin y1).isFinite = true) :
    ∃ t, v3_cross_product dst a b s = some t ∧ t.vec dst = (0, 0, 0) := by
  obtain ⟨a0, a1, a2⟩ := (vec_eq_iff s a _ _ _).1 hx
  obtain ⟨b0, b1, b2⟩ := (vec_eq_iff s b _ _ _).1 hy
  have e0 : x2 * y1 = x1 * y2 := by
    rcases hpar with ⟨k, k0, k1, k2⟩ | ⟨k, k0, k1, k2⟩
    · rw [k1, k2]; ring
    · rw [k1, k2]; ring
  have e1 : x0 * y2 = x2 * y0 := by
    rcases hpar with ⟨k, k0, k1, k2⟩ | ⟨k, k0, k1, k2⟩
    · rw [k0, k2]; ring
    · rw [k0, k2]; ring
  have e2 : x1 * y0 = x0 * y1 := by
    rcases hpar with ⟨k, k0, k1, k2⟩ | ⟨k, k0, k1, k2⟩
    · rw [k0, k1]; ring
    · rw [k0, k1]; ring
  obtain ⟨p0, hp0⟩ := (f32_isFinite_iff _).1 h0
  obtain ⟨p1, hp1⟩ := (f32_isFinite_iff _).1 h1
  obtain ⟨p2, hp2⟩ := (f32_isFinite_iff _).1 h2
  have c0 : F32.fin x1 * F32.fin y2 - F32.fin x2 * F32.fin y1 = 0 := by
    rw [f32_mul_fin x2 y1, e0, ← f32_mul_fin x1 y2, hp0, f32_sub_self]
  have c1 : F32.fin x2 * F32.fin y0 - F32.fin x0 * F32.fin y2 = 0 := by
    rw [f32_mul_fin x0 y2, e1, ← f32_mul_fin x2 y0, hp1, f32_sub_self]
  have c2 : F32.fin x0 * F32.fin y1 - F32.fin x1 * F32.fin y0 = 0 := by
    rw [f32_mul_fin x1 y0, e2, ← f32_mul_fin x0 y1, hp2, f32_sub_self]
  refine ⟨((s.store (dst + 0) 0).store (dst + 1) 0).store (dst + 2) 0, ?_, store3_vec s dst 0 0 0⟩
  simp only [v3_cross_product, a0, a1, a2, b0, b1, b2, c0, c1, c2]
  simp [hd, ha, hb]

/-- Witness for C3 (amended): the tests' `a = (1,2,3)` and `b = 2 * a = (2,4,6)`,
in binary32. -/
theorem cross_parallel_zero_binary32_witness :
    (twoVecs ((1 : F32), 2, 3) (2, 4, 6)).vec 1 = (F32.fin 1, F32.fin 2, F32.fin 3) ∧
    (twoVecs ((1 : F32), 2, 3) (2, 4, 6)).vec 4 = (F32.fin 2, F32.fin 4, F32.fin 6) ∧
    ((2 : ℚ) = 2 * 1 ∧ (4 : ℚ) = 2 * 2 ∧ (6 : ℚ) = 2 * 3) ∧
    (F32.fin 2 * F32.fin 6).isFinite = true ∧ (F32.fin 3 * F32.fin 2).isFinite = true ∧
    (F32.fin 1 * F32.fin 4).isFinite = true ∧
    ∃ t, v3_cross_product 7 1 4 (twoVecs ((1 : F32), 2, 3) (2, 4, 6)) = some t
      ∧ t.vec 7 = (0, 0, 0) :=
  ⟨by decide!, by decide!, by norm_num, by decide!, by decide!, by decide!,
    cross_parallel_zero_binary32 (twoVecs ((1 : F32), 2, 3) (2, 4, 6)) 7 1 4 1 2 3 2 4 6
      (by decide) (by decide) (by decide) (by decide!) (by decide!)
      (Or.inl ⟨2, by norm_num, by norm_num, by norm_num⟩)
      (by decide!) (by decide!) (by decide!)⟩

/-- The regular branch of `v3_angle` in binary32, for any `acosf`. -/
theorem f32_angle_regular (sqrtf acosf : F32 → F32) (s : State F32) (a b : Nat)
    (la lb d : F32) (ha : a ≠ 0) (hb : b ≠ 0)
    (hla : v3_length sqrtf a s = some la) (hlb : v3_length sqrtf b s = some lb)
    (hdot : v3_dot_product a b s = some d) (hdeg : ¬ (la < EPSILON ∨ lb < EPSILON)) :
    v3_angle sqrtf acosf a b s = some (acosf (clamped (d / (la * lb))), s) := by
  simp only [v3_angle, hla, hlb, hdot, Option.some_bind, if_neg hdeg, clamped]
  simp [ha, hb]

/-- The regular branch of `v3_angle_quick` in binary32. -/
theorem f32_angle_quick_regular (sqrtf : F32 → F32) (s : State F32) (a b : Nat)
    (la lb d : F32) (ha : a ≠ 0) (hb : b ≠ 0)
    (hla : v3_length sqrtf a s = some la) (hlb : v3_length sqrtf b s = some lb)
    (hdot : v3_dot_product a b s = some d) (hdeg : ¬ (la < EPSILON ∨ lb < EPSILON)) :
    v3_angle_quick sqrtf a b s = some (clamped (d / (la * lb)), s) := by
  simp only [v3_angle_quick, hla, hlb, hdot, Option.some_bind, if_neg hdeg, clamped]
  simp [ha, hb]

/-! ### Rounding error

Every binary32 operation on finite values returns the exact result with a
relative error of at most `2^-24`, or an absolute error of at most `2^-150`
when the result is subnormal, unless it overflows.
-/

/-- With enough fuel, `log2Aux` returns the position of the leading bit. -/
theorem log2Aux_spec : ∀ f m : Nat, 0 < m → m < 2 ^ f →
    2 ^ log2Aux f m ≤ m ∧ m < 2 ^ (log2Aux f m + 1)
  | 0, m, h0, h => by
    simp at h
    omega
  | f + 1, m, h0, h => by
    unfold log2Aux
    by_cases h2 : m < 2
    · rw [if_pos h2]
      simp
      omega
    · rw [if_neg h2]
      have hm : 0 < m / 2 := Nat.div_pos (by omega) (by decide)
      have hlt : m / 2 < 2 ^ f := by
        rw [Nat.div_lt_iff_lt_mul (by decide)]
        rw [pow_succ] at h
        exact h
      obtain ⟨l1, l2⟩ := log2Aux_spec f (m / 2) hm hlt
      constructor
      · rw [pow_succ]
        have := Nat.div_mul_le_self m 2
        nlinarith
      · rw [pow_succ]
        have : m < (m / 2 + 1) * 2 := by omega
        nlinarith

/-- The number `log2Nat n` is the position of the leading bit of `n > 0`. -/
theorem log2Nat_spec (n : Nat) (h : 0 < n) :
    2 ^ log2Nat n ≤ n ∧ n < 2 ^ (log2Nat n + 1) :=
  log2Aux_spec n n h (Nat.lt_two_pow n)

/-- The rational `pow2 k` is the power `2^k`. -/
theorem pow2_eq (k : Int) : pow2 k = (2 : ℚ) ^ k := by
  unfold pow2
  by_cases h : 0 ≤ k
  · rw [if_pos h]
    obtain ⟨n, rfl⟩ := Int.eq_ofNat_of_zero_le h
    simp
  · rw [if_neg h]
    push_neg at h
    obtain ⟨n, hn⟩ := Int.exists_eq_neg_ofNat (le_of_lt h)
    subst hn
    simp

/-- For `q > 0`, `ilog2 q` is the exponent of `q`: `2^(ilog2 q) <= q < 2^(ilog2 q + 1)`. -/
theorem ilog2_spec (q : ℚ) (hq : 0 < q) :
    pow2 (ilog2 q) ≤ q ∧ q < pow2 (ilog2 q + 1) := by
  have hnum : 0 < q.num := Rat.num_pos.mpr hq
  have hn0 : 0 < q.num.natAbs := Int.natAbs_pos.mpr (ne_of_gt hnum)
  have hd0 : 0 < q.den := q.den_pos
  obtain ⟨n1, n2⟩ := log2Nat_spec q.num.natAbs hn0
  obtain ⟨d1, d2⟩ := log2Nat_spec q.den hd0
  have hqd : q = (q.num.natAbs : ℚ) / (q.den : ℚ) := by
    have h1 : ((q.num.natAbs : ℤ) : ℚ) = (q.num : ℚ) := by
      rw [Int.natAbs_of_nonneg (le_of_lt hnum)]
    have h2 : ((q.num.natAbs : ℕ) : ℚ) = ((q.num.natAbs : ℤ) : ℚ) := (Int.cast_natCast _).symm
    rw [h2, h1, Rat.num_div_den]
  have hdpos : (0 : ℚ) < (q.den : ℚ) := by exact_mod_cast hd0
  have N1 : (2 : ℚ) ^ (log2Nat q.num.natAbs) ≤ (q.num.natAbs : ℚ) := by exact_mod_cast n1
  have N2 : (q.num.natAbs : ℚ) < (2 : ℚ) ^ (log2Nat q.num.natAbs + 1) := by exact_mod_cast n2
  have D1 : (2 : ℚ) ^ (log2Nat q.den) ≤ (q.den : ℚ) := by exact_mod_cast d1
  have D2 : (q.den : ℚ) < (2 : ℚ) ^ (log2Nat q.den + 1) := by exact_mod_cast d2
  have hmul : (q.num.natAbs : ℚ) = q * (q.den : ℚ) :=
    ((eq_div_iff (ne_of_gt hdpos)).mp hqd).symm
  set ln := log2Nat q.num.natAbs with hln
  set ld := log2Nat q.den with hld
  have two_pos : ∀ k : ℤ, (0 : ℚ) < (2 : ℚ) ^ k := fun k => zpow_pos (by norm_num) k
  have E1 : (2 : ℚ) ^ ((ln : ℤ) - (ld : ℤ) + 1) * (2 : ℚ) ^ ld = (2 : ℚ) ^ (ln + 1) := by
    rw [← zpow_natCast (2 : ℚ) ld, ← zpow_natCast (2 : ℚ) (ln + 1), ← zpow_add₀ (by norm_num)]
    congr 1
    push_cast
    ring
  have E2 : (2 : ℚ) ^ ((ln : ℤ) - (ld : ℤ) - 1) * (2 : ℚ) ^ (ld + 1) = (2 : ℚ) ^ ln := by
    rw [← zpow_natCast (2 : ℚ) (ld + 1), ← zpow_natCast (2 : ℚ) ln, ← zpow_add₀ (by norm_num)]
    congr 1
    push_cast
    ring
  have up : q < (2 : ℚ) ^ ((ln : ℤ) - (ld : ℤ) + 1) := by
    by_contra hc
    push_neg at hc
    have : (2 : ℚ) ^ ((ln : ℤ) - (ld : ℤ) + 1) * (2 : ℚ) ^ ld ≤ q * (q.den : ℚ) :=
      mul_le_mul hc D1 (le_of_lt (pow_pos (by norm_num) _)) (le_of_lt hq)
    rw [E1, ← hmul] at this
    exact absurd N2 (not_lt.mpr this)
  have lo : (2 : ℚ) ^ ((ln : ℤ) - (ld : ℤ) - 1) < q := by
    by_contra hc
    push_neg at hc
    have : q * (q.den : ℚ) < (2 : ℚ) ^ ((ln : ℤ) - (ld : ℤ) - 1) * (2 : ℚ) ^ (ld + 1) :=
      mul_lt_mul' hc D2 (le_of_lt hdpos) (two_pos _)
    rw [E2, ← hmul] at this
    exact absurd N1 (not_le.mpr this)
  unfold ilog2
  simp only [pow2_eq]
  by_cases hc : q < (2 : ℚ) ^ ((ln : ℤ) - (ld : ℤ))
  · rw [if_pos hc]
    constructor
    · exact le_of_lt lo
    · rw [sub_add_cancel]
      exact hc
  · rw [if_neg hc]
    push_neg at hc
    exact ⟨hc, up⟩

/-- Rounding to the nearest integer moves a rational by at most `1/2`. -/
theorem roundHalfEven_spec (m : ℚ) : |(roundHalfEven m : ℚ) - m| ≤ 1 / 2 := by
  have h1 : ((Rat.floor m : ℤ) : ℚ) ≤ m := Rat.le_floor.mp (le_refl _)
  have h2 : m < ((Rat.floor m : ℤ) : ℚ) + 1 := by
    by_contra hc
    push_neg at hc
    have : (Rat.floor m + 1 : ℤ) ≤ Rat.floor m := Rat.le_floor.mpr (by push_cast; exact hc)
    omega
  unfold roundHalfEven
  simp only
  split_ifs with c1 c2 c3
  · rw [abs_le]; constructor <;> linarith
  · push_cast; rw [abs_le]; constructor <;> linarith
  · push_neg at c1 c2
    rw [abs_le]; constructor <;> linarith
  · push_neg at c1 c2
    push_cast; rw [abs_le]; constructor <;> linarith

/-- Rounding a rational: the magnitude `R` of the result is within a relative
`2^-24`, or an absolute `2^-150`, of the exact magnitude, and the result is an
infinity exactly when `R` reaches `2^128`. -/
theorem f32_round_cases (q : ℚ) :
    ∃ R : ℚ, 0 ≤ R ∧ |R - abs q| ≤ |q| / 2 ^ 24 + 1 / 2 ^ 150 ∧ (q = 0 → R = 0)
      ∧ F32.round q = if (2 : ℚ) ^ 128 ≤ R then F32.inf (decide (q < 0))
          else F32.fin (if q < 0 then -R else R) := by
  by_cases h0 : q = 0
  · subst h0
    refine ⟨0, le_refl _, by norm_num, fun _ => rfl, ?_⟩
    rw [if_neg (by norm_num)]
    simp [F32.round]
  · have ha : 0 < |q| := abs_pos.mpr h0
    obtain ⟨l1, -⟩ := ilog2_spec |q| ha
    rw [pow2_eq] at l1
    have two_pos : ∀ k : ℤ, (0 : ℚ) < (2 : ℚ) ^ k := fun k => zpow_pos (by norm_num) k
    set e : ℤ := max (ilog2 |q|) (-126) with he
    set ulp : ℚ := (2 : ℚ) ^ (e - 23) with hulp
    have hulp_pos : 0 < ulp := two_pos _
    set n : ℤ := roundHalfEven (|q| / ulp) with hn
    have hn1 := roundHalfEven_spec (|q| / ulp)
    rw [← hn] at hn1
    have herr : |(n : ℚ) * ulp - abs q| ≤ ulp / 2 := by
      have : (n : ℚ) * ulp - |q| = ((n : ℚ) - |q| / ulp) * ulp := by
        field_simp
      rw [this, abs_mul, abs_of_pos hulp_pos]
      calc |(n : ℚ) - |q| / ulp| * ulp ≤ 1 / 2 * ulp :=
            mul_le_mul_of_nonneg_right hn1 (le_of_lt hulp_pos)
        _ = ulp / 2 := by ring
    have hhalf : ulp / 2 ≤ |q| / 2 ^ 24 + 1 / 2 ^ 150 := by
      have hsplit : ulp / 2 = (2 : ℚ) ^ e / 2 ^ 24 := by
        rw [hulp, zpow_sub₀ (by norm_num : (2 : ℚ) ≠ 0)]
        norm_num
        ring
      rw [hsplit]
      rcases le_total (ilog2 |q|) (-126) with hc | hc
      · have : e = -126 := by rw [he]; exact max_eq_right hc
        rw [this]
        have hq0 : 0 ≤ |q| / 2 ^ 24 := div_nonneg (abs_nonneg q) (by norm_num)
        have : (2 : ℚ) ^ (-126 : ℤ) / 2 ^ 24 = 1 / 2 ^ 150 := by
          rw [zpow_neg, zpow_ofNat]
          norm_num
        linarith
      · have : e = ilog2 |q| := by rw [he]; exact max_eq_left hc
        rw [this]
        have h1 : (2 : ℚ) ^ ilog2 |q| / 2 ^ 24 ≤ |q| / 2 ^ 24 :=
          div_le_div_of_nonneg_right l1 (by norm_num)
        have : (0 : ℚ) ≤ 1 / 2 ^ 150 := by norm_num
        linarith
    have hnn : 0 ≤ n := by
      have hm : 0 ≤ |q| / ulp := div_nonneg (abs_nonneg q) (le_of_lt hulp_pos)
      have h2 := (abs_le.mp hn1).1
      have h3 : (-1 : ℚ) < (n : ℚ) := by linarith
      have h4 : (-1 : ℤ) < n := by exact_mod_cast h3
      omega
    have hr0 : 0 ≤ (n : ℚ) * ulp := mul_nonneg (by exact_mod_cast hnn) (le_of_lt hulp_pos)
    refine ⟨(n : ℚ) * ulp, hr0, le_trans herr hhalf, fun h => absurd h h0, ?_⟩
    unfold F32.round
    rw [if_neg h0]
    simp only [pow2_eq]
    have : (2 : ℚ) ^ (128 : ℤ) = 2 ^ 128 := by norm_num
    rw [this]

/-- A finite result of rounding is within a relative `2^-24`, or an absolute
`2^-150`, of the exact value, and has its sign. -/
theorem f32_round_fin (q r : ℚ) (h : F32.round q = F32.fin r) :
    |r - q| ≤ |q| / 2 ^ 24 + 1 / 2 ^ 150 ∧ (0 ≤ q → 0 ≤ r) ∧ (q ≤ 0 → r ≤ 0) := by
  obtain ⟨R, hR0, hR, hRz, hround⟩ := f32_round_cases q
  rw [hround] at h
  by_cases hov : (2 : ℚ) ^ 128 ≤ R
  · rw [if_pos hov] at h
    exact absurd h (by simp)
  · rw [if_neg hov] at h
    have hr : (if q < 0 then -R else R) = r := F32.fin.inj h
    by_cases hneg : q < 0
    · rw [if_pos hneg] at hr
      subst hr
      refine ⟨?_, fun hq => absurd hneg (not_lt.mpr hq), fun _ => by linarith⟩
      have : -R - q = -(R - |q|) := by rw [abs_of_neg hneg]; ring
      rw [this, abs_neg]
      exact hR
    · rw [if_neg hneg] at hr
      subst hr
      push_neg at hneg
      refine ⟨?_, fun _ => hR0, fun hq => ?_⟩
      · have : R - q = R - |q| := by rw [abs_of_nonneg hneg]
        rw [this]
        exact hR
      · exact le_of_eq (hRz (le_antisymm hq hneg))

/-- Rounding a value of magnitude at most `2^127` does not overflow. -/
theorem f32_round_spec (q : ℚ) (hq : |q| ≤ 2 ^ 127) :
    ∃ r : ℚ, F32.round q = F32.fin r ∧ |r - q| ≤ |q| / 2 ^ 24 + 1 / 2 ^ 150
      ∧ (0 ≤ q → 0 ≤ r) ∧ (q ≤ 0 → r ≤ 0) := by
  obtain ⟨R, hR0, hR, -, hround⟩ := f32_round_cases q
  have hrlt : ¬ ((2 : ℚ) ^ 128 ≤ R) := by
    have h1 := (abs_le.mp hR).2
    have h2 : |q| / 2 ^ 24 ≤ 2 ^ 127 / 2 ^ 24 := div_le_div_of_nonneg_right hq (by norm_num)
    have h3 : (2 : ℚ) ^ 127 / 2 ^ 24 + 1 / 2 ^ 150 + 2 ^ 127 < 2 ^ 128 := by norm_num
    intro hc
    linarith
  rw [if_neg hrlt] at hround
  exact ⟨_, hround, f32_round_fin q _ hround⟩

/-- Rounding a value of magnitude at most `X`, for `1 <= X <= 2^127`, moves
it by at most `X / 16000000`. -/
theorem f32_round_abs (q X : ℚ) (hX1 : 1 ≤ X) (hq : |q| ≤ X) (hX : X ≤ 2 ^ 127) :
    ∃ r : ℚ, F32.round q = F32.fin r ∧ |r - q| ≤ X / 16000000 := by
  obtain ⟨r, h1, h2, -, -⟩ := f32_round_spec q (le_trans hq hX)
  refine ⟨r, h1, le_trans h2 ?_⟩
  have h3 : |q| / 2 ^ 24 ≤ X / 2 ^ 24 := div_le_div_of_nonneg_right hq (by norm_num)
  have h4 : (1 : ℚ) / 2 ^ 150 ≤ X / 2 ^ 150 := div_le_div_of_nonneg_right hX1 (by norm_num)
  have h5 : X / 2 ^ 24 + X / 2 ^ 150 ≤ X / 16000000 := by
    have : X / 2 ^ 24 + X / 2 ^ 150 = X * (1 / 2 ^ 24 + 1 / 2 ^ 150) := by ring
    rw [this, div_eq_mul_one_div X 16000000]
    exact mul_le_mul_of_nonneg_left (by norm_num) (by linarith)
  linarith

/-- A binary32 product of magnitude at most `X`, for `1 <= X <= 2^127`. -/
theorem f32_mul_abs (x y X : ℚ) (hX1 : 1 ≤ X) (h : |x * y| ≤ X) (hX : X ≤ 2 ^ 127) :
    ∃ r : ℚ, F32.fin x * F32.fin y = F32.fin r ∧ |r - x * y| ≤ X / 16000000 :=
  f32_round_abs (x * y) X hX1 h hX

/-- A binary32 sum of magnitude at most `X`, for `1 <= X <= 2^127`. -/
theorem f32_add_abs (x y X : ℚ) (hX1 : 1 ≤ X) (h : |x + y| ≤ X) (hX : X ≤ 2 ^ 127) :
    ∃ r : ℚ, F32.fin x + F32.fin y = F32.fin r ∧ |r - (x + y)| ≤ X / 16000000 :=
  f32_round_abs (x + y) X hX1 h hX

/-- A binary32 difference of magnitude at most `X`, for `1 <= X <= 2^127`. -/
theorem f32_sub_abs (x y X : ℚ) (hX1 : 1 ≤ X) (h : |x - y| ≤ X) (hX : X ≤ 2 ^ 127) :
    ∃ r : ℚ, F32.fin x - F32.fin y = F32.fin r ∧ |r - (x - y)| ≤ X / 16000000 := by
  rw [sub_eq_add_neg] at h ⊢
  exact f32_round_abs (x + -y) X hX1 h hX

/-- The magnitude of a product is at most the product of bounds on the factors. -/
theorem abs_mul_le_mul {x y X Y : ℚ} (hx : |x| ≤ X) (hy : |y| ≤ Y) : |x * y| ≤ X * Y := by
  rw [abs_mul]
  exact mul_le_mul hx hy (abs_nonneg _) (le_trans (abs_nonneg _) hx)

/-- One component of the cross product in binary32. -/
theorem f32_cross_component (p q r s M : ℚ) (hM1 : 1 ≤ M) (hM : M ≤ 2 ^ 40)
    (hp : |p| ≤ M) (hq : |q| ≤ M) (hr : |r| ≤ M) (hs : |s| ≤ M) :
    ∃ c : ℚ, F32.fin p * F32.fin q - F32.fin r * F32.fin s = F32.fin c
      ∧ |c - (p * q - r * s)| ≤ 5 * (M * M) / 16000000 ∧ |c| ≤ 3 * (M * M) := by
  have hK1 : 1 ≤ M * M := by nlinarith
  have hK : M * M ≤ 2 ^ 80 := by nlinarith
  have hpq : |p * q| ≤ M * M := abs_mul_le_mul hp hq
  have hrs : |r * s| ≤ M * M := abs_mul_le_mul hr hs
  obtain ⟨m1, e1, b1⟩ := f32_mul_abs p q (M * M) hK1 hpq (by linarith)
  obtain ⟨m2, e2, b2⟩ := f32_mul_abs r s (M * M) hK1 hrs (by linarith)
  rw [abs_le] at hpq hrs b1 b2
  have hd : |m1 - m2| ≤ 3 * (M * M) := by
    rw [abs_le]; constructor <;> linarith
  obtain ⟨c, e3, b3⟩ := f32_sub_abs m1 m2 (3 * (M * M)) (by linarith) hd (by linarith)
  rw [abs_le] at b3 hd
  refine ⟨c, by rw [e1, e2, e3], ?_, ?_⟩
  · rw [abs_le]; constructor <;> linarith
  · rw [abs_le]; constructor <;> linarith

/-- The dot product of a computed cross product with a vector that is exactly
orthogonal to the exact one, in binary32. -/
theorem f32_cross_dot (x0 x1 x2 y0 y1 y2 z0 z1 z2 M : ℚ) (hM1 : 1 ≤ M) (hM : M ≤ 2 ^ 40)
    (hx0 : |x0| ≤ M) (hx1 : |x1| ≤ M) (hx2 : |x2| ≤ M)
    (hy0 : |y0| ≤ M) (hy1 : |y1| ≤ M) (hy2 : |y2| ≤ M)
    (hz0 : |z0| ≤ M) (hz1 : |z1| ≤ M) (hz2 : |z2| ≤ M)
    (horth : (x1 * y2 - x2 * y1) * z0 + (x2 * y0 - x0 * y2) * z1
      + (x0 * y1 - x1 * y0) * z2 = 0) :
    ∃ d : ℚ, (F32.fin x1 * F32.fin y2 - F32.fin x2 * F32.fin y1) * F32.fin z0
        + (F32.fin x2 * F32.fin y0 - F32.fin x0 * F32.fin y2) * F32.fin z1
        + (F32.fin x0 * F32.fin y1 - F32.fin x1 * F32.fin y0) * F32.fin z2 = F32.fin d
      ∧ |d| ≤ 2 * M ^ 3 / 1000000 := by
  obtain ⟨c0, ec0, bc0, mc0⟩ := f32_cross_component x1 y2 x2 y1 M hM1 hM hx1 hy2 hx2 hy1
  obtain ⟨c1, ec1, bc1, mc1⟩ := f32_cross_component x2 y0 x0 y2 M hM1 hM hx2 hy0 hx0 hy2
  obtain ⟨c2, ec2, bc2, mc2⟩ := f32_cross_component x0 y1 x1 y0 M hM1 hM hx0 hy1 hx1 hy0
  have hK1 : 1 ≤ M * M := by nlinarith
  have hK : M * M ≤ 2 ^ 80 := by nlinarith
  have hL1 : 1 ≤ M * M * M := by nlinarith
  have hL : M * M * M ≤ 2 ^ 120 := by
    calc M * M * M ≤ 2 ^ 80 * 2 ^ 40 := mul_le_mul hK hM (by linarith) (by norm_num)
      _ = 2 ^ 120 := by norm_num
  have hM0 : 0 ≤ M := by linarith
  -- the three products with `z`
  have prod : ∀ c C z : ℚ, |c - C| ≤ 5 * (M * M) / 16000000 → |c| ≤ 3 * (M * M) → |z| ≤ M →
      ∃ t : ℚ, F32.fin c * F32.fin z = F32.fin t ∧ |t - C * z| ≤ 8 * (M * M * M) / 16000000 := by
    intro c C z hc hcm hz
    have h1 : |c * z| ≤ 3 * (M * M * M) := by
      have := abs_mul_le_mul hcm hz
      calc |c * z| ≤ 3 * (M * M) * M := this
        _ = 3 * (M * M * M) := by ring
    obtain ⟨t, et, bt⟩ := f32_mul_abs c z (3 * (M * M * M)) (by linarith) h1 (by linarith)
    have h2 : |c * z - C * z| ≤ 5 * (M * M * M) / 16000000 := by
      have : c * z - C * z = (c - C) * z := by ring
      rw [this]
      calc |(c - C) * z| ≤ 5 * (M * M) / 16000000 * M := abs_mul_le_mul hc hz
        _ = 5 * (M * M * M) / 16000000 := by ring
    refine ⟨t, et, ?_⟩
    rw [abs_le] at bt h2 ⊢
    constructor <;> linarith
  obtain ⟨t0, et0, bt0⟩ := prod c0 _ z0 bc0 mc0 hz0
  obtain ⟨t1, et1, bt1⟩ := prod c1 _ z1 bc1 mc1 hz1
  obtain ⟨t2, et2, bt2⟩ := prod c2 _ z2 bc2 mc2 hz2
  have big : ∀ p q r s z : ℚ, |p| ≤ M → |q| ≤ M → |r| ≤ M → |s| ≤ M → |z| ≤ M →
      |(p * q - r * s) * z| ≤ 2 * (M * M * M) := by
    intro p q r s z hp hq hr hs hz
    have h1 : |p * q - r * s| ≤ 2 * (M * M) := by
      have a1 := abs_mul_le_mul hp hq
      have a2 := abs_mul_le_mul hr hs
      rw [abs_le] at a1 a2 ⊢
      constructor <;> linarith
    calc |(p * q - r * s) * z| ≤ 2 * (M * M) * M := abs_mul_le_mul h1 hz
      _ = 2 * (M * M * M) := by ring
  have g0 := big x1 y2 x2 y1 z0 hx1 hy2 hx2 hy1 hz0
  have g1 := big x2 y0 x0 y2 z1 hx2 hy0 hx0 hy2 hz1
  rw [abs_le] at bt0 bt1 bt2 g0 g1
  have hs1 : |t0 + t1| ≤ 5 * (M * M * M) := by
    rw [abs_le]; constructor <;> linarith
  obtain ⟨s1, es1, bs1⟩ := f32_add_abs t0 t1 (5 * (M * M * M)) (by linarith) hs1 (by linarith)
  rw [abs_le] at bs1
  have hs2 : |s1 + t2| ≤ M * M * M := by
    rw [abs_le]; constructor <;> linarith
  obtain ⟨s2, es2, bs2⟩ := f32_add_abs s1 t2 (M * M * M) hL1 hs2 (by linarith)
  rw [abs_le] at bs2
  refine ⟨s2, by rw [ec0, ec1, ec2, et0, et1, et2, es1, es2], ?_⟩
  have hcube : M ^ 3 = M * M * M := by ring
  rw [hcube, abs_le]
  constructor <;> linarith

/-- The constant `2.0f`. -/
theorem f32_two : (2 : F32) = F32.fin 2 := by decide!

/-- A finite sum has finite operands. -/
theorem f32_add_fin_inv (x y : F32) (r : ℚ) (h : x + y = F32.fin r) :
    ∃ p q : ℚ, x = F32.fin p ∧ y = F32.fin q ∧ F32.round (p + q) = F32.fin r := by
  change F32.add x y = F32.fin r at h
  cases x with
  | nan => simp [F32.add] at h
  | inf s =>
    cases y with
    | nan => simp [F32.add] at h
    | inf t =>
      simp only [F32.add] at h
      split_ifs at h
    | fin q => simp [F32.add] at h
  | fin p =>
    cases y with
    | nan => simp [F32.add] at h
    | inf t => simp [F32.add] at h
    | fin q => exact ⟨p, q, rfl, rfl, h⟩

/-- A normal whose `v3_dot_product` with itself is `1` in binary32 has a
squared length within `2.5e-7` of `1`, and components of magnitude at most
`1.001`. -/
theorem f32_unit_normal (n0 n1 n2 : ℚ)
    (h : F32.fin n0 * F32.fin n0 + F32.fin n1 * F32.fin n1 + F32.fin n2 * F32.fin n2
      = F32.fin 1) :
    |n0 * n0 + n1 * n1 + n2 * n2 - 1| ≤ 1 / 4000000
      ∧ |n0| ≤ 1001 / 1000 ∧ |n1| ≤ 1001 / 1000 ∧ |n2| ≤ 1001 / 1000 := by
  obtain ⟨s1, p2, hs1, hp2, hr2⟩ := f32_add_fin_inv _ _ 1 h
  obtain ⟨p0, p1, hp0, hp1, hr1⟩ := f32_add_fin_inv _ _ s1 hs1
  rw [f32_mul_fin] at hp0 hp1 hp2
  obtain ⟨b0, c0, -⟩ := f32_round_fin _ _ hp0
  obtain ⟨b1, c1, -⟩ := f32_round_fin _ _ hp1
  obtain ⟨b2, c2, -⟩ := f32_round_fin _ _ hp2
  obtain ⟨b3, c3, -⟩ := f32_round_fin _ _ hr1
  obtain ⟨b4, -, -⟩ := f32_round_fin _ _ hr2
  have N0 : 0 ≤ n0 * n0 := mul_self_nonneg n0
  have N1 : 0 ≤ n1 * n1 := mul_self_nonneg n1
  have N2 : 0 ≤ n2 * n2 := mul_self_nonneg n2
  have P0 := c0 N0
  have P1 := c1 N1
  have P2 := c2 N2
  have S1 := c3 (by linarith)
  rw [abs_of_nonneg N0] at b0
  rw [abs_of_nonneg N1] at b1
  rw [abs_of_nonneg N2] at b2
  rw [abs_of_nonneg (by linarith : 0 ≤ p0 + p1)] at b3
  rw [abs_of_nonneg (by linarith : 0 ≤ s1 + p2)] at b4
  rw [abs_le] at b0 b1 b2 b3 b4
  have hN : |n0 * n0 + n1 * n1 + n2 * n2 - 1| ≤ 1 / 4000000 := by
    rw [abs_le]
    constructor <;> linarith
  have hN2 := (abs_le.mp hN).2
  have hsq : ∀ x : ℚ, x * x ≤ 1 + 1 / 4000000 → |x| ≤ 1001 / 1000 := by
    intro x hx
    apply abs_le_of_sq_le_sq _ (by norm_num)
    have : (1001 / 1000 : ℚ) ^ 2 = 1002001 / 1000000 := by norm_num
    rw [this, pow_two]
    linarith
  exact ⟨hN, hsq n0 (by linarith), hsq n1 (by linarith), hsq n2 (by linarith)⟩

/-- The dot product with a normal of components at most `1.001`, in binary32. -/
theorem f32_dot_abs (v0 v1 v2 n0 n1 n2 V : ℚ) (hV1 : 1 ≤ V) (hV : V ≤ 2 ^ 40)
    (hv0 : |v0| ≤ V) (hv1 : |v1| ≤ V) (hv2 : |v2| ≤ V)
    (hn0 : |n0| ≤ 1001 / 1000) (hn1 : |n1| ≤ 1001 / 1000) (hn2 : |n2| ≤ 1001 / 1000) :
    ∃ d : ℚ, F32.fin v0 * F32.fin n0 + F32.fin v1 * F32.fin n1 + F32.fin v2 * F32.fin n2
        = F32.fin d
      ∧ |d - (v0 * n0 + v1 * n1 + v2 * n2)| ≤ 13 * V / 16000000
      ∧ |v0 * n0 + v1 * n1 + v2 * n2| ≤ 3003 / 1000 * V
      ∧ |d| ≤ 31 / 10 * V := by
  have h0 := abs_mul_le_mul hv0 hn0
  have h1 := abs_mul_le_mul hv1 hn1
  have h2 := abs_mul_le_mul hv2 hn2
  obtain ⟨m0, e0, b0⟩ := f32_mul_abs v0 n0 (2 * V) (by linarith) (by linarith) (by linarith)
  obtain ⟨m1, e1, b1⟩ := f32_mul_abs v1 n1 (2 * V) (by linarith) (by linarith) (by linarith)
  obtain ⟨m2, e2, b2⟩ := f32_mul_abs v2 n2 (2 * V) (by linarith) (by linarith) (by linarith)
  rw [abs_le] at h0 h1 h2 b0 b1 b2
  have ha1 : |m0 + m1| ≤ 3 * V := by
    rw [abs_le]; constructor <;> linarith
  obtain ⟨a1, ea1, ba1⟩ := f32_add_abs m0 m1 (3 * V) (by linarith) ha1 (by linarith)
  rw [abs_le] at ba1
  have ha2 : |a1 + m2| ≤ 4 * V := by
    rw [abs_le]; constructor <;> linarith
  obtain ⟨a2, ea2, ba2⟩ := f32_add_abs a1 m2 (4 * V) (by linarith) ha2 (by linarith)
  rw [abs_le] at ba2
  refine ⟨a2, by rw [e0, e1, e2, ea1, ea2], ?_, ?_, ?_⟩ <;> rw [abs_le] <;>
    constructor <;> linarith

/-- One component of `v3_reflect` in binary32, from the computed dot product. -/
theorem f32_reflect_component (vi ni d D V : ℚ) (hV1 : 1 ≤ V) (hV : V ≤ 2 ^ 40)
    (hvi : |vi| ≤ V) (hni : |ni| ≤ 1001 / 1000)
    (hd : |d - D| ≤ 13 * V / 16000000) (hD : |D| ≤ 3003 / 1000 * V)
    (hdm : |d| ≤ 31 / 10 * V) :
    ∃ r : ℚ, F32.fin vi - 2 * F32.fin d * F32.fin ni = F32.fin r
      ∧ |r - (vi - 2 * D * ni)| ≤ 49 * V / 16000000 ∧ |r| ≤ 71 / 10 * V := by
  have h2d : |2 * d| ≤ 7 * V := by
    rw [abs_le] at hdm ⊢
    constructor <;> linarith
  obtain ⟨sc, esc, bsc⟩ := f32_mul_abs 2 d (7 * V) (by linarith) h2d (by linarith)
  have hsc : |sc| ≤ 63 / 10 * V := by
    rw [abs_le] at bsc hdm ⊢
    constructor <;> linarith
  have hscD : |sc - 2 * D| ≤ 33 * V / 16000000 := by
    rw [abs_le] at bsc hd ⊢
    constructor <;> linarith
  have hw : |sc * ni| ≤ 7 * V := by
    have := abs_mul_le_mul hsc hni
    linarith
  obtain ⟨w, ew, bw⟩ := f32_mul_abs sc ni (7 * V) (by linarith) hw (by linarith)
  have hwD : |sc * ni - 2 * D * ni| ≤ 33 * V / 16000000 * (1001 / 1000) := by
    have : sc * ni - 2 * D * ni = (sc - 2 * D) * ni := by ring
    rw [this]
    exact abs_mul_le_mul hscD hni
  have hDn : |2 * D * ni| ≤ 2 * (3003 / 1000 * V) * (1001 / 1000) := by
    have h2D : |2 * D| ≤ 2 * (3003 / 1000 * V) := by
      rw [abs_le] at hD ⊢
      constructor <;> linarith
    exact abs_mul_le_mul h2D hni
  rw [abs_le] at bw hwD hDn hvi hw
  have hsub : |vi - w| ≤ 8 * V := by
    rw [abs_le]; constructor <;> linarith
  obtain ⟨r, er, br⟩ := f32_sub_abs vi w (8 * V) (by linarith) hsub (by linarith)
  rw [abs_le] at br
  refine ⟨r, by rw [f32_two, esc, ew, er], ?_, ?_⟩ <;> rw [abs_le] <;> constructor <;> linarith

/-- Two reflections across the same normal in binary32: when the normal has
`v3_dot_product(n, n) = 1` and the components of `v` have magnitude at most
`M`, both reflections are finite and the second is within `M / 10000` of `v`. -/
theorem f32_reflect_twice (v0 v1 v2 n0 n1 n2 M : ℚ) (hM1 : 1 ≤ M) (hM : M ≤ 2 ^ 30)
    (hv0 : |v0| ≤ M) (hv1 : |v1| ≤ M) (hv2 : |v2| ≤ M)
    (hunit : F32.fin n0 * F32.fin n0 + F32.fin n1 * F32.fin n1 + F32.fin n2 * F32.fin n2
      = F32.fin 1) :
    ∃ r0 r1 r2 q0 q1 q2 : ℚ,
      F32.fin v0 - 2 * (F32.fin v0 * F32.fin n0 + F32.fin v1 * F32.fin n1
          + F32.fin v2 * F32.fin n2) * F32.fin n0 = F32.fin r0
      ∧ F32.fin v1 - 2 * (F32.fin v0 * F32.fin n0 + F32.fin v1 * F32.fin n1
          + F32.fin v2 * F32.fin n2) * F32.fin n1 = F32.fin r1
      ∧ F32.fin v2 - 2 * (F32.fin v0 * F32.fin n0 + F32.fin v1 * F32.fin n1
          + F32.fin v2 * F32.fin n2) * F32.fin n2 = F32.fin r2
      ∧ F32.fin r0 - 2 * (F32.fin r0 * F32.fin n0 + F32.fin r1 * F32.fin n1
          + F32.fin r2 * F32.fin n2) * F32.fin n0 = F32.fin q0
      ∧ F32.fin r1 - 2 * (F32.fin r0 * F32.fin n0 + F32.fin r1 * F32.fin n1
          + F32.fin r2 * F32.fin n2) * F32.fin n1 = F32.fin q1
      ∧ F32.fin r2 - 2 * (F32.fin r0 * F32.fin n0 + F32.fin r1 * F32.fin n1
          + F32.fin r2 * F32.fin n2) * F32.fin n2 = F32.fin q2
      ∧ |q0 - v0| ≤ M / 10000 ∧ |q1 - v1| ≤ M / 10000 ∧ |q2 - v2| ≤ M / 10000 := by
  obtain ⟨hN, hn0, hn1, hn2⟩ := f32_unit_normal n0 n1 n2 hunit
  have hM40 : M ≤ 2 ^ 40 := le_trans hM (by norm_num)
  obtain ⟨d, ed, bd, bD, bdm⟩ := f32_dot_abs v0 v1 v2 n0 n1 n2 M hM1 hM40 hv0 hv1 hv2 hn0 hn1 hn2
  obtain ⟨r0, er0, br0, mr0⟩ := f32_reflect_component v0 n0 d _ M hM1 hM40 hv0 hn0 bd bD bdm
  obtain ⟨r1, er1, br1, mr1⟩ := f32_reflect_component v1 n1 d _ M hM1 hM40 hv1 hn1 bd bD bdm
  obtain ⟨r2, er2, br2, mr2⟩ := f32_reflect_component v2 n2 d _ M hM1 hM40 hv2 hn2 bd bD bdm
  have hW1 : 1 ≤ 71 / 10 * M := by linarith
  have hW : 71 / 10 * M ≤ 2 ^ 40 := by
    have : (71 : ℚ) / 10 * 2 ^ 30 ≤ 2 ^ 40 := by norm_num
    linarith
  obtain ⟨d2, ed2, bd2, bD2, bdm2⟩ := f32_dot_abs r0 r1 r2 n0 n1 n2 (71 / 10 * M) hW1 hW
    mr0 mr1 mr2 hn0 hn1 hn2
  obtain ⟨q0, eq0, bq0, -⟩ := f32_reflect_component r0 n0 d2 _ (71 / 10 * M) hW1 hW
    mr0 hn0 bd2 bD2 bdm2
  obtain ⟨q1, eq1, bq1, -⟩ := f32_reflect_component r1 n1 d2 _ (71 / 10 * M) hW1 hW
    mr1 hn1 bd2 bD2 bdm2
  obtain ⟨q2, eq2, bq2, -⟩ := f32_reflect_component r2 n2 d2 _ (71 / 10 * M) hW1 hW
    mr2 hn2 bd2 bD2 bdm2
  -- the error of the first reflection, reflected
  have hT : |(r0 - (v0 - 2 * (v0 * n0 + v1 * n1 + v2 * n2) * n0)) * n0
      + (r1 - (v1 - 2 * (v0 * n0 + v1 * n1 + v2 * n2) * n1)) * n1
      + (r2 - (v2 - 2 * (v0 * n0 + v1 * n1 + v2 * n2) * n2)) * n2|
      ≤ 3 * (49 * M / 16000000 * (1001 / 1000)) := by
    have t0 := abs_mul_le_mul br0 hn0
    have t1 := abs_mul_le_mul br1 hn1
    have t2 := abs_mul_le_mul br2 hn2
    rw [abs_le] at t0 t1 t2 ⊢
    constructor <;> linarith
  -- the defect of the normal
  have hB : |(v0 * n0 + v1 * n1 + v2 * n2) * (n0 * n0 + n1 * n1 + n2 * n2 - 1)|
      ≤ 3003 / 1000 * M * (1 / 4000000) := abs_mul_le_mul bD hN
  have fin : ∀ ri qi vi ni : ℚ, |ni| ≤ 1001 / 1000 →
      |ri - (vi - 2 * (v0 * n0 + v1 * n1 + v2 * n2) * ni)| ≤ 49 * M / 16000000 →
      |qi - (ri - 2 * (r0 * n0 + r1 * n1 + r2 * n2) * ni)| ≤ 49 * (71 / 10 * M) / 16000000 →
      |qi - vi| ≤ M / 10000 := by
    intro ri qi vi ni hni hri hqi
    have hTn := abs_mul_le_mul hT hni
    have hBn := abs_mul_le_mul hB hni
    have key : qi - vi = (qi - (ri - 2 * (r0 * n0 + r1 * n1 + r2 * n2) * ni))
        + (ri - (vi - 2 * (v0 * n0 + v1 * n1 + v2 * n2) * ni))
        - 2 * (((r0 - (v0 - 2 * (v0 * n0 + v1 * n1 + v2 * n2) * n0)) * n0
          + (r1 - (v1 - 2 * (v0 * n0 + v1 * n1 + v2 * n2) * n1)) * n1
          + (r2 - (v2 - 2 * (v0 * n0 + v1 * n1 + v2 * n2) * n2)) * n2) * ni)
        + 4 * ((v0 * n0 + v1 * n1 + v2 * n2) * (n0 * n0 + n1 * n1 + n2 * n2 - 1) * ni) := by
      ring
    rw [key]
    generalize (qi - (ri - 2 * (r0 * n0 + r1 * n1 + r2 * n2) * ni)) = A at hqi ⊢
    generalize (ri - (vi - 2 * (v0 * n0 + v1 * n1 + v2 * n2) * ni)) = B at hri ⊢
    generalize (((r0 - (v0 - 2 * (v0 * n0 + v1 * n1 + v2 * n2) * n0)) * n0
          + (r1 - (v1 - 2 * (v0 * n0 + v1 * n1 + v2 * n2) * n1)) * n1
          + (r2 - (v2 - 2 * (v0 * n0 + v1 * n1 + v2 * n2) * n2)) * n2) * ni) = C at hTn ⊢
    generalize ((v0 * n0 + v1 * n1 + v2 * n2) * (n0 * n0 + n1 * n1 + n2 * n2 - 1) * ni) = D
      at hBn ⊢
    rw [abs_le] at hqi hri hTn hBn ⊢
    constructor <;> linarith
  exact ⟨r0, r1, r2, q0, q1, q2, by rw [ed, er0], by rw [ed, er1], by rw [ed, er2],
    by rw [ed2, eq0], by rw [ed2, eq1], by rw [ed2, eq2],
    fin r0 q0 v0 n0 hn0 br0 bq0, fin r1 q1 v1 n1 hn1 br1 bq1, fin r2 q2 v2 n2 hn2 br2 bq2⟩

/-- C23, amended (the cross product is orthogonal to its operands up to
rounding). In binary32, for finite `a` and `b` whose components all have
magnitude at most `M`, with `1 <= M <= 2^40`: `v3_cross_product(a, b)` returns,
and the dot product of the triple it writes with the operand values of `a`,
and of `b`, is finite and of magnitude at most `2e-6 * M^3`. When `dst` shares
no cell with `a` (with `b`), that dot product is what `v3_dot_product(dst, a)`
(`v3_dot_product(dst, b)`) returns. -/
theorem cross_orthogonal_binary32 (s : State F32) (dst a b : Nat)
    (x0 x1 x2 y0 y1 y2 M : ℚ) (hd : dst ≠ 0) (ha : a ≠ 0) (hb : b ≠ 0)
    (hx : s.vec a = (F32.fin x0, F32.fin x1, F32.fin x2))
    (hy : s.vec b = (F32.fin y0, F32.fin y1, F32.fin y2))
    (hM1 : 1 ≤ M) (hM : M ≤ 2 ^ 40)
    (hxM : |x0| ≤ M ∧ |x1| ≤ M ∧ |x2| ≤ M) (hyM : |y0| ≤ M ∧ |y1| ≤ M ∧ |y2| ≤ M) :
    ∃ t da db, v3_cross_product dst a b s = some t
      ∧ t.mem (dst + 0) * s.mem (a + 0) + t.mem (dst + 1) * s.mem (a + 1)
          + t.mem (dst + 2) * s.mem (a + 2) = F32.fin da
      ∧ t.mem (dst + 0) * s.mem (b + 0) + t.mem (dst + 1) * s.mem (b + 1)
          + t.mem (dst + 2) * s.mem (b + 2) = F32.fin db
      ∧ |da| ≤ 2 * M ^ 3 / 1000000 ∧ |db| ≤ 2 * M ^ 3 / 1000000
      ∧ (disjoint3 dst a → v3_dot_product dst a t = some (F32.fin da))
      ∧ (disjoint3 dst b → v3_dot_product dst b t = some (F32.fin db)) := by
  obtain ⟨a0, a1, a2⟩ := (vec_eq_iff s a _ _ _).1 hx
  obtain ⟨b0, b1, b2⟩ := (vec_eq_iff s b _ _ _).1 hy
  obtain ⟨hx0, hx1, hx2⟩ := hxM
  obtain ⟨hy0, hy1, hy2⟩ := hyM
  obtain ⟨da, eda, bda⟩ := f32_cross_dot x0 x1 x2 y0 y1 y2 x0 x1 x2 M hM1 hM
    hx0 hx1 hx2 hy0 hy1 hy2 hx0 hx1 hx2 (by ring)
  obtain ⟨db, edb, bdb⟩ := f32_cross_dot x0 x1 x2 y0 y1 y2 y0 y1 y2 M hM1 hM
    hx0 hx1 hx2 hy0 hy1 hy2 hy0 hy1 hy2 (by ring)
  have hcall : v3_cross_product dst a b s
      = some (((s.store (dst + 0) (F32.fin x1 * F32.fin y2 - F32.fin x2 * F32.fin y1)).store
          (dst + 1) (F32.fin x2 * F32.fin y0 - F32.fin x0 * F32.fin y2)).store
          (dst + 2) (F32.fin x0 * F32.fin y1 - F32.fin x1 * F32.fin y0)) := by
    simp only [v3_cross_product, a0, a1, a2, b0, b1, b2]
    simp [hd, ha, hb]
  have hvec := store3_vec s dst
    (F32.fin x1 * F32.fin y2 - F32.fin x2 * F32.fin y1)
    (F32.fin x2 * F32.fin y0 - F32.fin x0 * F32.fin y2)
    (F32.fin x0 * F32.fin y1 - F32.fin x1 * F32.fin y0)
  have hfr := sameOutside_store3 s dst
    (F32.fin x1 * F32.fin y2 - F32.fin x2 * F32.fin y1)
    (F32.fin x2 * F32.fin y0 - F32.fin x0 * F32.fin y2)
    (F32.fin x0 * F32.fin y1 - F32.fin x1 * F32.fin y0)
  revert hcall hvec hfr
  generalize ((s.store (dst + 0) _).store (dst + 1) _).store (dst + 2) _ = t
  intro hcall hvec hfr
  obtain ⟨c0, c1, c2⟩ := (vec_eq_iff t dst _ _ _).1 hvec
  have oa : t.mem (dst + 0) * s.mem (a + 0) + t.mem (dst + 1) * s.mem (a + 1)
      + t.mem (dst + 2) * s.mem (a + 2) = F32.fin da := by
    rw [c0, c1, c2, a0, a1, a2]; exact eda
  have ob : t.mem (dst + 0) * s.mem (b + 0) + t.mem (dst + 1) * s.mem (b + 1)
      + t.mem (dst + 2) * s.mem (b + 2) = F32.fin db := by
    rw [c0, c1, c2, b0, b1, b2]; exact edb
  refine ⟨t, da, db, hcall, oa, ob, bda, bdb, ?_, ?_⟩
  · intro hsep
    obtain ⟨e0, e1, e2⟩ := (vec_eq_iff t a _ _ _).1 (vec_of_sameOutside s t dst a hfr hsep)
    have : v3_dot_product dst a t = some (t.mem (dst + 0) * t.mem (a + 0)
        + t.mem (dst + 1) * t.mem (a + 1) + t.mem (dst + 2) * t.mem (a + 2)) := by
      simp [v3_dot_product, hd, ha]
    rw [this, e0, e1, e2, oa]
  · intro hsep
    obtain ⟨e0, e1, e2⟩ := (vec_eq_iff t b _ _ _).1 (vec_of_sameOutside s t dst b hfr hsep)
    have : v3_dot_product dst b t = some (t.mem (dst + 0) * t.mem (b + 0)
        + t.mem (dst + 1) * t.mem (b + 1) + t.mem (dst + 2) * t.mem (b + 2)) := by
      simp [v3_dot_product, hd, hb]
    rw [this, e0, e1, e2, ob]

/-- Witness for C23 (amended): `a = (0.1f, 0.2f, 0.3f)` and
`b = (0.4f, 0.5f, 0.7f)` with `M = 1`, the product written to the buffer at
`7`. -/
theorem cross_orthogonal_binary32_witness :
    (7 : Nat) ≠ 0 ∧ (1 : Nat) ≠ 0 ∧ (4 : Nat) ≠ 0 ∧ disjoint3 7 1 ∧ disjoint3 7 4 ∧
    ∃ t da db, v3_cross_product 7 1 4 (twoVecs
        (F32.round (1 / 10), F32.round (2 / 10), F32.round (3 / 10))
        (F32.round (4 / 10), F32.round (5 / 10), F32.round (7 / 10))) = some t
      ∧ v3_dot_product 7 1 t = some (F32.fin da) ∧ v3_dot_product 7 4 t = some (F32.fin db)
      ∧ |da| ≤ 2 * 1 ^ 3 / 1000000 ∧ |db| ≤ 2 * 1 ^ 3 / 1000000 :=
  have h := cross_orthogonal_binary32 (twoVecs
      (F32.round (1 / 10), F32.round (2 / 10), F32.round (3 / 10))
      (F32.round (4 / 10), F32.round (5 / 10), F32.round (7 / 10))) 7 1 4
    (13421773 / 134217728) (13421773 / 67108864) (5033165 / 16777216)
    (13421773 / 33554432) (1 / 2) (11744051 / 16777216) 1
    (by decide) (by decide) (by decide) (by decide!) (by decide!)
    (le_refl 1) (by norm_num)
    ⟨by norm_num [abs_le], by norm_num [abs_le], by norm_num [abs_le]⟩
    ⟨by norm_num [abs_le], by norm_num [abs_le], by norm_num [abs_le]⟩
  ⟨by decide, by decide, by decide, by decide, by decide,
    h.elim fun t ht => ht.elim fun da hda => hda.elim fun db hdb =>
      ⟨t, da, db, hdb.1, hdb.2.2.2.2.2.1 (by decide), hdb.2.2.2.2.2.2 (by decide),
        hdb.2.2.2.1, hdb.2.2.2.2.1⟩⟩

/-- C4, amended (reflection involution up to rounding). In binary32, when the
finite normal in `n` has `v3_dot_product(n, n) = 1`, the components of the
finite `v` have magnitude at most `M`, with `1 <= M <= 2^30`, and the first
destination `d1` shares no cell with `n` (so that the second call sees the
same normal; `d1` may be `v` itself), reflecting `v` into `d1` and then
reflecting `d1` into `d2` returns, and `d2` holds a finite vector within
`1e-4 * M` of the original `v` in every component. -/
theorem reflect_involution_binary32 (s : State F32) (d1 d2 v n : Nat)
    (x0 x1 x2 n0 n1 n2 M : ℚ)
    (h1 : d1 ≠ 0) (h2 : d2 ≠ 0) (hv : v ≠ 0) (hn : n ≠ 0)
    (hx : s.vec v = (F32.fin x0, F32.fin x1, F32.fin x2))
    (hnv : s.vec n = (F32.fin n0, F32.fin n1, F32.fin n2))
    (hM1 : 1 ≤ M) (hM : M ≤ 2 ^ 30)
    (hxM : |x0| ≤ M ∧ |x1| ≤ M ∧ |x2| ≤ M)
    (hunit : v3_dot_product n n s = some 1) (hsep : disjoint3 d1 n) :
    ∃ s1 s2 q0 q1 q2, v3_reflect d1 v n s = some s1 ∧ v3_reflect d2 d1 n s1 = some s2
      ∧ s2.vec d2 = (F32.fin q0, F32.fin q1, F32.fin q2)
      ∧ |q0 - x0| ≤ M / 10000 ∧ |q1 - x1| ≤ M / 10000 ∧ |q2 - x2| ≤ M / 10000 := by
  obtain ⟨a0, a1, a2⟩ := (vec_eq_iff s v _ _ _).1 hx
  obtain ⟨m0, m1, m2⟩ := (vec_eq_iff s n _ _ _).1 hnv
  obtain ⟨hx0, hx1, hx2⟩ := hxM
  have hu : F32.fin n0 * F32.fin n0 + F32.fin n1 * F32.fin n1 + F32.fin n2 * F32.fin n2
      = F32.fin 1 := by
    have := hunit
    simp only [v3_dot_product, m0, m1, m2, if_pos (⟨hn, hn⟩ : n ≠ 0 ∧ n ≠ 0)] at this
    exact Option.some.inj this
  obtain ⟨r0, r1, r2, q0, q1, q2, er0, er1, er2, eq0, eq1, eq2, b0, b1, b2⟩ :=
    f32_reflect_twice x0 x1 x2 n0 n1 n2 M hM1 hM hx0 hx1 hx2 hu
  have hcall1 : v3_reflect d1 v n s
      = some (((s.store (d1 + 0) (F32.fin r0)).store (d1 + 1) (F32.fin r1)).store
          (d1 + 2) (F32.fin r2)) := by
    simp only [v3_reflect, v3_dot_product, a0, a1, a2, m0, m1, m2,
      if_pos (⟨h1, hv, hn⟩ : d1 ≠ 0 ∧ v ≠ 0 ∧ n ≠ 0), if_pos (⟨hv, hn⟩ : v ≠ 0 ∧ n ≠ 0),
      Option.some_bind, er0, er1, er2]
  have hr := store3_vec s d1 (F32.fin r0) (F32.fin r1) (F32.fin r2)
  have hnn := store3_vec_frame s d1 n (F32.fin r0) (F32.fin r1) (F32.fin r2) hsep
  revert hcall1 hr hnn
  generalize ((s.store (d1 + 0) _).store (d1 + 1) _).store (d1 + 2) _ = s1
  intro hcall1 hr hnn
  rw [hnv] at hnn
  obtain ⟨c0, c1, c2⟩ := (vec_eq_iff s1 d1 _ _ _).1 hr
  obtain ⟨k0, k1, k2⟩ := (vec_eq_iff s1 n _ _ _).1 hnn
  have hcall2 : v3_reflect d2 d1 n s1
      = some (((s1.store (d2 + 0) (F32.fin q0)).store (d2 + 1) (F32.fin q1)).store
          (d2 + 2) (F32.fin q2)) := by
    simp only [v3_reflect, v3_dot_product, c0, c1, c2, k0, k1, k2,
      if_pos (⟨h2, h1, hn⟩ : d2 ≠ 0 ∧ d1 ≠ 0 ∧ n ≠ 0), if_pos (⟨h1, hn⟩ : d1 ≠ 0 ∧ n ≠ 0),
      Option.some_bind, eq0, eq1, eq2]
  exact ⟨s1, _, q0, q1, q2, hcall1, hcall2, store3_vec s1 d2 _ _ _, b0, b1, b2⟩

/-- Witness for C4 (amended): `v = (70, 90, 0)` and `n = (0.6f, 0.8f, 0)` with
`M = 90`, reflected into the buffer at `7` and then into the buffer at `10`. -/
theorem reflect_involution_binary32_witness :
    v3_dot_product 4 4 (threeVecs ((70 : F32), 90, 0)
        (F32.round (6 / 10), F32.round (8 / 10), 0) (0, 0, 0)) = some 1 ∧
    disjoint3 7 4 ∧
    ∃ s1 s2 q0 q1 q2, v3_reflect 7 1 4 (threeVecs ((70 : F32), 90, 0)
        (F32.round (6 / 10), F32.round (8 / 10), 0) (0, 0, 0)) = some s1
      ∧ v3_reflect 10 7 4 s1 = some s2
      ∧ s2.vec 10 = (F32.fin q0, F32.fin q1, F32.fin q2)
      ∧ |q0 - 70| ≤ 90 / 10000 ∧ |q1 - 90| ≤ 90 / 10000 ∧ |q2 - 0| ≤ 90 / 10000 :=
  ⟨by decide!, by decide,
    reflect_involution_binary32 (threeVecs ((70 : F32), 90, 0)
        (F32.round (6 / 10), F32.round (8 / 10), 0) (0, 0, 0)) 7 10 1 4
      70 90 0 (5033165 / 8388608) (13421773 / 16777216) 0 90
      (by decide) (by decide) (by decide) (by decide) (by decide!) (by decide!)
      (by norm_num) (by norm_num)
      ⟨by norm_num [abs_le], by norm_num [abs_le], by norm_num [abs_le]⟩
      (by decide!) (by decide)⟩

/-- C4, as stated, fails in binary32: for the normal `n = (0.6f, 0.8f, 0)`,
for which `v3_dot_product(n, n)` returns exactly `1`, and `v = (70, 90, 0)`,
reflecting `v` into the buffer at `7` and that into the buffer at `10` gives
`(70.0000152587890625, 90, 0)`, which is not `v` and is further than `1e-5`
from it. -/
theorem reflect_involution_counterexample :
    v3_dot_product 4 4 (threeVecs ((70 : F32), 90, 0)
        (F32.round (6 / 10), F32.round (8 / 10), 0) (0, 0, 0)) = some 1 ∧
    disjoint3 7 4 ∧
    ∃ s1 s2, v3_reflect 7 1 4 (threeVecs ((70 : F32), 90, 0)
        (F32.round (6 / 10), F32.round (8 / 10), 0) (0, 0, 0)) = some s1
      ∧ v3_reflect 10 7 4 s1 = some s2
      ∧ s2.vec 10 = (F32.fin (4587521 / 65536), F32.fin 90, F32.fin 0)
      ∧ s2.vec 10 ≠ (threeVecs ((70 : F32), 90, 0)
          (F32.round (6 / 10), F32.round (8 / 10), 0) (0, 0, 0)).vec 1
      ∧ ¬ (|(4587521 / 65536 : ℚ) - 70| ≤ 1 / 100000) :=
  ⟨by decide!, by decide, _, _, rfl, rfl, by decide!, by decide!, by norm_num [abs_le]⟩

/-- C23, as stated, fails in binary32, with the product written to the separate
buffer at `7`: for `a = (0.1f, 0.2f, 0.3f)` and `b = (0.4f, 0.5f, 0.7f)`,
`v3_dot_product(cross(a, b), a)` returns `-2^-30`, not `0`; for
`a = (1001, 1002, 1003)` and `b = (1000.1f, 1000.7f, 1001.3f)` it returns
`-125.1875`, and `v3_dot_product(cross(a, b), b)` returns `-125.03125`. -/
theorem cross_orthogonal_counterexample :
    disjoint3 7 1 ∧ disjoint3 7 4 ∧
    (∃ t, v3_cross_product 7 1 4 (twoVecs
        (F32.round (1 / 10), F32.round (2 / 10), F32.round (3 / 10))
        (F32.round (4 / 10), F32.round (5 / 10), F32.round (7 / 10))) = some t
      ∧ v3_dot_product 7 1 t = some (F32.fin (-(1 / 1073741824)))
      ∧ v3_dot_product 7 1 t ≠ some 0) ∧
    (∃ t, v3_cross_product 7 1 4 (twoVecs ((1001 : F32), 1002, 1003)
        (F32.round (10001 / 10), F32.round (10007 / 10), F32.round (10013 / 10))) = some t
      ∧ t.vec 7 = (F32.fin (-(6393 / 16)), F32.fin (12783 / 16), F32.fin (-(799 / 2)))
      ∧ v3_dot_product 7 1 t = some (F32.fin (-(2003 / 16)))
      ∧ v3_dot_product 7 4 t = some (F32.fin (-(4001 / 32)))) :=
  ⟨by decide, by decide, ⟨_, rfl, by decide!, by decide!⟩,
    ⟨_, rfl, by decide!, by decide!, by decide!⟩⟩

/-- Where the cosine of `x` in `[0, pi]` is above `q`, the arccosine of `q` is
above `x`. -/
theorem lt_arccos_of_lt_cos (x q : ℝ) (hx0 : 0 ≤ x) (hx1 : x ≤ Real.pi) (hq : -1 ≤ q)
    (h : q < Real.cos x) : x < Real.arccos q := by
  have hmem : q ∈ Set.Icc (-1 : ℝ) 1 := ⟨hq, le_trans (le_of_lt h) (Real.cos_le_one x)⟩
  have hcos : Real.cos x ∈ Set.Icc (-1 : ℝ) 1 := ⟨Real.neg_one_le_cos x, Real.cos_le_one x⟩
  have := Real.strictAntiOn_arccos hmem hcos h
  rwa [Real.arccos_cos hx0 hx1] at this

/-- Where the cosine of `x` in `[0, pi]` is below `q <= 1`, the arccosine of `q`
is below `x`. -/
theorem arccos_lt_of_cos_lt (x q : ℝ) (hx0 : 0 ≤ x) (hx1 : x ≤ Real.pi) (hq : q ≤ 1)
    (h : Real.cos x < q) : Real.arccos q < x := by
  have hmem : q ∈ Set.Icc (-1 : ℝ) 1 :=
    ⟨le_trans (Real.neg_one_le_cos x) (le_of_lt h), hq⟩
  have hcos : Real.cos x ∈ Set.Icc (-1 : ℝ) 1 := ⟨Real.neg_one_le_cos x, Real.cos_le_one x⟩
  have := Real.strictAntiOn_arccos hcos hmem h
  rwa [Real.arccos_cos hx0 hx1] at this

/-- The arccosine of `1 - 2^-24` lies between `3.35e-4` and `3.55e-4`. -/
theorem arccos_one_sub_ulp :
    335 / 1000000 < Real.arccos (16777215 / 16777216)
      ∧ Real.arccos (16777215 / 16777216) < 355 / 1000000 := by
  have hpi := Real.pi_gt_three
  constructor
  · apply lt_arccos_of_lt_cos _ _ (by norm_num) (by linarith) (by norm_num)
    have hb := Real.cos_bound (x := 335 / 1000000) (by rw [abs_le]; constructor <;> norm_num)
    have hb2 := (abs_le.mp hb).1
    rw [abs_of_nonneg (by norm_num : (0 : ℝ) ≤ 335 / 1000000)] at hb2
    norm_num at hb2 ⊢
    linarith
  · apply arccos_lt_of_cos_lt _ _ (by norm_num) (by linarith) (by norm_num)
    have hb := Real.cos_bound (x := 355 / 1000000) (by rw [abs_le]; constructor <;> norm_num)
    have hb2 := (abs_le.mp hb).2
    rw [abs_of_nonneg (by norm_num : (0 : ℝ) ≤ 355 / 1000000)] at hb2
    norm_num at hb2 ⊢
    linarith

/-- C19, as stated, fails in binary32: for `a = (1,2,3)` and `b = 2 * a`, both
of length above `EPSILON`, the lengths `sqrtf(14)` and `sqrtf(56)` and their
product `28.000002` are rounded, and `v3_angle_quick(a, b)` returns
`1 - 2^-24`, not `1`. For every `acosf` accurate to `1e-5` at that argument
(and there is one), `v3_angle(a, b)` returns a value above `3e-4`: not `0`,
and not within `1e-5` of it. -/
theorem parallel_angle_counterexample :
    (twoVecs ((1 : F32), 2, 3) (2, 4, 6)).vec 4 = smul3 2 ((twoVecs ((1 : F32), 2, 3) (2, 4, 6)).vec 1) ∧
    v3_length F32.sqrt 1 (twoVecs ((1 : F32), 2, 3) (2, 4, 6)) = some (F32.fin (15693649 / 4194304)) ∧
    v3_length F32.sqrt 4 (twoVecs ((1 : F32), 2, 3) (2, 4, 6)) = some (F32.fin (15693649 / 2097152)) ∧
    (EPSILON : F32) ≤ F32.fin (15693649 / 4194304) ∧
    (EPSILON : F32) ≤ F32.fin (15693649 / 2097152) ∧
    F32.fin (15693649 / 4194304) * F32.fin (15693649 / 2097152)
      = F32.fin (14680065 / 524288) ∧
    v3_angle_quick F32.sqrt 1 4 (twoVecs ((1 : F32), 2, 3) (2, 4, 6)) = some (F32.fin (16777215 / 16777216), (twoVecs ((1 : F32), 2, 3) (2, 4, 6))) ∧
    F32.fin (16777215 / 16777216) ≠ 1 ∧
    (∃ acosf : F32 → F32, AcosfWithin acosf (16777215 / 16777216) (1 / 100000)) ∧
    ∀ acosf : F32 → F32, AcosfWithin acosf (16777215 / 16777216) (1 / 100000) →
      ∃ r : ℚ, v3_angle F32.sqrt acosf 1 4 (twoVecs ((1 : F32), 2, 3) (2, 4, 6)) = some (F32.fin r, (twoVecs ((1 : F32), 2, 3) (2, 4, 6)))
        ∧ 3 / 10000 < r ∧ ¬ (|r - 0| ≤ 1 / 100000) := by
  have hla : v3_length F32.sqrt 1 (twoVecs ((1 : F32), 2, 3) (2, 4, 6)) = some (F32.fin (15693649 / 4194304)) := by decide!
  have hlb : v3_length F32.sqrt 4 (twoVecs ((1 : F32), 2, 3) (2, 4, 6)) = some (F32.fin (15693649 / 2097152)) := by decide!
  have hdot : v3_dot_product 1 4 (twoVecs ((1 : F32), 2, 3) (2, 4, 6)) = some (F32.fin 28) := by decide!
  have hdeg : ¬ (F32.fin (15693649 / 4194304) < (EPSILON : F32)
      ∨ F32.fin (15693649 / 2097152) < (EPSILON : F32)) := by decide!
  have hc : clamped (F32.fin 28 / (F32.fin (15693649 / 4194304)
      * F32.fin (15693649 / 2097152))) = F32.fin (16777215 / 16777216) := by decide!
  obtain ⟨hlo, hhi⟩ := arccos_one_sub_ulp
  refine ⟨by decide!, hla, hlb, by decide!, by decide!, by decide!, ?_, by decide!, ?_, ?_⟩
  · rw [f32_angle_quick_regular F32.sqrt _ 1 4 _ _ _ (by decide) (by decide) hla hlb hdot hdeg,
      hc]
  · refine ⟨fun _ => F32.fin (345 / 1000000), 345 / 1000000, rfl, ?_⟩
    rw [abs_le]
    push_cast
    constructor
    · norm_num at hhi ⊢
      linarith
    · norm_num at hlo ⊢
      linarith
  · rintro acosf ⟨r, hr, hnear⟩
    have hcast : ((16777215 / 16777216 : ℚ) : ℝ) = 16777215 / 16777216 := by push_cast; rfl
    rw [hcast] at hnear
    have hnear2 := (abs_le.mp hnear).1
    have hr3 : (3 / 10000 : ℝ) < (r : ℝ) := by
      push_cast at hnear2
      norm_num at hlo hnear2 ⊢
      linarith
    have hr4 : (3 / 10000 : ℚ) < r := by
      have h : ((3 / 10000 : ℚ) : ℝ) < (r : ℝ) := by push_cast; exact hr3
      exact_mod_cast h
    refine ⟨r, ?_, hr4, ?_⟩
    · rw [f32_angle_regular F32.sqrt acosf _ 1 4 _ _ _ (by decide) (by decide) hla hlb hdot hdeg,
        hc, hr]
    · rw [sub_zero, abs_of_pos (lt_trans (by norm_num) hr4)]
      intro h
      linarith

/-- The two ways `v3_normalize` leaves a non-zero vector without unit length in
binary32. `(1e-7f, 0, 0)` has length `1e-7f`, below `EPSILON`: the degenerate
branch writes the zero vector and sets `errno`. `(1e20f, 0, 0)` has length
`+inf` (the square overflows), which is not below `EPSILON`: the regular
branch runs with `inv_len = 1 / inf = 0` and writes the zero vector, of length
`0`, with `errno` and `stderr` untouched. -/
theorem normalize_binary32 :
    F32.round (1 / 10000000) = F32.fin (14073749 / 140737488355328) ∧
    v3_length F32.sqrt 1 (twoVecs (F32.round (1 / 10000000), (0 : F32), 0) (0, 0, 0))
      = some (F32.fin (14073749 / 140737488355328)) ∧
    F32.fin (14073749 / 140737488355328) < (EPSILON : F32) ∧
    (v3_normalize F32.sqrt 7 1 (twoVecs (F32.round (1 / 10000000), (0 : F32), 0) (0, 0, 0))).map
        (fun t => (t.vec 7, t.errno, v3_length F32.sqrt 7 t))
      = some ((0, 0, 0), EINVAL, some 0) ∧
    v3_length F32.sqrt 1 (twoVecs (F32.round (10 ^ 20), (0 : F32), 0) (0, 0, 0))
      = some (F32.inf false) ∧
    ¬ (F32.inf false < (EPSILON : F32)) ∧
    (v3_normalize F32.sqrt 7 1 (twoVecs (F32.round (10 ^ 20), (0 : F32), 0) (0, 0, 0))).map
        (fun t => (t.vec 7, t.errno, t.stderr, v3_length F32.sqrt 7 t))
      = some ((0, 0, 0), 0, [], some 0) :=
  ⟨by decide!, by decide!, by decide!, by decide!, by decide!, by decide!, by decide!⟩

/-- C9 at its failing input, in binary32: `a = b = (1e20f, 0, 0)` are finite
and non-degenerate (both lengths are `+inf`, not below `EPSILON`);
`v3_angle_quick(a, b)` returns a NaN, which is not in `[-1, 1]`, and
`v3_angle(a, b)` returns `acosf(NaN)`, whatever `acosf` is. -/
theorem angle_range_overflow :
    v3_length F32.sqrt 1 (twoVecs (F32.round (10 ^ 20), (0 : F32), 0)
      (F32.round (10 ^ 20), 0, 0)) = some (F32.inf false) ∧
    v3_length F32.sqrt 4 (twoVecs (F32.round (10 ^ 20), (0 : F32), 0)
      (F32.round (10 ^ 20), 0, 0)) = some (F32.inf false) ∧
    ¬ (F32.inf false < (EPSILON : F32)) ∧
    v3_angle_quick F32.sqrt 1 4 (twoVecs (F32.round (10 ^ 20), (0 : F32), 0)
        (F32.round (10 ^ 20), 0, 0))
      = some (F32.nan, twoVecs (F32.round (10 ^ 20), (0 : F32), 0)
        (F32.round (10 ^ 20), 0, 0)) ∧
    ¬ ((-1 : F32) ≤ F32.nan ∧ F32.nan ≤ (1 : F32)) ∧
    ∀ acosf : F32 → F32,
      v3_angle F32.sqrt acosf 1 4 (twoVecs (F32.round (10 ^ 20), (0 : F32), 0)
          (F32.round (10 ^ 20), 0, 0))
        = some (acosf F32.nan, twoVecs (F32.round (10 ^ 20), (0 : F32), 0)
          (F32.round (10 ^ 20), 0, 0)) := by
  have hla : v3_length F32.sqrt 1 (twoVecs (F32.round (10 ^ 20), (0 : F32), 0)
      (F32.round (10 ^ 20), 0, 0)) = some (F32.inf false) := by decide!
  have hlb : v3_length F32.sqrt 4 (twoVecs (F32.round (10 ^ 20), (0 : F32), 0)
      (F32.round (10 ^ 20), 0, 0)) = some (F32.inf false) := by decide!
  have hdot : v3_dot_product 1 4 (twoVecs (F32.round (10 ^ 20), (0 : F32), 0)
      (F32.round (10 ^ 20), 0, 0)) = some (F32.inf false) := by decide!
  have hdeg : ¬ (F32.inf false < (EPSILON : F32) ∨ F32.inf false < (EPSILON : F32)) := by
    decide!
  have hc : clamped (F32.inf false / (F32.inf false * F32.inf false)) = F32.nan := by decide!
  refine ⟨hla, hlb, by decide!, ?_, by decide, fun acosf => ?_⟩
  · rw [f32_angle_quick_regular F32.sqrt _ 1 4 _ _ _ (by decide) (by decide) hla hlb hdot hdeg,
      hc]
  · rw [f32_angle_regular F32.sqrt acosf _ 1 4 _ _ _ (by decide) (by decide) hla hlb hdot hdeg,
      hc]

/-- C20 at its failing input, in binary32: for the finite `a = b = (1e20f, 0, 0)`
the dot product and the divisor `len_a * len_b` are both `+inf`, the quotient
is a NaN, neither clamping test holds for a NaN, and the argument of `acosf`
is that NaN, outside `[-1, 1]`: `v3_angle_checked`, whose `acosf` fails outside
`[-1, 1]`, does not return. -/
theorem acosf_argument_overflow :
    v3_dot_product 1 4 (twoVecs (F32.round (10 ^ 20), (0 : F32), 0)
      (F32.round (10 ^ 20), 0, 0)) = some (F32.inf false) ∧
    F32.inf false * F32.inf false = F32.inf false ∧
    F32.inf false / F32.inf false = F32.nan ∧
    ¬ (F32.nan > (1 : F32)) ∧ ¬ (F32.nan < (-1 : F32)) ∧
    clamped F32.nan = F32.nan ∧
    ¬ ((-1 : F32) ≤ F32.nan ∧ F32.nan ≤ (1 : F32)) ∧
    ∀ acosf : F32 → F32,
      (v3_angle F32.sqrt acosf 1 4 (twoVecs (F32.round (10 ^ 20), (0 : F32), 0)
          (F32.round (10 ^ 20), 0, 0))).map Prod.fst = some (acosf F32.nan)
      ∧ (v3_angle_checked F32.sqrt acosf 1 4 (twoVecs (F32.round (10 ^ 20), (0 : F32), 0)
          (F32.round (10 ^ 20), 0, 0))).isNone = true := by
  have hla : v3_length F32.sqrt 1 (twoVecs (F32.round (10 ^ 20), (0 : F32), 0)
      (F32.round (10 ^ 20), 0, 0)) = some (F32.inf false) := by decide!
  have hlb : v3_length F32.sqrt 4 (twoVecs (F32.round (10 ^ 20), (0 : F32), 0)
      (F32.round (10 ^ 20), 0, 0)) = some (F32.inf false) := by decide!
  have hdot : v3_dot_product 1 4 (twoVecs (F32.round (10 ^ 20), (0 : F32), 0)
      (F32.round (10 ^ 20), 0, 0)) = some (F32.inf false) := by decide!
  have hdeg : ¬ (F32.inf false < (EPSILON : F32) ∨ F32.inf false < (EPSILON : F32)) := by
    decide!
  have hc : clamped (F32.inf false / (F32.inf false * F32.inf false)) = F32.nan := by decide!
  refine ⟨hdot, by decide, by decide, by decide, by decide!, by decide!, by decide,
    fun acosf => ⟨?_, ?_⟩⟩
  · rw [f32_angle_regular F32.sqrt acosf _ 1 4 _ _ _ (by decide) (by decide) hla hlb hdot hdeg,
      hc]
    rfl
  · have hq : checkedDiv (F32.inf false) (F32.inf false * F32.inf false) = some F32.nan := by
      decide!
    have hcn : (if (if F32.nan > (1 : F32) then (1 : F32) else F32.nan) < (-1 : F32)
        then (-1 : F32) else (if F32.nan > (1 : F32) then (1 : F32) else F32.nan)) = F32.nan := by
      decide!
    have ha : checkedAcos acosf F32.nan = none := by
      simp only [checkedAcos]
      rw [if_neg (by decide)]
    simp only [v3_angle_checked, hla, hlb, hdot, Option.some_bind, if_neg hdeg, hq, hcn, ha]
    simp

/-- In binary32 the clamp of `v3_angle` and `v3_angle_quick` leaves a NaN or a
value of `[-1, 1]`. -/
theorem f32_clamped_range (c : F32) :
    clamped c = F32.nan ∨ ((-1 : F32) ≤ clamped c ∧ clamped c ≤ 1) := by
  cases c with
  | nan => exact Or.inl (by decide!)
  | inf s =>
    cases s
    · exact Or.inr (by decide!)
    · exact Or.inr (by decide!)
  | fin p =>
    right
    unfold clamped
    by_cases h1 : F32.fin p > 1
    · rw [if_pos h1]
      decide!
    · rw [if_neg h1]
      by_cases h2 : F32.fin p < -1
      · rw [if_pos h2]
        decide!
      · rw [if_neg h2]
        have e1 : ¬ ((1 : ℚ) < p) := fun h => h1 (by
          show F32.blt (F32.fin 1) (F32.fin p) = true
          simpa [F32.blt] using h)
        have e2 : ¬ (p < (-1 : ℚ)) := fun h => h2 (by
          show F32.blt (F32.fin p) (F32.fin (-1)) = true
          simpa [F32.blt] using h)
        constructor
        · show F32.ble (F32.fin (-1)) (F32.fin p) = true
          simpa [F32.ble] using e2
        · show F32.ble (F32.fin p) (F32.fin 1) = true
          simpa [F32.ble] using e1

/-- A NaN is not below or equal to anything, and nothing is below or equal to it. -/
theorem f32_nan_not_le (x : F32) : ¬ (F32.nan ≤ x) ∧ ¬ (x ≤ F32.nan) := by
  constructor
  · show ¬ (F32.ble F32.nan x = true)
    cases x <;> simp [F32.ble]
  · show ¬ (F32.ble x F32.nan = true)
    cases x <;> simp [F32.ble]

/-- In binary32 a length that is at least `EPSILON` is not below `EPSILON`. -/
theorem f32_not_lt_of_le (x : F32) (h : (EPSILON : F32) ≤ x) : ¬ (x < (EPSILON : F32)) := by
  rw [EPSILON_binary32] at h ⊢
  cases x with
  | nan => exact fun hlt => by simp [LT.lt, F32.blt] at hlt
  | inf s =>
    cases s
    · exact fun hlt => by simp [LT.lt, F32.blt] at hlt
    · exact absurd h (by simp [LE.le, F32.ble])
  | fin p =>
    intro hlt
    have h1 : (8796093 / 8796093022208 : ℚ) ≤ p := by
      have : F32.ble (F32.fin (8796093 / 8796093022208)) (F32.fin p) = true := h
      simpa [F32.ble] using this
    have h2 : p < (8796093 / 8796093022208 : ℚ) := by
      have : F32.blt (F32.fin p) (F32.fin (8796093 / 8796093022208)) = true := hlt
      simpa [F32.blt] using this
    exact absurd h2 (not_lt.mpr h1)

/-- C11, amended (`v3_angle_quick` is an order proxy for `v3_angle` in one
direction). In binary32, for any `sqrtf`, an `acosf` that is non-increasing on
`[-1, 1]` and all `a`, `b`, `c`, `d` of length at least `EPSILON`, the four
calls return without touching the state, and
`v3_angle_quick(a, b) >= v3_angle_quick(c, d)` implies
`v3_angle(a, b) <= v3_angle(c, d)`. The converse is lost to the rounding of
`acosf`. -/
theorem angle_quick_order_binary32 (sqrtf acosf : F32 → F32)
    (hmono : ∀ x y : F32, (-1 : F32) ≤ x → x ≤ y → y ≤ 1 → acosf y ≤ acosf x)
    (s : State F32) (a b c d : Nat) (la lb lc ld : F32)
    (ha : a ≠ 0) (hb : b ≠ 0) (hc : c ≠ 0) (hd : d ≠ 0)
    (hla : v3_length sqrtf a s = some la) (hlb : v3_length sqrtf b s = some lb)
    (hlc : v3_length sqrtf c s = some lc) (hld : v3_length sqrtf d s = some ld)
    (hna : EPSILON ≤ la) (hnb : EPSILON ≤ lb) (hnc : EPSILON ≤ lc) (hnd : EPSILON ≤ ld) :
    ∃ r1 q1 r2 q2,
      v3_angle sqrtf acosf a b s = some (r1, s)
      ∧ v3_angle_quick sqrtf a b s = some (q1, s)
      ∧ v3_angle sqrtf acosf c d s = some (r2, s)
      ∧ v3_angle_quick sqrtf c d s = some (q2, s)
      ∧ (q1 ≥ q2 → r1 ≤ r2) := by
  have hdeg1 : ¬ (la < EPSILON ∨ lb < EPSILON) := by
    rintro (h | h)
    · exact f32_not_lt_of_le la hna h
    · exact f32_not_lt_of_le lb hnb h
  have hdeg2 : ¬ (lc < EPSILON ∨ ld < EPSILON) := by
    rintro (h | h)
    · exact f32_not_lt_of_le lc hnc h
    · exact f32_not_lt_of_le ld hnd h
  have hdot1 : v3_dot_product a b s = some (s.mem (a + 0) * s.mem (b + 0)
      + s.mem (a + 1) * s.mem (b + 1) + s.mem (a + 2) * s.mem (b + 2)) := by
    simp [v3_dot_product, ha, hb]
  have hdot2 : v3_dot_product c d s = some (s.mem (c + 0) * s.mem (d + 0)
      + s.mem (c + 1) * s.mem (d + 1) + s.mem (c + 2) * s.mem (d + 2)) := by
    simp [v3_dot_product, hc, hd]
  refine ⟨_, _, _, _,
    f32_angle_regular sqrtf acosf s a b la lb _ ha hb hla hlb hdot1 hdeg1,
    f32_angle_quick_regular sqrtf s a b la lb _ ha hb hla hlb hdot1 hdeg1,
    f32_angle_regular sqrtf acosf s c d lc ld _ hc hd hlc hld hdot2 hdeg2,
    f32_angle_quick_regular sqrtf s c d lc ld _ hc hd hlc hld hdot2 hdeg2, ?_⟩
  intro hge
  have hge2 : clamped ((s.mem (c + 0) * s.mem (d + 0) + s.mem (c + 1) * s.mem (d + 1)
      + s.mem (c + 2) * s.mem (d + 2)) / (lc * ld))
    ≤ clamped ((s.mem (a + 0) * s.mem (b + 0) + s.mem (a + 1) * s.mem (b + 1)
      + s.mem (a + 2) * s.mem (b + 2)) / (la * lb)) := hge
  rcases f32_clamped_range ((s.mem (a + 0) * s.mem (b + 0) + s.mem (a + 1) * s.mem (b + 1)
      + s.mem (a + 2) * s.mem (b + 2)) / (la * lb)) with h1 | h1
  · rw [h1] at hge2
    exact absurd hge2 (f32_nan_not_le _).2
  · rcases f32_clamped_range ((s.mem (c + 0) * s.mem (d + 0) + s.mem (c + 1) * s.mem (d + 1)
        + s.mem (c + 2) * s.mem (d + 2)) / (lc * ld)) with h2 | h2
    · rw [h2] at hge2
      exact absurd hge2 (f32_nan_not_le _).1
    · exact hmono _ _ h2.1 hge2 h1.2

/-- Negation is non-increasing on the binary32 values of `[-1, 1]`. -/
theorem f32_neg_antitone (x y : F32) (hx : (-1 : F32) ≤ x) (hxy : x ≤ y) (hy : y ≤ 1) :
    F32.neg y ≤ F32.neg x := by
  cases x with
  | nan => exact absurd hx (f32_nan_not_le _).2
  | inf s =>
    cases y with
    | nan => exact absurd hy (f32_nan_not_le _).1
    | inf t =>
      cases s
      · cases t
        · exact absurd hy (by decide!)
        · exact absurd hxy (by decide!)
      · exact absurd hx (by decide!)
    | fin q =>
      cases s
      · exact absurd hxy (by simp [LE.le, F32.ble])
      · exact absurd hx (by decide!)
  | fin p =>
    cases y with
    | nan => exact absurd hy (f32_nan_not_le _).1
    | inf t =>
      cases t
      · exact absurd hy (by decide!)
      · exact absurd hxy (by simp [LE.le, F32.ble])
    | fin q =>
      have h : p ≤ q := by
        have : F32.ble (F32.fin p) (F32.fin q) = true := hxy
        simpa [F32.ble] using this
      show F32.ble (F32.fin (-q)) (F32.fin (-p)) = true
      simpa [F32.ble] using h

/-- Witness for C11 (amended): negation for `acosf`, the zero angle between
`(1,0,0)` and itself against the right angle between `(1,0,0)` and `(0,1,0)`. -/
theorem angle_quick_order_binary32_witness :
    v3_length F32.sqrt 1 (twoVecs ((1 : F32), 0, 0) (0, 1, 0)) = some 1 ∧ v3_length F32.sqrt 4 (twoVecs ((1 : F32), 0, 0) (0, 1, 0)) = some 1 ∧
    (EPSILON : F32) ≤ 1 ∧
    ∃ r1 q1 r2 q2,
      v3_angle F32.sqrt F32.neg 1 1 (twoVecs ((1 : F32), 0, 0) (0, 1, 0)) = some (r1, (twoVecs ((1 : F32), 0, 0) (0, 1, 0)))
      ∧ v3_angle_quick F32.sqrt 1 1 (twoVecs ((1 : F32), 0, 0) (0, 1, 0)) = some (q1, (twoVecs ((1 : F32), 0, 0) (0, 1, 0)))
      ∧ v3_angle F32.sqrt F32.neg 1 4 (twoVecs ((1 : F32), 0, 0) (0, 1, 0)) = some (r2, (twoVecs ((1 : F32), 0, 0) (0, 1, 0)))
      ∧ v3_angle_quick F32.sqrt 1 4 (twoVecs ((1 : F32), 0, 0) (0, 1, 0)) = some (q2, (twoVecs ((1 : F32), 0, 0) (0, 1, 0)))
      ∧ (q1 ≥ q2 → r1 ≤ r2) :=
  have h1 : v3_length F32.sqrt 1 (twoVecs ((1 : F32), 0, 0) (0, 1, 0)) = some 1 := by decide!
  have h4 : v3_length F32.sqrt 4 (twoVecs ((1 : F32), 0, 0) (0, 1, 0)) = some 1 := by decide!
  have hE : (EPSILON : F32) ≤ 1 := by decide!
  ⟨h1, h4, hE,
    angle_quick_order_binary32 F32.sqrt F32.neg f32_neg_antitone
      (twoVecs ((1 : F32), 0, 0) (0, 1, 0)) 1 1 1 4 1 1 1 1
      (by decide) (by decide) (by decide) (by decide) h1 h1 h1 h4 hE hE hE hE⟩

/-- For `0 <= q <= 3e-9` the arccosine of `q` lies strictly between
`13176795 / 2^23 - 2^-24` and `13176795 / 2^23`, the binary32 value of `pi / 2`. -/
theorem arccos_near_half_pi (q : ℝ) (h0 : 0 ≤ q) (h1 : q ≤ 3 / 1000000000) :
    13176795 / 8388608 - 1 / 16777216 < Real.arccos q
      ∧ Real.arccos q < 13176795 / 8388608 := by
  have hpi1 := Real.pi_gt_d20
  have hpi2 := Real.pi_lt_d20
  have hq1 : q ≤ 1 := by linarith
  have hqm : -1 ≤ q := by linarith
  have hs0 : 0 ≤ Real.arcsin q := Real.arcsin_nonneg.2 h0
  have hs1 : Real.arcsin q ≤ Real.pi / 2 := Real.arcsin_le_pi_div_two q
  have hjordan := Real.mul_le_sin hs0 hs1
  rw [Real.sin_arcsin hqm hq1] at hjordan
  have hpos : 0 < Real.pi := Real.pi_pos
  have hle : Real.arcsin q ≤ Real.pi / 2 * q := by
    have h2 : 2 / Real.pi * Real.arcsin q * (Real.pi / 2) ≤ q * (Real.pi / 2) :=
      mul_le_mul_of_nonneg_right hjordan (by positivity)
    have h3 : 2 / Real.pi * Real.arcsin q * (Real.pi / 2) = Real.arcsin q := by
      field_simp
    rw [h3] at h2
    linarith
  have hle2 : Real.arcsin q ≤ 6 / 1000000000 := by
    have : Real.pi / 2 * q ≤ 2 * q := by
      apply mul_le_mul_of_nonneg_right _ h0
      linarith
    linarith
  rw [Real.arccos_eq_pi_div_two_sub_arcsin]
  constructor
  · norm_num at hpi1 ⊢
    linarith
  · norm_num at hpi2 ⊢
    linarith

/-- An `acosf` with the accuracy `NearArccos` at `q` in `[0, 3e-9]` returns the
binary32 value of `pi / 2` there. -/
theorem acosf_near_half_pi (acosf : F32 → F32) (q : ℚ) (h0 : 0 ≤ q)
    (h1 : q ≤ 3 / 1000000000) (h : NearArccos acosf q) :
    acosf (F32.fin q) = F32.fin (13176795 / 8388608) := by
  obtain ⟨n, hn, hnear⟩ := h
  have hq0 : (0 : ℝ) ≤ (q : ℝ) := by exact_mod_cast h0
  have hq1 : (q : ℝ) ≤ 3 / 1000000000 := by
    have h := (Rat.cast_le (K := ℝ)).2 h1
    push_cast at h
    exact h
  obtain ⟨hlo, hhi⟩ := arccos_near_half_pi (q : ℝ) hq0 hq1
  obtain ⟨hn1, hn2⟩ := abs_le.mp hnear
  have h8 : (0 : ℝ) < 8388608 := by norm_num
  have hA : (13176794 : ℝ) < (n : ℝ) := by
    have h9 : (13176794 : ℝ) / 8388608 < (n : ℝ) / 8388608 := by
      norm_num at hlo hn1 ⊢
      linarith
    exact (div_lt_div_iff_of_pos_right h8).1 h9
  have hB : (n : ℝ) < 13176796 := by
    have h9 : (n : ℝ) / 8388608 < (13176796 : ℝ) / 8388608 := by
      norm_num at hhi hn2 ⊢
      linarith
    exact (div_lt_div_iff_of_pos_right h8).1 h9
  have hA' : (13176794 : ℤ) < n := by exact_mod_cast hA
  have hB' : n < (13176796 : ℤ) := by exact_mod_cast hB
  have hN : n = 13176795 := by omega
  rw [hn, hN]
  norm_num

/-- A constant `acosf` equal to the binary32 value of `pi / 2` has the accuracy
`NearArccos` at every `q` of `[0, 3e-9]`. -/
theorem nearArccos_const (q : ℚ) (h0 : 0 ≤ q) (h1 : q ≤ 3 / 1000000000) :
    NearArccos (fun _ => F32.fin (13176795 / 8388608)) q := by
  have hq0 : (0 : ℝ) ≤ (q : ℝ) := by exact_mod_cast h0
  have hq1 : (q : ℝ) ≤ 3 / 1000000000 := by
    have h := (Rat.cast_le (K := ℝ)).2 h1
    push_cast at h
    exact h
  obtain ⟨hlo, hhi⟩ := arccos_near_half_pi (q : ℝ) hq0 hq1
  refine ⟨13176795, by norm_num, ?_⟩
  rw [abs_le]
  constructor
  · norm_num at hhi ⊢
    linarith
  · norm_num at hlo ⊢
    linarith

/-- C11, as stated, fails in binary32: for `a = c = (1,0,0)`, `b = (1e-9f, 1, 0)`
and `d = (2e-9f, 1, 0)`, all of length `1`, `v3_angle_quick` returns the
distinct cosines `1e-9f < 2e-9f`, while every `acosf` accurate to half a unit
in the last place (and there is one) returns the binary32 value of `pi / 2`
for both, so `v3_angle(a, b) <= v3_angle(c, d)` holds and
`v3_angle_quick(a, b) >= v3_angle_quick(c, d)` does not. -/
theorem angle_quick_order_proxy_counterexample :
    v3_length F32.sqrt 1 (threeVecs ((1 : F32), 0, 0) (F32.round (1 / 1000000000), 1, 0)
        (F32.round (2 / 1000000000), 1, 0)) = some 1 ∧
    v3_length F32.sqrt 4 (threeVecs ((1 : F32), 0, 0) (F32.round (1 / 1000000000), 1, 0)
        (F32.round (2 / 1000000000), 1, 0)) = some 1 ∧
    v3_length F32.sqrt 7 (threeVecs ((1 : F32), 0, 0) (F32.round (1 / 1000000000), 1, 0)
        (F32.round (2 / 1000000000), 1, 0)) = some 1 ∧
    ¬ ((1 : F32) < EPSILON) ∧
    (∃ acosf : F32 → F32, NearArccos acosf (9007199 / 9007199254740992)
      ∧ NearArccos acosf (9007199 / 4503599627370496)) ∧
    ∀ acosf : F32 → F32, NearArccos acosf (9007199 / 9007199254740992) →
      NearArccos acosf (9007199 / 4503599627370496) →
      ∃ r1 q1 r2 q2,
        v3_angle F32.sqrt acosf 1 4 (threeVecs ((1 : F32), 0, 0) (F32.round (1 / 1000000000), 1, 0)
        (F32.round (2 / 1000000000), 1, 0)) = some (r1, (threeVecs ((1 : F32), 0, 0) (F32.round (1 / 1000000000), 1, 0)
        (F32.round (2 / 1000000000), 1, 0)))
        ∧ v3_angle_quick F32.sqrt 1 4 (threeVecs ((1 : F32), 0, 0) (F32.round (1 / 1000000000), 1, 0)
        (F32.round (2 / 1000000000), 1, 0)) = some (q1, (threeVecs ((1 : F32), 0, 0) (F32.round (1 / 1000000000), 1, 0)
        (F32.round (2 / 1000000000), 1, 0)))
        ∧ v3_angle F32.sqrt acosf 1 7 (threeVecs ((1 : F32), 0, 0) (F32.round (1 / 1000000000), 1, 0)
        (F32.round (2 / 1000000000), 1, 0)) = some (r2, (threeVecs ((1 : F32), 0, 0) (F32.round (1 / 1000000000), 1, 0)
        (F32.round (2 / 1000000000), 1, 0)))
        ∧ v3_angle_quick F32.sqrt 1 7 (threeVecs ((1 : F32), 0, 0) (F32.round (1 / 1000000000), 1, 0)
        (F32.round (2 / 1000000000), 1, 0)) = some (q2, (threeVecs ((1 : F32), 0, 0) (F32.round (1 / 1000000000), 1, 0)
        (F32.round (2 / 1000000000), 1, 0)))
        ∧ r1 = F32.fin (13176795 / 8388608) ∧ r2 = F32.fin (13176795 / 8388608)
        ∧ q1 = F32.fin (9007199 / 9007199254740992)
        ∧ q2 = F32.fin (9007199 / 4503599627370496)
        ∧ ¬ (r1 ≤ r2 ↔ q1 ≥ q2) := by
  have hla : v3_length F32.sqrt 1 (threeVecs ((1 : F32), 0, 0) (F32.round (1 / 1000000000), 1, 0)
        (F32.round (2 / 1000000000), 1, 0)) = some 1 := by decide!
  have hlb : v3_length F32.sqrt 4 (threeVecs ((1 : F32), 0, 0) (F32.round (1 / 1000000000), 1, 0)
        (F32.round (2 / 1000000000), 1, 0)) = some 1 := by decide!
  have hld : v3_length F32.sqrt 7 (threeVecs ((1 : F32), 0, 0) (F32.round (1 / 1000000000), 1, 0)
        (F32.round (2 / 1000000000), 1, 0)) = some 1 := by decide!
  have hdotb : v3_dot_product 1 4 (threeVecs ((1 : F32), 0, 0) (F32.round (1 / 1000000000), 1, 0)
        (F32.round (2 / 1000000000), 1, 0)) = some (F32.fin (9007199 / 9007199254740992)) := by
    decide!
  have hdotd : v3_dot_product 1 7 (threeVecs ((1 : F32), 0, 0) (F32.round (1 / 1000000000), 1, 0)
        (F32.round (2 / 1000000000), 1, 0)) = some (F32.fin (9007199 / 4503599627370496)) := by
    decide!
  have hdeg : ¬ ((1 : F32) < EPSILON ∨ (1 : F32) < EPSILON) := by decide!
  have hcb : clamped (F32.fin (9007199 / 9007199254740992) / ((1 : F32) * 1))
      = F32.fin (9007199 / 9007199254740992) := by decide!
  have hcd : clamped (F32.fin (9007199 / 4503599627370496) / ((1 : F32) * 1))
      = F32.fin (9007199 / 4503599627370496) := by decide!
  refine ⟨hla, hlb, hld, by decide!,
    ⟨_, nearArccos_const _ (by norm_num) (by norm_num),
      nearArccos_const _ (by norm_num) (by norm_num)⟩, ?_⟩
  intro acosf h1 h2
  have e1 := acosf_near_half_pi acosf _ (by norm_num) (by norm_num) h1
  have e2 := acosf_near_half_pi acosf _ (by norm_num) (by norm_num) h2
  refine ⟨_, _, _, _,
    f32_angle_regular F32.sqrt acosf _ 1 4 _ _ _ (by decide) (by decide) hla hlb hdotb hdeg,
    f32_angle_quick_regular F32.sqrt _ 1 4 _ _ _ (by decide) (by decide) hla hlb hdotb hdeg,
    f32_angle_regular F32.sqrt acosf _ 1 7 _ _ _ (by decide) (by decide) hla hld hdotd hdeg,
    f32_angle_quick_regular F32.sqrt _ 1 7 _ _ _ (by decide) (by decide) hla hld hdotd hdeg,
    ?_, ?_, hcb, hcd, ?_⟩
  · rw [hcb, e1]
  · rw [hcd, e2]
  · rw [hcb, hcd, e1, e2]
    intro h
    have hl : F32.fin (13176795 / 8388608) ≤ F32.fin (13176795 / 8388608) := by decide!
    have hr : ¬ (F32.fin (9007199 / 9007199254740992)
        ≥ F32.fin (9007199 / 4503599627370496)) := by decide!
    exact hr (h.1 hl)

/-! ### Square roots, lengths and cosines

The function `F32.sqrt` returns the square root within a relative `2^-24`;
with it the computed length of a vector, the length of a normalised vector and
the cosine of two parallel vectors are bounded.
-/

/-- The bitwise square root: from `r^2 <= x < (r + 2^i)^2` it returns the
integer square root of `x`. -/
theorem isqrtAux_spec (x : Nat) : ∀ i r : Nat, r * r ≤ x → x < (r + 2 ^ i) * (r + 2 ^ i) →
    isqrtAux x i r * isqrtAux x i r ≤ x ∧ x < (isqrtAux x i r + 1) * (isqrtAux x i r + 1)
  | 0, r, h1, h2 => by
    simp only [isqrtAux]
    simpa using And.intro h1 h2
  | i + 1, r, h1, h2 => by
    simp only [isqrtAux]
    by_cases hc : (r + 2 ^ i) * (r + 2 ^ i) ≤ x
    · rw [if_pos hc]
      apply isqrtAux_spec x i (r + 2 ^ i) hc
      have : r + 2 ^ i + 2 ^ i = r + 2 ^ (i + 1) := by rw [pow_succ]; ring
      rw [this]
      exact h2
    · rw [if_neg hc]
      exact isqrtAux_spec x i r h1 (not_le.mp hc)

/-- The scaling of `F32.sqrt` takes a positive `q` into `[2^46, 2^48)`. -/
theorem sqrt_scale (q : ℚ) (hq : 0 < q) :
    (2 : ℚ) ^ 46 ≤ q / (2 : ℚ) ^ (2 * Int.fdiv (ilog2 q - 46) 2)
      ∧ q / (2 : ℚ) ^ (2 * Int.fdiv (ilog2 q - 46) 2) < (2 : ℚ) ^ 48 := by
  obtain ⟨l1, l2⟩ := ilog2_spec q hq
  rw [pow2_eq] at l1 l2
  generalize hk : Int.fdiv (ilog2 q - 46) 2 = k
  have hk1 : 2 * k ≤ ilog2 q - 46 := by
    rw [← hk, Int.fdiv_eq_ediv _ (by norm_num)]
    omega
  have hk2 : ilog2 q - 46 < 2 * k + 2 := by
    rw [← hk, Int.fdiv_eq_ediv _ (by norm_num)]
    omega
  have two_pos : ∀ j : ℤ, (0 : ℚ) < (2 : ℚ) ^ j := fun j => zpow_pos (by norm_num) j
  constructor
  · rw [le_div_iff₀ (two_pos _)]
    have : (2 : ℚ) ^ 46 * (2 : ℚ) ^ (2 * k) = (2 : ℚ) ^ (2 * k + 46) := by
      rw [zpow_add₀ (by norm_num : (2 : ℚ) ≠ 0), mul_comm]
      congr 1
      norm_cast
    rw [this]
    exact le_trans (zpow_le_zpow_right₀ (by norm_num) (by omega)) l1
  · rw [div_lt_iff₀ (two_pos _)]
    have : (2 : ℚ) ^ 48 * (2 : ℚ) ^ (2 * k) = (2 : ℚ) ^ (2 * k + 48) := by
      rw [zpow_add₀ (by norm_num : (2 : ℚ) ≠ 0), mul_comm]
      congr 1
      norm_cast
    rw [this]
    exact lt_of_lt_of_le l2 (zpow_le_zpow_right₀ (by norm_num) (by omega))

/-- The integer square root `m` of the integer part of `x` in `[2^46, 2^48)`
has 24 bits and `m^2 <= x < (m + 1)^2`. -/
theorem isqrt_rat (x : ℚ) (h46 : (2 : ℚ) ^ 46 ≤ x) (h48 : x < (2 : ℚ) ^ 48) :
    (2 : ℚ) ^ 23 ≤ (isqrtAux (Rat.floor x).toNat 24 0 : ℚ)
      ∧ (isqrtAux (Rat.floor x).toNat 24 0 : ℚ) * (isqrtAux (Rat.floor x).toNat 24 0 : ℚ) ≤ x
      ∧ x < ((isqrtAux (Rat.floor x).toNat 24 0 : ℚ) + 1)
          * ((isqrtAux (Rat.floor x).toNat 24 0 : ℚ) + 1) := by
  have hxpos : 0 < x := lt_of_lt_of_le (by norm_num) h46
  have hfl0 : 0 ≤ Rat.floor x := Rat.le_floor.mpr (by exact_mod_cast le_of_lt hxpos)
  generalize hX : (Rat.floor x).toNat = X
  have hXint : (X : ℤ) = Rat.floor x := by
    rw [← hX, Int.toNat_of_nonneg hfl0]
  have hXcast : ((X : ℕ) : ℚ) = ((Rat.floor x : ℤ) : ℚ) := by
    rw [← hXint]
    exact (Int.cast_natCast _).symm
  have hXle : (X : ℚ) ≤ x := by
    rw [hXcast]
    exact Rat.le_floor.mp (le_refl _)
  have hXlt : x < (X : ℚ) + 1 := by
    by_contra hc
    push_neg at hc
    rw [hXcast] at hc
    have : (Rat.floor x + 1 : ℤ) ≤ Rat.floor x := Rat.le_floor.mpr (by push_cast; exact hc)
    omega
  have hX48 : X < 281474976710656 := by
    have : (X : ℚ) < 281474976710656 := lt_of_le_of_lt hXle (by norm_num at h48 ⊢; exact h48)
    exact_mod_cast this
  have hX46 : 70368744177664 ≤ X := by
    have h1 : (70368744177664 : ℚ) < (X : ℚ) + 1 :=
      lt_of_le_of_lt (by norm_num at h46 ⊢; exact h46) hXlt
    have h2 : (70368744177664 : ℕ) < X + 1 := by exact_mod_cast h1
    omega
  obtain ⟨m1, m2⟩ := isqrtAux_spec X 24 0 (Nat.zero_le _) (by
    have : (0 + 2 ^ 24) * (0 + 2 ^ 24) = 281474976710656 := by norm_num
    rw [this]
    exact hX48)
  generalize isqrtAux X 24 0 = m at m1 m2 ⊢
  have hm23 : 8388608 ≤ m := by
    by_contra hc
    push_neg at hc
    have h1 : m + 1 ≤ 8388608 := hc
    have : (m + 1) * (m + 1) ≤ 8388608 * 8388608 := Nat.mul_le_mul h1 h1
    have h46 : (8388608 : ℕ) * 8388608 = 70368744177664 := by norm_num
    omega
  refine ⟨?_, ?_, ?_⟩
  · have : ((8388608 : ℕ) : ℚ) ≤ (m : ℚ) := by exact_mod_cast hm23
    norm_num at this ⊢
    exact this
  · have : ((m * m : ℕ) : ℚ) ≤ (X : ℚ) := by exact_mod_cast m1
    push_cast at this
    linarith
  · have h1 : X + 1 ≤ (m + 1) * (m + 1) := m2
    have : ((X + 1 : ℕ) : ℚ) ≤ (((m + 1) * (m + 1) : ℕ) : ℚ) := by exact_mod_cast h1
    push_cast at this
    linarith

/-- The integer `m >= 2^23`, when `x <= (m + 1/2)^2` and `m^2 <= x`, is within a
relative `2^-24` of the square root of `x`. -/
theorem root_down (m x : ℚ) (hm : (2 : ℚ) ^ 23 ≤ m) (h1 : m * m ≤ x)
    (h2 : x ≤ (m + 1 / 2) * (m + 1 / 2)) :
    (1 - 1 / 2 ^ 24) ^ 2 * (m * m) ≤ x ∧ x ≤ (1 + 1 / 2 ^ 24) ^ 2 * (m * m) := by
  have hm0 : 0 ≤ m := le_trans (by norm_num) hm
  constructor
  · have hc : (1 - 1 / 2 ^ 24 : ℚ) ^ 2 ≤ 1 := by norm_num
    calc (1 - 1 / 2 ^ 24 : ℚ) ^ 2 * (m * m) ≤ 1 * (m * m) :=
          mul_le_mul_of_nonneg_right hc (mul_self_nonneg m)
      _ = m * m := one_mul _
      _ ≤ x := h1
  · have h3 : (1 : ℚ) / 2 ≤ 1 / 2 ^ 24 * m := by
      calc (1 : ℚ) / 2 = 1 / 2 ^ 24 * 2 ^ 23 := by norm_num
        _ ≤ 1 / 2 ^ 24 * m := mul_le_mul_of_nonneg_left hm (by norm_num)
    have h4 : m + 1 / 2 ≤ (1 + 1 / 2 ^ 24) * m := by linarith
    calc x ≤ (m + 1 / 2) * (m + 1 / 2) := h2
      _ ≤ (1 + 1 / 2 ^ 24) * m * ((1 + 1 / 2 ^ 24) * m) :=
          mul_le_mul h4 h4 (by linarith) (le_trans (by linarith) h4)
      _ = (1 + 1 / 2 ^ 24) ^ 2 * (m * m) := by ring

/-- The integer `m + 1`, for `m >= 2^23`, when `(m + 1/2)^2 <= x < (m + 1)^2`,
is within a relative `2^-24` of the square root of `x`. -/
theorem root_up (m x : ℚ) (hm : (2 : ℚ) ^ 23 ≤ m) (h1 : (m + 1 / 2) * (m + 1 / 2) ≤ x)
    (h2 : x < (m + 1) * (m + 1)) :
    (1 - 1 / 2 ^ 24) ^ 2 * ((m + 1) * (m + 1)) ≤ x
      ∧ x ≤ (1 + 1 / 2 ^ 24) ^ 2 * ((m + 1) * (m + 1)) := by
  have hm0 : 0 ≤ m := le_trans (by norm_num) hm
  constructor
  · have h3 : (1 : ℚ) / 2 ≤ 1 / 2 ^ 24 * (m + 1) := by
      calc (1 : ℚ) / 2 = 1 / 2 ^ 24 * 2 ^ 23 := by norm_num
        _ ≤ 1 / 2 ^ 24 * (m + 1) := mul_le_mul_of_nonneg_left (by linarith) (by norm_num)
    have h4 : (1 - 1 / 2 ^ 24) * (m + 1) ≤ m + 1 / 2 := by linarith
    have h0 : 0 ≤ (1 - 1 / 2 ^ 24) * (m + 1) := mul_nonneg (by norm_num) (by linarith)
    calc (1 - 1 / 2 ^ 24 : ℚ) ^ 2 * ((m + 1) * (m + 1))
        = (1 - 1 / 2 ^ 24) * (m + 1) * ((1 - 1 / 2 ^ 24) * (m + 1)) := by ring
      _ ≤ (m + 1 / 2) * (m + 1 / 2) := mul_le_mul h4 h4 h0 (by linarith)
      _ ≤ x := h1
  · have hc : (1 : ℚ) ≤ (1 + 1 / 2 ^ 24) ^ 2 := by norm_num
    calc x ≤ (m + 1) * (m + 1) := le_of_lt h2
      _ = 1 * ((m + 1) * (m + 1)) := (one_mul _).symm
      _ ≤ (1 + 1 / 2 ^ 24) ^ 2 * ((m + 1) * (m + 1)) :=
          mul_le_mul_of_nonneg_right hc (mul_self_nonneg _)

/-- Undoing the scaling of `F32.sqrt`: bounds on `x = q / 2^(2k)` by the square
of `r` are bounds on `q` by the square of `r * 2^k`. -/
theorem root_scale (q r c : ℚ) (k : ℤ) (hr : 0 < r) :
    0 < r * pow2 k
      ∧ (c * (r * r) ≤ q / (2 : ℚ) ^ (2 * k) → c * (r * pow2 k * (r * pow2 k)) ≤ q)
      ∧ (q / (2 : ℚ) ^ (2 * k) ≤ c * (r * r) → q ≤ c * (r * pow2 k * (r * pow2 k))) := by
  rw [pow2_eq]
  have hk : 0 < (2 : ℚ) ^ k := zpow_pos (by norm_num) k
  have hsq : (2 : ℚ) ^ (2 * k) = (2 : ℚ) ^ k * (2 : ℚ) ^ k := by
    rw [← zpow_add₀ (by norm_num : (2 : ℚ) ≠ 0)]
    congr 1
    ring
  have hkk : 0 < (2 : ℚ) ^ k * (2 : ℚ) ^ k := mul_pos hk hk
  rw [hsq]
  refine ⟨mul_pos hr hk, fun h => ?_, fun h => ?_⟩
  · rw [le_div_iff₀ hkk] at h
    calc c * (r * (2 : ℚ) ^ k * (r * (2 : ℚ) ^ k)) = c * (r * r) * ((2 : ℚ) ^ k * (2 : ℚ) ^ k) := by
          ring
      _ ≤ q := h
  · rw [div_le_iff₀ hkk] at h
    calc q ≤ c * (r * r) * ((2 : ℚ) ^ k * (2 : ℚ) ^ k) := h
      _ = c * (r * (2 : ℚ) ^ k * (r * (2 : ℚ) ^ k)) := by ring

/-- The function `F32.sqrt` on a positive rational: the result `R` is positive
and within a relative `2^-24` of the square root, stated on the squares. -/
theorem f32_sqrt_pos (q : ℚ) (hq : 0 < q) :
    ∃ R : ℚ, F32.sqrt (F32.fin q) = F32.fin R ∧ 0 < R
      ∧ (1 - 1 / 2 ^ 24) ^ 2 * (R * R) ≤ q ∧ q ≤ (1 + 1 / 2 ^ 24) ^ 2 * (R * R) := by
  obtain ⟨s46, s48⟩ := sqrt_scale q hq
  obtain ⟨m23, m1, m2⟩ := isqrt_rat _ s46 s48
  have hunf : F32.sqrt (F32.fin q) = F32.fin
      (((if q / pow2 (2 * Int.fdiv (ilog2 q - 46) 2)
            < ((isqrtAux (Rat.floor (q / pow2 (2 * Int.fdiv (ilog2 q - 46) 2))).toNat 24 0 : ℚ)
                + 1 / 2)
              * ((isqrtAux (Rat.floor (q / pow2 (2 * Int.fdiv (ilog2 q - 46) 2))).toNat 24 0 : ℚ)
                + 1 / 2)
          then isqrtAux (Rat.floor (q / pow2 (2 * Int.fdiv (ilog2 q - 46) 2))).toNat 24 0
          else if ((isqrtAux (Rat.floor (q / pow2 (2 * Int.fdiv (ilog2 q - 46) 2))).toNat 24 0 : ℚ)
                + 1 / 2)
              * ((isqrtAux (Rat.floor (q / pow2 (2 * Int.fdiv (ilog2 q - 46) 2))).toNat 24 0 : ℚ)
                + 1 / 2) < q / pow2 (2 * Int.fdiv (ilog2 q - 46) 2)
          then isqrtAux (Rat.floor (q / pow2 (2 * Int.fdiv (ilog2 q - 46) 2))).toNat 24 0 + 1
          else if isqrtAux (Rat.floor (q / pow2 (2 * Int.fdiv (ilog2 q - 46) 2))).toNat 24 0 % 2 = 0
          then isqrtAux (Rat.floor (q / pow2 (2 * Int.fdiv (ilog2 q - 46) 2))).toNat 24 0
          else isqrtAux (Rat.floor (q / pow2 (2 * Int.fdiv (ilog2 q - 46) 2))).toNat 24 0 + 1 : ℕ)
        : ℚ) * pow2 (Int.fdiv (ilog2 q - 46) 2)) := by
    simp only [F32.sqrt]
    rw [if_neg (not_lt.mpr (le_of_lt hq)), if_neg (ne_of_gt hq)]
  rw [hunf]
  simp only [pow2_eq (2 * Int.fdiv (ilog2 q - 46) 2)]
  generalize Int.fdiv (ilog2 q - 46) 2 = k at *
  generalize hx : q / (2 : ℚ) ^ (2 * k) = x at *
  generalize isqrtAux (Rat.floor x).toNat 24 0 = m at *
  have hm0 : (0 : ℚ) < (m : ℚ) := lt_of_lt_of_le (by norm_num) m23
  have down : ∀ h : x ≤ ((m : ℚ) + 1 / 2) * ((m : ℚ) + 1 / 2),
      ∃ R : ℚ, F32.fin (((m : ℕ) : ℚ) * pow2 k) = F32.fin R ∧ 0 < R
        ∧ (1 - 1 / 2 ^ 24) ^ 2 * (R * R) ≤ q ∧ q ≤ (1 + 1 / 2 ^ 24) ^ 2 * (R * R) := by
    intro h
    obtain ⟨d1, d2⟩ := root_down m x m23 m1 h
    obtain ⟨p, f, g⟩ := root_scale q m ((1 - 1 / 2 ^ 24) ^ 2) k hm0
    obtain ⟨-, -, g2⟩ := root_scale q m ((1 + 1 / 2 ^ 24) ^ 2) k hm0
    rw [hx] at f g2
    exact ⟨_, rfl, p, f d1, g2 d2⟩
  have up : ∀ h : ((m : ℚ) + 1 / 2) * ((m : ℚ) + 1 / 2) ≤ x,
      ∃ R : ℚ, F32.fin (((m + 1 : ℕ) : ℚ) * pow2 k) = F32.fin R ∧ 0 < R
        ∧ (1 - 1 / 2 ^ 24) ^ 2 * (R * R) ≤ q ∧ q ≤ (1 + 1 / 2 ^ 24) ^ 2 * (R * R) := by
    intro h
    obtain ⟨d1, d2⟩ := root_up m x m23 h m2
    have hm1 : (0 : ℚ) < (m : ℚ) + 1 := by linarith
    obtain ⟨p, f, g⟩ := root_scale q ((m : ℚ) + 1) ((1 - 1 / 2 ^ 24) ^ 2) k hm1
    obtain ⟨-, -, g2⟩ := root_scale q ((m : ℚ) + 1) ((1 + 1 / 2 ^ 24) ^ 2) k hm1
    rw [hx] at f g2
    refine ⟨((m : ℚ) + 1) * pow2 k, by push_cast; rfl, p, f d1, g2 d2⟩
  by_cases c1 : x < ((m : ℚ) + 1 / 2) * ((m : ℚ) + 1 / 2)
  · rw [if_pos c1]
    exact down (le_of_lt c1)
  · rw [if_neg c1]
    by_cases c2 : ((m : ℚ) + 1 / 2) * ((m : ℚ) + 1 / 2) < x
    · rw [if_pos c2]
      exact up (le_of_lt c2)
    · rw [if_neg c2]
      by_cases c3 : m % 2 = 0
      · rw [if_pos c3]
        exact down (not_lt.mp c2)
      · rw [if_neg c3]
        exact up (not_lt.mp c1)

/-- A finite result of rounding is below `2^128` in magnitude. -/
theorem f32_round_fin_lt (q r : ℚ) (h : F32.round q = F32.fin r) : |r| < 2 ^ 128 := by
  obtain ⟨R, hR0, -, -, hround⟩ := f32_round_cases q
  rw [hround] at h
  by_cases hov : (2 : ℚ) ^ 128 ≤ R
  · rw [if_pos hov] at h
    exact absurd h (by simp)
  · rw [if_neg hov] at h
    have hr : (if q < 0 then -R else R) = r := F32.fin.inj h
    push_neg at hov
    by_cases hneg : q < 0
    · rw [if_pos hneg] at hr
      rw [← hr, abs_neg, abs_of_nonneg hR0]
      exact hov
    · rw [if_neg hneg] at hr
      rw [← hr, abs_of_nonneg hR0]
      exact hov

/-- A positive finite result of `F32.sqrt` comes from a positive finite
argument, of which it is the square root within a relative `2^-24`. -/
theorem f32_sqrt_fin_inv (x : F32) (L : ℚ) (h : F32.sqrt x = F32.fin L) (hL : 0 < L) :
    ∃ q : ℚ, x = F32.fin q ∧ 0 < q
      ∧ (1 - 1 / 2 ^ 24) ^ 2 * (L * L) ≤ q ∧ q ≤ (1 + 1 / 2 ^ 24) ^ 2 * (L * L) := by
  cases x with
  | nan => simp [F32.sqrt] at h
  | inf s =>
    simp only [F32.sqrt] at h
    split_ifs at h
  | fin q =>
    rcases lt_trichotomy q 0 with hq | hq | hq
    · simp [F32.sqrt, hq] at h
    · subst hq
      simp [F32.sqrt] at h
      exact absurd h.symm (ne_of_gt hL)
    · obtain ⟨R, hR, -, b1, b2⟩ := f32_sqrt_pos q hq
      rw [hR] at h
      have : R = L := F32.fin.inj h
      subst this
      exact ⟨q, rfl, hq, b1, b2⟩

/-- The sum of squares of `v3_length` in binary32, when it is finite and at
least `9e-13`, is within a relative `2e-7` of the exact sum of squares. -/
theorem f32_sumsq_fin (x0 x1 x2 S : ℚ)
    (h : F32.fin x0 * F32.fin x0 + F32.fin x1 * F32.fin x1 + F32.fin x2 * F32.fin x2
      = F32.fin S)
    (hS : 9 / 10 ^ 13 ≤ S) :
    (1 - 2 / 10 ^ 7) * S ≤ x0 * x0 + x1 * x1 + x2 * x2
      ∧ x0 * x0 + x1 * x1 + x2 * x2 ≤ (1 + 2 / 10 ^ 7) * S := by
  obtain ⟨s1, p2, hs1, hp2, hr2⟩ := f32_add_fin_inv _ _ S h
  obtain ⟨p0, p1, hp0, hp1, hr1⟩ := f32_add_fin_inv _ _ s1 hs1
  rw [f32_mul_fin] at hp0 hp1 hp2
  obtain ⟨b0, c0, -⟩ := f32_round_fin _ _ hp0
  obtain ⟨b1, c1, -⟩ := f32_round_fin _ _ hp1
  obtain ⟨b2, c2, -⟩ := f32_round_fin _ _ hp2
  obtain ⟨b3, c3, -⟩ := f32_round_fin _ _ hr1
  obtain ⟨b4, -, -⟩ := f32_round_fin _ _ hr2
  have N0 : 0 ≤ x0 * x0 := mul_self_nonneg x0
  have N1 : 0 ≤ x1 * x1 := mul_self_nonneg x1
  have N2 : 0 ≤ x2 * x2 := mul_self_nonneg x2
  have P0 := c0 N0
  have P1 := c1 N1
  have P2 := c2 N2
  have S1 := c3 (by linarith)
  rw [abs_of_nonneg N0] at b0
  rw [abs_of_nonneg N1] at b1
  rw [abs_of_nonneg N2] at b2
  rw [abs_of_nonneg (by linarith : 0 ≤ p0 + p1)] at b3
  rw [abs_of_nonneg (by linarith : 0 ≤ s1 + p2)] at b4
  rw [abs_le] at b0 b1 b2 b3 b4
  generalize x0 * x0 = n0 at *
  generalize x1 * x1 = n1 at *
  generalize x2 * x2 = n2 at *
  norm_num at b0 b1 b2 b3 b4 hS ⊢
  constructor <;> linarith

/-- The sum of squares of `v3_length` in binary32, for components of magnitude
at most `1.1`: finite and within `8.75e-7` of the exact sum of squares. -/
theorem f32_sumsq_abs (w0 w1 w2 : ℚ) (h0 : |w0| ≤ 11 / 10) (h1 : |w1| ≤ 11 / 10)
    (h2 : |w2| ≤ 11 / 10) :
    ∃ S : ℚ, F32.fin w0 * F32.fin w0 + F32.fin w1 * F32.fin w1 + F32.fin w2 * F32.fin w2
        = F32.fin S
      ∧ |S - (w0 * w0 + w1 * w1 + w2 * w2)| ≤ 14 / 16000000 := by
  have q0 := abs_mul_le_mul h0 h0
  have q1 := abs_mul_le_mul h1 h1
  have q2 := abs_mul_le_mul h2 h2
  obtain ⟨m0, e0, b0⟩ := f32_mul_abs w0 w0 2 (by norm_num) (by linarith) (by norm_num)
  obtain ⟨m1, e1, b1⟩ := f32_mul_abs w1 w1 2 (by norm_num) (by linarith) (by norm_num)
  obtain ⟨m2, e2, b2⟩ := f32_mul_abs w2 w2 2 (by norm_num) (by linarith) (by norm_num)
  rw [abs_le] at q0 q1 q2 b0 b1 b2
  have ha1 : |m0 + m1| ≤ 4 := by
    rw [abs_le]; constructor <;> linarith
  obtain ⟨a1, ea1, ba1⟩ := f32_add_abs m0 m1 4 (by norm_num) ha1 (by norm_num)
  rw [abs_le] at ba1
  have ha2 : |a1 + m2| ≤ 4 := by
    rw [abs_le]; constructor <;> linarith
  obtain ⟨a2, ea2, ba2⟩ := f32_add_abs a1 m2 4 (by norm_num) ha2 (by norm_num)
  rw [abs_le] at ba2
  refine ⟨a2, by rw [e0, e1, e2, ea1, ea2], ?_⟩
  rw [abs_le]
  constructor <;> linarith

/-- The reciprocal `1.0f / len` in binary32, for `1e-7 <= len < 2^65`: finite,
positive, and within a relative `6.25e-8` of the exact reciprocal. -/
theorem f32_inv (L : ℚ) (hL : 1 / 10 ^ 7 ≤ L) (hL2 : L ≤ 2 ^ 65) :
    ∃ v : ℚ, (1 : F32) / F32.fin L = F32.fin v ∧ 0 ≤ v
      ∧ 1 - 1 / 16000000 ≤ v * L ∧ v * L ≤ 1 + 1 / 16000000 := by
  have hL0 : 0 < L := lt_of_lt_of_le (by norm_num) hL
  have hdiv : (1 : F32) / F32.fin L = F32.round (1 / L) := by
    show F32.div (F32.fin 1) (F32.fin L) = _
    simp [F32.div, ne_of_gt hL0]
  have ht0 : 0 < 1 / L := by positivity
  have ht : 1 / L ≤ 10 ^ 7 := by
    rw [div_le_iff₀ hL0]
    calc (1 : ℚ) = 10 ^ 7 * (1 / 10 ^ 7) := by norm_num
      _ ≤ 10 ^ 7 * L := mul_le_mul_of_nonneg_left hL (by norm_num)
  obtain ⟨v, hv, bv, sv, -⟩ := f32_round_spec (1 / L) (by
    rw [abs_of_pos ht0]
    exact le_trans ht (by norm_num))
  refine ⟨v, by rw [hdiv, hv], sv (le_of_lt ht0), ?_⟩
  rw [abs_of_pos ht0, abs_le] at bv
  have hmul : 1 / L * L = 1 := by field_simp
  have hη : 1 / 2 ^ 150 * L ≤ 1 / 2 ^ 85 := by
    calc (1 : ℚ) / 2 ^ 150 * L ≤ 1 / 2 ^ 150 * 2 ^ 65 :=
          mul_le_mul_of_nonneg_left hL2 (by norm_num)
      _ = 1 / 2 ^ 85 := by norm_num
  have e1 : (v - 1 / L) * L = v * L - 1 := by rw [sub_mul, hmul]
  have e2 : (1 / L / 2 ^ 24 + 1 / 2 ^ 150) * L = 1 / 2 ^ 24 + 1 / 2 ^ 150 * L := by
    rw [add_mul, div_mul_eq_mul_div, hmul]
  have u1 := mul_le_mul_of_nonneg_right bv.2 (le_of_lt hL0)
  have u2 := mul_le_mul_of_nonneg_right bv.1 (le_of_lt hL0)
  rw [e1, e2] at u1
  rw [neg_mul, e1, e2] at u2
  norm_num at u1 u2 hη ⊢
  constructor <;> linarith

/-- A rational whose square is at most `1 + 1e-6` has magnitude at most `1.001`. -/
theorem abs_le_of_sq_near_one (x : ℚ) (hx : x * x ≤ 1 + 1 / 10 ^ 6) : |x| ≤ 1001 / 1000 := by
  apply abs_le_of_sq_le_sq _ (by norm_num)
  have : (1001 / 1000 : ℚ) ^ 2 = 1002001 / 1000000 := by norm_num
  rw [this, pow_two]
  have : (1 : ℚ) + 1 / 10 ^ 6 ≤ 1002001 / 1000000 := by norm_num
  linarith

/-- The length of a normalised vector in binary32, with the correctly rounded
`F32.sqrt` for `sqrtf`: when the computed length `L` of `(x0, x1, x2)` is
finite and at least `EPSILON`, the reciprocal, the three products and the
length of their triple are finite, and that length is within `1e-5` of `1`. -/
theorem f32_normalize_length (x0 x1 x2 L : ℚ)
    (hlen : F32.sqrt (F32.fin x0 * F32.fin x0 + F32.fin x1 * F32.fin x1
      + F32.fin x2 * F32.fin x2) = F32.fin L)
    (hL : 8796093 / 8796093022208 ≤ L) :
    ∃ v w0 w1 w2 L' : ℚ, (1 : F32) / F32.fin L = F32.fin v
      ∧ F32.fin x0 * F32.fin v = F32.fin w0 ∧ F32.fin x1 * F32.fin v = F32.fin w1
      ∧ F32.fin x2 * F32.fin v = F32.fin w2
      ∧ F32.sqrt (F32.fin w0 * F32.fin w0 + F32.fin w1 * F32.fin w1
          + F32.fin w2 * F32.fin w2) = F32.fin L'
      ∧ |L' - 1| ≤ 1 / 100000 := by
  have hL0 : 0 < L := lt_of_lt_of_le (by norm_num) hL
  obtain ⟨S, hS, hS0, cl, cu⟩ := f32_sqrt_fin_inv _ L hlen hL0
  have hLL : (8796093 / 8796093022208 : ℚ) * (8796093 / 8796093022208) ≤ L * L :=
    mul_le_mul hL hL (by norm_num) (le_of_lt hL0)
  have hS9 : 9 / 10 ^ 13 ≤ S := by
    have h1 : (1 - 1 / 2 ^ 24 : ℚ) ^ 2 * ((8796093 / 8796093022208) * (8796093 / 8796093022208))
        ≤ (1 - 1 / 2 ^ 24) ^ 2 * (L * L) := mul_le_mul_of_nonneg_left hLL (by norm_num)
    have h2 : (9 : ℚ) / 10 ^ 13
        ≤ (1 - 1 / 2 ^ 24) ^ 2 * ((8796093 / 8796093022208) * (8796093 / 8796093022208)) := by
      norm_num
    linarith
  have hS128 : S < 2 ^ 128 := by
    obtain ⟨s1, p2, -, -, hr2⟩ := f32_add_fin_inv _ _ S hS
    have := f32_round_fin_lt _ _ hr2
    rw [abs_of_pos hS0] at this
    exact this
  have hL65 : L ≤ 2 ^ 65 := by
    by_contra hc
    push_neg at hc
    have h1 : (2 : ℚ) ^ 65 * 2 ^ 65 < L * L :=
      mul_lt_mul'' hc hc (by norm_num) (by norm_num)
    have h2 : (1 - 1 / 2 ^ 24 : ℚ) ^ 2 * ((2 : ℚ) ^ 65 * 2 ^ 65)
        ≤ (1 - 1 / 2 ^ 24) ^ 2 * (L * L) :=
      mul_le_mul_of_nonneg_left (le_of_lt h1) (by norm_num)
    have h3 : (2 : ℚ) ^ 128 ≤ (1 - 1 / 2 ^ 24) ^ 2 * ((2 : ℚ) ^ 65 * 2 ^ 65) := by norm_num
    linarith
  obtain ⟨hNl, hNu⟩ := f32_sumsq_fin x0 x1 x2 S hS hS9
  obtain ⟨v, hv, v0, g1, g2⟩ := f32_inv L (le_trans (by norm_num) hL) hL65
  have hg0 : 0 ≤ v * L := le_trans (by norm_num) g1
  have hggu : v * L * (v * L) ≤ (1 + 1 / 16000000) * (1 + 1 / 16000000) :=
    mul_le_mul g2 g2 hg0 (by norm_num)
  have hggl : (1 - 1 / 16000000) * (1 - 1 / 16000000) ≤ v * L * (v * L) :=
    mul_le_mul g1 g1 (by norm_num) hg0
  have hK0 : 0 ≤ v * v := mul_self_nonneg v
  have N0 : 0 ≤ x0 * x0 := mul_self_nonneg x0
  have N1 : 0 ≤ x1 * x1 := mul_self_nonneg x1
  have N2 : 0 ≤ x2 * x2 := mul_self_nonneg x2
  -- the exact squared length of the scaled vector
  have hNKu : (x0 * x0 + x1 * x1 + x2 * x2) * (v * v) ≤ 1 + 5 / 10 ^ 7 := by
    have h1 : x0 * x0 + x1 * x1 + x2 * x2
        ≤ (1 + 2 / 10 ^ 7) * ((1 + 1 / 2 ^ 24) ^ 2 * (L * L)) :=
      le_trans hNu (mul_le_mul_of_nonneg_left cu (by norm_num))
    calc (x0 * x0 + x1 * x1 + x2 * x2) * (v * v)
        ≤ (1 + 2 / 10 ^ 7) * ((1 + 1 / 2 ^ 24) ^ 2 * (L * L)) * (v * v) :=
          mul_le_mul_of_nonneg_right h1 hK0
      _ = (1 + 2 / 10 ^ 7) * (1 + 1 / 2 ^ 24) ^ 2 * (v * L * (v * L)) := by ring
      _ ≤ (1 + 2 / 10 ^ 7) * (1 + 1 / 2 ^ 24) ^ 2
            * ((1 + 1 / 16000000) * (1 + 1 / 16000000)) :=
          mul_le_mul_of_nonneg_left hggu (by norm_num)
      _ ≤ 1 + 5 / 10 ^ 7 := by norm_num
  have hNKl : 1 - 5 / 10 ^ 7 ≤ (x0 * x0 + x1 * x1 + x2 * x2) * (v * v) := by
    have h1 : (1 - 2 / 10 ^ 7) * ((1 - 1 / 2 ^ 24) ^ 2 * (L * L))
        ≤ x0 * x0 + x1 * x1 + x2 * x2 :=
      le_trans (mul_le_mul_of_nonneg_left cl (by norm_num)) hNl
    calc (1 : ℚ) - 5 / 10 ^ 7
        ≤ (1 - 2 / 10 ^ 7) * (1 - 1 / 2 ^ 24) ^ 2
            * ((1 - 1 / 16000000) * (1 - 1 / 16000000)) := by norm_num
      _ ≤ (1 - 2 / 10 ^ 7) * (1 - 1 / 2 ^ 24) ^ 2 * (v * L * (v * L)) :=
          mul_le_mul_of_nonneg_left hggl (by norm_num)
      _ = (1 - 2 / 10 ^ 7) * ((1 - 1 / 2 ^ 24) ^ 2 * (L * L)) * (v * v) := by ring
      _ ≤ (x0 * x0 + x1 * x1 + x2 * x2) * (v * v) := mul_le_mul_of_nonneg_right h1 hK0
  have K0 := mul_nonneg N0 hK0
  have K1 := mul_nonneg N1 hK0
  have K2 := mul_nonneg N2 hK0
  have hy : ∀ x : ℚ, x * x * (v * v) ≤ (x0 * x0 + x1 * x1 + x2 * x2) * (v * v) →
      ∃ w : ℚ, F32.fin x * F32.fin v = F32.fin w ∧ |w| ≤ 11 / 10
        ∧ |w * w - x * x * (v * v)| ≤ 5 / 16000000 := by
    intro x hx
    have h1 : |x * v| ≤ 1001 / 1000 := by
      apply abs_le_of_sq_near_one
      have : x * v * (x * v) = x * x * (v * v) := by ring
      rw [this]
      have : (1 : ℚ) + 5 / 10 ^ 7 ≤ 1 + 1 / 10 ^ 6 := by norm_num
      linarith
    obtain ⟨w, ew, bw⟩ := f32_mul_abs x v 2 (by norm_num) (le_trans h1 (by norm_num))
      (by norm_num)
    have hw : |w| ≤ 11 / 10 := by
      rw [abs_le] at h1 bw ⊢
      constructor <;> linarith
    have hsum : |w + x * v| ≤ 22 / 10 := by
      rw [abs_le] at h1 hw ⊢
      constructor <;> linarith
    have hprod := abs_mul_le_mul bw hsum
    have e : (w - x * v) * (w + x * v) = w * w - x * x * (v * v) := by ring
    rw [e] at hprod
    exact ⟨w, ew, hw, le_trans hprod (by norm_num)⟩
  obtain ⟨w0, ew0, m0, d0⟩ := hy x0 (by linarith)
  obtain ⟨w1, ew1, m1, d1⟩ := hy x1 (by linarith)
  obtain ⟨w2, ew2, m2, d2⟩ := hy x2 (by linarith)
  obtain ⟨T, hT, bT⟩ := f32_sumsq_abs w0 w1 w2 m0 m1 m2
  have hTb : 1 - 3 / 10 ^ 6 ≤ T ∧ T ≤ 1 + 3 / 10 ^ 6 := by
    rw [abs_le] at d0 d1 d2 bT
    have e : (x0 * x0 + x1 * x1 + x2 * x2) * (v * v)
        = x0 * x0 * (v * v) + x1 * x1 * (v * v) + x2 * x2 * (v * v) := by ring
    rw [e] at hNKu hNKl
    norm_num at d0 d1 d2 bT hNKu hNKl ⊢
    constructor <;> linarith
  have hT0 : 0 < T := lt_of_lt_of_le (by norm_num) hTb.1
  obtain ⟨L', hL', hL'0, r1, r2⟩ := f32_sqrt_pos T hT0
  refine ⟨v, w0, w1, w2, L', hv, ew0, ew1, ew2, by rw [hT, hL'], ?_⟩
  rw [abs_le]
  constructor
  · by_contra hc
    push_neg at hc
    have h1 : L' * L' ≤ (1 - 1 / 100000) * (1 - 1 / 100000) :=
      mul_le_mul (by linarith) (by linarith) (le_of_lt hL'0) (by norm_num)
    have h2 : (1 + 1 / 2 ^ 24 : ℚ) ^ 2 * (L' * L')
        ≤ (1 + 1 / 2 ^ 24) ^ 2 * ((1 - 1 / 100000) * (1 - 1 / 100000)) :=
      mul_le_mul_of_nonneg_left h1 (by norm_num)
    have h3 : (1 + 1 / 2 ^ 24 : ℚ) ^ 2 * ((1 - 1 / 100000) * (1 - 1 / 100000))
        < 1 - 3 / 10 ^ 6 := by norm_num
    linarith [hTb.1]
  · by_contra hc
    push_neg at hc
    have hc' : 1 + 1 / 100000 ≤ L' := by linarith
    have h1 : (1 + 1 / 100000) * (1 + 1 / 100000) ≤ L' * L' :=
      mul_le_mul hc' hc' (by norm_num) (le_of_lt hL'0)
    have h2 : (1 - 1 / 2 ^ 24 : ℚ) ^ 2 * ((1 + 1 / 100000) * (1 + 1 / 100000))
        ≤ (1 - 1 / 2 ^ 24) ^ 2 * (L' * L') :=
      mul_le_mul_of_nonneg_left h1 (by norm_num)
    have h3 : (1 : ℚ) + 3 / 10 ^ 6
        < (1 - 1 / 2 ^ 24) ^ 2 * ((1 + 1 / 100000) * (1 + 1 / 100000)) := by norm_num
    linarith [hTb.2]

/-- C5, amended (a normalised vector has unit length up to rounding). In
binary32, with the correctly rounded `F32.sqrt` for `sqrtf`: for every finite
`v` whose computed length `v3_length(v)` is finite and at least `EPSILON`,
`v3_normalize(v)` returns and leaves `errno` and `stderr` alone, and the
computed length of what it writes is finite and within `1e-5` of `1`. -/
theorem normalize_unit_length_binary32 (s : State F32) (dst a : Nat) (x0 x1 x2 L : ℚ)
    (hd : dst ≠ 0) (ha : a ≠ 0)
    (hx : s.vec a = (F32.fin x0, F32.fin x1, F32.fin x2))
    (hlen : v3_length F32.sqrt a s = some (F32.fin L))
    (hL : (EPSILON : F32) ≤ F32.fin L) :
    ∃ t L', v3_normalize F32.sqrt dst a s = some t
      ∧ t.errno = s.errno ∧ t.stderr = s.stderr
      ∧ v3_length F32.sqrt dst t = some (F32.fin L') ∧ |L' - 1| ≤ 1 / 100000 := by
  obtain ⟨a0, a1, a2⟩ := (vec_eq_iff s a _ _ _).1 hx
  have hL' : (8796093 / 8796093022208 : ℚ) ≤ L := by
    rw [EPSILON_binary32] at hL
    have : F32.ble (F32.fin (8796093 / 8796093022208)) (F32.fin L) = true := hL
    simpa [F32.ble] using this
  have hsq : F32.sqrt (F32.fin x0 * F32.fin x0 + F32.fin x1 * F32.fin x1
      + F32.fin x2 * F32.fin x2) = F32.fin L := by
    have := hlen
    simp only [v3_length, a0, a1, a2, if_pos ha] at this
    exact Option.some.inj this
  obtain ⟨v, w0, w1, w2, L', hv, e0, e1, e2, hl, hb⟩ := f32_normalize_length x0 x1 x2 L hsq hL'
  have hcall : v3_normalize F32.sqrt dst a s
      = some (((s.store (dst + 0) (F32.fin w0)).store (dst + 1) (F32.fin w1)).store
          (dst + 2) (F32.fin w2)) := by
    simp only [v3_normalize, hlen, Option.some_bind, if_pos (⟨hd, ha⟩ : dst ≠ 0 ∧ a ≠ 0),
      if_neg (f32_not_lt_of_le _ hL), a0, a1, a2, hv, e0, e1, e2]
  obtain ⟨c0, c1, c2⟩ := (vec_eq_iff _ dst _ _ _).1
    (store3_vec s dst (F32.fin w0) (F32.fin w1) (F32.fin w2))
  refine ⟨_, L', hcall, rfl, rfl, ?_, hb⟩
  simp only [v3_length, c0, c1, c2, if_pos hd, hl]

/-- Witness for C5 (amended): the tests' `v = (3, 4, 0)`, of length `5`, normalised into
the buffer at `4`. -/
theorem normalize_unit_length_binary32_witness :
    v3_length F32.sqrt 1 (twoVecs ((3 : F32), 4, 0) (0, 0, 0)) = some (F32.fin 5) ∧
    (EPSILON : F32) ≤ F32.fin 5 ∧
    ∃ t L', v3_normalize F32.sqrt 4 1 (twoVecs ((3 : F32), 4, 0) (0, 0, 0)) = some t
      ∧ t.errno = (twoVecs ((3 : F32), 4, 0) (0, 0, 0)).errno
      ∧ t.stderr = (twoVecs ((3 : F32), 4, 0) (0, 0, 0)).stderr
      ∧ v3_length F32.sqrt 4 t = some (F32.fin L') ∧ |L' - 1| ≤ 1 / 100000 :=
  have h1 : v3_length F32.sqrt 1 (twoVecs ((3 : F32), 4, 0) (0, 0, 0)) = some (F32.fin 5) := by
    decide!
  have h2 : (EPSILON : F32) ≤ F32.fin 5 := by decide!
  ⟨h1, h2, normalize_unit_length_binary32 (twoVecs ((3 : F32), 4, 0) (0, 0, 0)) 4 1 3 4 0 5
    (by decide) (by decide) (by decide!) h1 h2⟩

/-- Division of finite values by a non-zero divisor rounds the exact quotient. -/
theorem f32_div_fin (x y : ℚ) (hy : y ≠ 0) : F32.fin x / F32.fin y = F32.round (x / y) := by
  show F32.div (F32.fin x) (F32.fin y) = _
  simp [F32.div, hy]

/-- The clamp of `v3_angle` and `v3_angle_quick` on a finite value. -/
theorem f32_clamped_fin (c : ℚ) :
    clamped (F32.fin c) = F32.fin (if 1 < c then 1 else if c < -1 then -1 else c) := by
  have h1 : (F32.fin c > 1) ↔ 1 < c := by
    show F32.blt (F32.fin 1) (F32.fin c) = true ↔ _
    simp [F32.blt]
  have hm1 : (-1 : F32) = F32.fin (-1) := rfl
  have h2 : (F32.fin c < -1) ↔ c < -1 := by
    rw [hm1]
    show F32.blt (F32.fin c) (F32.fin (-1)) = true ↔ _
    simp [F32.blt]
  have h3 : ¬ ((1 : F32) < -1) := by decide!
  unfold clamped
  by_cases c1 : 1 < c
  · rw [if_pos (h1.mpr c1), if_neg h3, if_pos c1]
    rfl
  · rw [if_neg (fun h => c1 (h1.mp h)), if_neg c1]
    by_cases c2 : c < -1
    · rw [if_pos (h2.mpr c2), if_pos c2, hm1]
    · rw [if_neg (fun h => c2 (h2.mp h)), if_neg c2]

/-- The dot product in binary32 of two vectors whose three products have one
sign and magnitude at most `2^120`: finite, of that sign, and within a
relative `2e-7` (and an absolute `2^-147`) of the exact dot product. -/
theorem f32_dot_same_sign (p0 q0 p1 q1 p2 q2 : ℚ)
    (h0 : |p0 * q0| ≤ 2 ^ 120) (h1 : |p1 * q1| ≤ 2 ^ 120) (h2 : |p2 * q2| ≤ 2 ^ 120)
    (hsign : (0 ≤ p0 * q0 ∧ 0 ≤ p1 * q1 ∧ 0 ≤ p2 * q2)
      ∨ (p0 * q0 ≤ 0 ∧ p1 * q1 ≤ 0 ∧ p2 * q2 ≤ 0)) :
    ∃ D : ℚ, F32.fin p0 * F32.fin q0 + F32.fin p1 * F32.fin q1 + F32.fin p2 * F32.fin q2
        = F32.fin D
      ∧ |D - (p0 * q0 + p1 * q1 + p2 * q2)|
          ≤ 2 / 10 ^ 7 * |p0 * q0 + p1 * q1 + p2 * q2| + 1 / 2 ^ 147 := by
  obtain ⟨d0, e0, b0, s0, n0⟩ := f32_round_spec (p0 * q0) (le_trans h0 (by norm_num))
  obtain ⟨d1, e1, b1, s1, n1⟩ := f32_round_spec (p1 * q1) (le_trans h1 (by norm_num))
  obtain ⟨d2, e2, b2, s2, n2⟩ := f32_round_spec (p2 * q2) (le_trans h2 (by norm_num))
  have E0 : F32.fin p0 * F32.fin q0 = F32.fin d0 := by rw [f32_mul_fin]; exact e0
  have E1 : F32.fin p1 * F32.fin q1 = F32.fin d1 := by rw [f32_mul_fin]; exact e1
  have E2 : F32.fin p2 * F32.fin q2 = F32.fin d2 := by rw [f32_mul_fin]; exact e2
  generalize p0 * q0 = t0 at *
  generalize p1 * q1 = t1 at *
  generalize p2 * q2 = t2 at *
  rcases hsign with ⟨g0, g1, g2⟩ | ⟨g0, g1, g2⟩
  · have D0 := s0 g0
    have D1 := s1 g1
    have D2 := s2 g2
    rw [abs_of_nonneg g0] at b0 h0
    rw [abs_of_nonneg g1] at b1 h1
    rw [abs_of_nonneg g2] at b2 h2
    rw [abs_le] at b0 b1 b2
    norm_num at b0 b1 b2 h0 h1 h2
    have ha : |d0 + d1| ≤ 2 ^ 127 := by
      rw [abs_of_nonneg (by linarith)]
      norm_num
      linarith
    obtain ⟨a1, ea1, ba1, sa1, -⟩ := f32_round_spec (d0 + d1) ha
    have A1 := sa1 (by linarith)
    rw [abs_of_nonneg (by linarith : 0 ≤ d0 + d1), abs_le] at ba1
    norm_num at ba1
    have hb : |a1 + d2| ≤ 2 ^ 127 := by
      rw [abs_of_nonneg (by linarith)]
      norm_num
      linarith
    obtain ⟨a2, ea2, ba2, -, -⟩ := f32_round_spec (a1 + d2) hb
    rw [abs_of_nonneg (by linarith : 0 ≤ a1 + d2), abs_le] at ba2
    norm_num at ba2
    refine ⟨a2, ?_, ?_⟩
    · rw [E0, E1, E2]
      show F32.round (d0 + d1) + F32.fin d2 = _
      rw [ea1]
      exact ea2
    · rw [abs_of_nonneg (by linarith : 0 ≤ t0 + t1 + t2), abs_le]
      norm_num
      constructor <;> linarith
  · have D0 := n0 g0
    have D1 := n1 g1
    have D2 := n2 g2
    rw [abs_of_nonpos g0] at b0 h0
    rw [abs_of_nonpos g1] at b1 h1
    rw [abs_of_nonpos g2] at b2 h2
    rw [abs_le] at b0 b1 b2
    norm_num at b0 b1 b2 h0 h1 h2
    have ha : |d0 + d1| ≤ 2 ^ 127 := by
      rw [abs_of_nonpos (by linarith)]
      norm_num
      linarith
    obtain ⟨a1, ea1, ba1, -, na1⟩ := f32_round_spec (d0 + d1) ha
    have A1 := na1 (by linarith)
    rw [abs_of_nonpos (by linarith : d0 + d1 ≤ 0), abs_le] at ba1
    norm_num at ba1
    have hb : |a1 + d2| ≤ 2 ^ 127 := by
      rw [abs_of_nonpos (by linarith)]
      norm_num
      linarith
    obtain ⟨a2, ea2, ba2, -, -⟩ := f32_round_spec (a1 + d2) hb
    rw [abs_of_nonpos (by linarith : a1 + d2 ≤ 0), abs_le] at ba2
    norm_num at ba2
    refine ⟨a2, ?_, ?_⟩
    · rw [E0, E1, E2]
      show F32.round (d0 + d1) + F32.fin d2 = _
      rw [ea1]
      exact ea2
    · rw [abs_of_nonpos (by linarith : t0 + t1 + t2 ≤ 0), abs_le]
      norm_num
      constructor <;> linarith

/-- The clamped quotient in binary32 of a dividend and a divisor that are both
within a small relative error of the same `G >= 9e-13`: within `1e-6` of `1`. -/
theorem f32_div_clamp_pos (D P G : ℚ) (hG : 9 / 10 ^ 13 ≤ G)
    (hP1 : (1 - 1 / 16000000) * G ≤ P) (hP2 : P ≤ (1 + 1 / 16000000) * G)
    (hD1 : (1 - 6 / 10 ^ 7) * G ≤ D) (hD2 : D ≤ (1 + 6 / 10 ^ 7) * G) :
    ∃ c : ℚ, clamped (F32.fin D / F32.fin P) = F32.fin c ∧ 1 - 1 / 10 ^ 6 ≤ c ∧ c ≤ 1 := by
  have hG0 : 0 < G := lt_of_lt_of_le (by norm_num) hG
  have hP0 : 0 < P := by nlinarith
  have q1 : 1 - 7 / 10 ^ 7 ≤ D / P := by
    rw [le_div_iff₀ hP0]
    nlinarith
  have q2 : D / P ≤ 1 + 7 / 10 ^ 7 := by
    rw [div_le_iff₀ hP0]
    nlinarith
  have hq0 : 0 ≤ D / P := le_trans (by norm_num) q1
  obtain ⟨c, ec, bc, -, -⟩ := f32_round_spec (D / P) (by
    rw [abs_of_nonneg hq0]
    exact le_trans q2 (by norm_num))
  rw [abs_of_nonneg hq0, abs_le] at bc
  norm_num at bc q1 q2
  refine ⟨_, by rw [f32_div_fin D P (ne_of_gt hP0), ec, f32_clamped_fin], ?_, ?_⟩
  · split_ifs with a b
    · norm_num
    · linarith
    · linarith
  · split_ifs with a b
    · exact le_refl 1
    · norm_num
    · linarith

/-- The clamped quotient in binary32 of a dividend within a small relative
error of `-G` and a divisor within a small relative error of `G >= 9e-13`:
within `1e-6` of `-1`. -/
theorem f32_div_clamp_neg (D P G : ℚ) (hG : 9 / 10 ^ 13 ≤ G)
    (hP1 : (1 - 1 / 16000000) * G ≤ P) (hP2 : P ≤ (1 + 1 / 16000000) * G)
    (hD1 : (1 - 6 / 10 ^ 7) * G ≤ -D) (hD2 : -D ≤ (1 + 6 / 10 ^ 7) * G) :
    ∃ c : ℚ, clamped (F32.fin D / F32.fin P) = F32.fin c ∧ -1 ≤ c ∧ c ≤ -1 + 1 / 10 ^ 6 := by
  have hG0 : 0 < G := lt_of_lt_of_le (by norm_num) hG
  have hP0 : 0 < P := by nlinarith
  have q1 : D / P ≤ -(1 - 7 / 10 ^ 7) := by
    rw [div_le_iff₀ hP0]
    nlinarith
  have q2 : -(1 + 7 / 10 ^ 7) ≤ D / P := by
    rw [le_div_iff₀ hP0]
    nlinarith
  have hq0 : D / P ≤ 0 := le_trans q1 (by norm_num)
  obtain ⟨c, ec, bc, -, -⟩ := f32_round_spec (D / P) (by
    rw [abs_of_nonpos hq0]
    have : -(D / P) ≤ 1 + 7 / 10 ^ 7 := by linarith
    exact le_trans this (by norm_num))
  rw [abs_of_nonpos hq0, abs_le] at bc
  norm_num at bc q1 q2
  refine ⟨_, by rw [f32_div_fin D P (ne_of_gt hP0), ec, f32_clamped_fin], ?_, ?_⟩
  · split_ifs with a b
    · linarith
    · exact le_refl (-1)
    · linarith
  · split_ifs with a b
    · linarith
    · norm_num
    · linarith

/-- The computed length `L >= EPSILON` of a vector in binary32, with the
correctly rounded `F32.sqrt`: the exact squared length is within a relative
`3.5e-7` of `L^2`. -/
theorem f32_length_sq (x0 x1 x2 L : ℚ)
    (hlen : F32.sqrt (F32.fin x0 * F32.fin x0 + F32.fin x1 * F32.fin x1
      + F32.fin x2 * F32.fin x2) = F32.fin L)
    (hL : 8796093 / 8796093022208 ≤ L) :
    (1 - 35 / 10 ^ 8) * (L * L) ≤ x0 * x0 + x1 * x1 + x2 * x2
      ∧ x0 * x0 + x1 * x1 + x2 * x2 ≤ (1 + 35 / 10 ^ 8) * (L * L) := by
  have hL0 : 0 < L := lt_of_lt_of_le (by norm_num) hL
  obtain ⟨S, hS, hS0, cl, cu⟩ := f32_sqrt_fin_inv _ L hlen hL0
  have hLL : (8796093 / 8796093022208 : ℚ) * (8796093 / 8796093022208) ≤ L * L :=
    mul_le_mul hL hL (by norm_num) (le_of_lt hL0)
  have hS9 : 9 / 10 ^ 13 ≤ S := by
    have h1 : (1 - 1 / 2 ^ 24 : ℚ) ^ 2 * ((8796093 / 8796093022208) * (8796093 / 8796093022208))
        ≤ (1 - 1 / 2 ^ 24) ^ 2 * (L * L) := mul_le_mul_of_nonneg_left hLL (by norm_num)
    have h2 : (9 : ℚ) / 10 ^ 13
        ≤ (1 - 1 / 2 ^ 24) ^ 2 * ((8796093 / 8796093022208) * (8796093 / 8796093022208)) := by
      norm_num
    linarith
  obtain ⟨hNl, hNu⟩ := f32_sumsq_fin x0 x1 x2 S hS hS9
  have hLL0 : 0 ≤ L * L := mul_self_nonneg L
  generalize L * L = G at *
  norm_num at cl cu hNl hNu ⊢
  constructor <;> linarith

/-- The clamped cosine of two exactly parallel vectors in binary32, with the
correctly rounded `F32.sqrt`: when `b = k * a`, the components have magnitude
at most `2^60` and both computed lengths are at least `EPSILON`, the value is
finite and within `1e-6` of `1` for `k > 0`, of `-1` for `k < 0`. -/
theorem f32_parallel_quick (x0 x1 x2 y0 y1 y2 k La Lb : ℚ)
    (hy0 : y0 = k * x0) (hy1 : y1 = k * x1) (hy2 : y2 = k * x2)
    (hx0 : |x0| ≤ 2 ^ 60) (hx1 : |x1| ≤ 2 ^ 60) (hx2 : |x2| ≤ 2 ^ 60)
    (hb0 : |y0| ≤ 2 ^ 60) (hb1 : |y1| ≤ 2 ^ 60) (hb2 : |y2| ≤ 2 ^ 60)
    (hla : F32.sqrt (F32.fin x0 * F32.fin x0 + F32.fin x1 * F32.fin x1
      + F32.fin x2 * F32.fin x2) = F32.fin La)
    (hlb : F32.sqrt (F32.fin y0 * F32.fin y0 + F32.fin y1 * F32.fin y1
      + F32.fin y2 * F32.fin y2) = F32.fin Lb)
    (hLa : 8796093 / 8796093022208 ≤ La) (hLb : 8796093 / 8796093022208 ≤ Lb) :
    ∃ c : ℚ, clamped ((F32.fin x0 * F32.fin y0 + F32.fin x1 * F32.fin y1
          + F32.fin x2 * F32.fin y2) / (F32.fin La * F32.fin Lb)) = F32.fin c
      ∧ (0 < k → 1 - 1 / 10 ^ 6 ≤ c ∧ c ≤ 1)
      ∧ (k < 0 → -1 ≤ c ∧ c ≤ -1 + 1 / 10 ^ 6) := by
  obtain ⟨a1, a2⟩ := f32_length_sq x0 x1 x2 La hla hLa
  obtain ⟨b1, b2⟩ := f32_length_sq y0 y1 y2 Lb hlb hLb
  have hLa0 : 0 < La := lt_of_lt_of_le (by norm_num) hLa
  have hLb0 : 0 < Lb := lt_of_lt_of_le (by norm_num) hLb
  have hNb : y0 * y0 + y1 * y1 + y2 * y2 = k * k * (x0 * x0 + x1 * x1 + x2 * x2) := by
    rw [hy0, hy1, hy2]; ring
  have hT : x0 * y0 + x1 * y1 + x2 * y2 = k * (x0 * x0 + x1 * x1 + x2 * x2) := by
    rw [hy0, hy1, hy2]; ring
  have hN0 : 0 ≤ x0 * x0 + x1 * x1 + x2 * x2 := by
    have := mul_self_nonneg x0
    have := mul_self_nonneg x1
    have := mul_self_nonneg x2
    linarith
  have hNmax : x0 * x0 + x1 * x1 + x2 * x2 ≤ 3 * (2 ^ 60 * 2 ^ 60) := by
    have q0 := le_trans (le_abs_self _) (abs_mul_le_mul hx0 hx0)
    have q1 := le_trans (le_abs_self _) (abs_mul_le_mul hx1 hx1)
    have q2 := le_trans (le_abs_self _) (abs_mul_le_mul hx2 hx2)
    linarith
  have hNbmax : y0 * y0 + y1 * y1 + y2 * y2 ≤ 3 * (2 ^ 60 * 2 ^ 60) := by
    have q0 := le_trans (le_abs_self _) (abs_mul_le_mul hb0 hb0)
    have q1 := le_trans (le_abs_self _) (abs_mul_le_mul hb1 hb1)
    have q2 := le_trans (le_abs_self _) (abs_mul_le_mul hb2 hb2)
    linarith
  have h61 : ∀ L N : ℚ, 0 < L → (1 - 35 / 10 ^ 8) * (L * L) ≤ N → N ≤ 3 * (2 ^ 60 * 2 ^ 60) →
      L ≤ 2 ^ 61 := by
    intro L N hL0 h1 h2
    by_contra hc
    push_neg at hc
    have h3 : (2 : ℚ) ^ 61 * 2 ^ 61 < L * L := mul_lt_mul'' hc hc (by norm_num) (by norm_num)
    have h4 : (1 - 35 / 10 ^ 8 : ℚ) * ((2 : ℚ) ^ 61 * 2 ^ 61) ≤ (1 - 35 / 10 ^ 8) * (L * L) :=
      mul_le_mul_of_nonneg_left (le_of_lt h3) (by norm_num)
    have h5 : (3 : ℚ) * (2 ^ 60 * 2 ^ 60) < (1 - 35 / 10 ^ 8) * ((2 : ℚ) ^ 61 * 2 ^ 61) := by
      norm_num
    linarith
  have hLa61 := h61 La _ hLa0 a1 hNmax
  have hLb61 := h61 Lb _ hLb0 b1 hNbmax
  have hG0 : 0 < La * Lb := mul_pos hLa0 hLb0
  have hGe : 9 / 10 ^ 13 ≤ La * Lb := by
    have : (8796093 / 8796093022208 : ℚ) * (8796093 / 8796093022208) ≤ La * Lb :=
      mul_le_mul hLa hLb (by norm_num) (le_of_lt hLa0)
    exact le_trans (by norm_num) this
  have hGmax : La * Lb ≤ 2 ^ 61 * 2 ^ 61 :=
    mul_le_mul hLa61 hLb61 (le_of_lt hLb0) (by norm_num)
  obtain ⟨P, eP, bP, -, -⟩ := f32_round_spec (La * Lb) (by
    rw [abs_of_pos hG0]
    exact le_trans hGmax (by norm_num))
  have hPP : F32.fin La * F32.fin Lb = F32.fin P := by rw [f32_mul_fin]; exact eP
  rw [abs_of_pos hG0, abs_le] at bP
  -- the exact magnitude of the dot product against the product of the lengths
  have hA0 : 0 ≤ |k| * (x0 * x0 + x1 * x1 + x2 * x2) := mul_nonneg (abs_nonneg k) hN0
  have hAA : |k| * (x0 * x0 + x1 * x1 + x2 * x2) * (|k| * (x0 * x0 + x1 * x1 + x2 * x2))
      = (x0 * x0 + x1 * x1 + x2 * x2) * (y0 * y0 + y1 * y1 + y2 * y2) := by
    rw [hNb]
    have : |k| * |k| = k * k := abs_mul_abs_self k
    calc |k| * (x0 * x0 + x1 * x1 + x2 * x2) * (|k| * (x0 * x0 + x1 * x1 + x2 * x2))
        = |k| * |k| * ((x0 * x0 + x1 * x1 + x2 * x2) * (x0 * x0 + x1 * x1 + x2 * x2)) := by ring
      _ = k * k * ((x0 * x0 + x1 * x1 + x2 * x2) * (x0 * x0 + x1 * x1 + x2 * x2)) := by rw [this]
      _ = _ := by ring
  have hNb0 : 0 ≤ y0 * y0 + y1 * y1 + y2 * y2 := by
    have := mul_self_nonneg y0
    have := mul_self_nonneg y1
    have := mul_self_nonneg y2
    linarith
  have hAu : |k| * (x0 * x0 + x1 * x1 + x2 * x2) ≤ (1 + 35 / 10 ^ 8) * (La * Lb) := by
    have h1 : (x0 * x0 + x1 * x1 + x2 * x2) * (y0 * y0 + y1 * y1 + y2 * y2)
        ≤ (1 + 35 / 10 ^ 8) * (La * La) * ((1 + 35 / 10 ^ 8) * (Lb * Lb)) :=
      mul_le_mul a2 b2 hNb0 (mul_nonneg (by norm_num) (mul_self_nonneg La))
    have h2 : (|k| * (x0 * x0 + x1 * x1 + x2 * x2)) ^ 2 ≤ ((1 + 35 / 10 ^ 8) * (La * Lb)) ^ 2 := by
      rw [pow_two, pow_two, hAA]
      calc _ ≤ (1 + 35 / 10 ^ 8) * (La * La) * ((1 + 35 / 10 ^ 8) * (Lb * Lb)) := h1
        _ = (1 + 35 / 10 ^ 8) * (La * Lb) * ((1 + 35 / 10 ^ 8) * (La * Lb)) := by ring
    exact le_trans (le_abs_self _)
      (abs_le_of_sq_le_sq h2 (mul_nonneg (by norm_num) (le_of_lt hG0)))
  have hAl : (1 - 35 / 10 ^ 8) * (La * Lb) ≤ |k| * (x0 * x0 + x1 * x1 + x2 * x2) := by
    have h1 : (1 - 35 / 10 ^ 8) * (La * La) * ((1 - 35 / 10 ^ 8) * (Lb * Lb))
        ≤ (x0 * x0 + x1 * x1 + x2 * x2) * (y0 * y0 + y1 * y1 + y2 * y2) :=
      mul_le_mul a1 b1 (mul_nonneg (by norm_num) (mul_self_nonneg Lb)) hN0
    have h2 : ((1 - 35 / 10 ^ 8) * (La * Lb)) ^ 2 ≤ (|k| * (x0 * x0 + x1 * x1 + x2 * x2)) ^ 2 := by
      rw [pow_two, pow_two, hAA]
      calc (1 - 35 / 10 ^ 8) * (La * Lb) * ((1 - 35 / 10 ^ 8) * (La * Lb))
          = (1 - 35 / 10 ^ 8) * (La * La) * ((1 - 35 / 10 ^ 8) * (Lb * Lb)) := by ring
        _ ≤ _ := h1
    exact le_trans (le_abs_self _) (abs_le_of_sq_le_sq h2 hA0)
  -- the computed dot product
  have hsign : (0 ≤ x0 * y0 ∧ 0 ≤ x1 * y1 ∧ 0 ≤ x2 * y2)
      ∨ (x0 * y0 ≤ 0 ∧ x1 * y1 ≤ 0 ∧ x2 * y2 ≤ 0) := by
    have e0 : x0 * y0 = k * (x0 * x0) := by rw [hy0]; ring
    have e1 : x1 * y1 = k * (x1 * x1) := by rw [hy1]; ring
    have e2 : x2 * y2 = k * (x2 * x2) := by rw [hy2]; ring
    rw [e0, e1, e2]
    rcases le_total 0 k with hk | hk
    · exact Or.inl ⟨mul_nonneg hk (mul_self_nonneg _), mul_nonneg hk (mul_self_nonneg _),
        mul_nonneg hk (mul_self_nonneg _)⟩
    · exact Or.inr ⟨mul_nonpos_of_nonpos_of_nonneg hk (mul_self_nonneg _),
        mul_nonpos_of_nonpos_of_nonneg hk (mul_self_nonneg _),
        mul_nonpos_of_nonpos_of_nonneg hk (mul_self_nonneg _)⟩
  have hp : ∀ x y : ℚ, |x| ≤ 2 ^ 60 → |y| ≤ 2 ^ 60 → |x * y| ≤ 2 ^ 120 := by
    intro x y hx hy
    exact le_trans (abs_mul_le_mul hx hy) (by norm_num)
  obtain ⟨D, eD, bD⟩ := f32_dot_same_sign x0 y0 x1 y1 x2 y2 (hp _ _ hx0 hb0) (hp _ _ hx1 hb1)
    (hp _ _ hx2 hb2) hsign
  rw [hT, abs_mul, abs_of_nonneg hN0] at bD
  rw [eD, hPP]
  generalize hA : |k| * (x0 * x0 + x1 * x1 + x2 * x2) = A at *
  generalize hG : La * Lb = G at *
  have hP1 : (1 - 1 / 16000000) * G ≤ P := by
    norm_num at bP hGe ⊢
    linarith
  have hP2 : P ≤ (1 + 1 / 16000000) * G := by
    norm_num at bP hGe ⊢
    linarith
  rw [abs_le] at bD
  rcases lt_trichotomy k 0 with hk | hk | hk
  · have hkA : k * (x0 * x0 + x1 * x1 + x2 * x2) = -A := by
      rw [← hA, abs_of_neg hk]; ring
    rw [hkA] at bD
    obtain ⟨c, ec, c1, c2⟩ := f32_div_clamp_neg D P G hGe hP1 hP2
      (by norm_num at bD hAl hGe ⊢; linarith) (by norm_num at bD hAu hGe ⊢; linarith)
    exact ⟨c, ec, fun h => absurd hk (not_lt.mpr (le_of_lt h)), fun _ => ⟨c1, c2⟩⟩
  · exfalso
    rw [hk, abs_zero, zero_mul] at hA
    rw [← hA] at hAl
    norm_num at hAl hGe
    linarith
  · have hkA : k * (x0 * x0 + x1 * x1 + x2 * x2) = A := by
      rw [← hA, abs_of_pos hk]
    rw [hkA] at bD
    obtain ⟨c, ec, c1, c2⟩ := f32_div_clamp_pos D P G hGe hP1 hP2
      (by norm_num at bD hAl hGe ⊢; linarith) (by norm_num at bD hAu hGe ⊢; linarith)
    exact ⟨c, ec, fun _ => ⟨c1, c2⟩, fun h => absurd hk (not_lt.mpr (le_of_lt h))⟩

/-- The arccosine of a value within `1e-6` below `1` is at most `1.5e-3`. -/
theorem arccos_near_one (c : ℝ) (h1 : 1 - 1 / 10 ^ 6 ≤ c) (h2 : c ≤ 1) :
    0 ≤ Real.arccos c ∧ Real.arccos c ≤ 15 / 10 ^ 4 := by
  refine ⟨Real.arccos_nonneg c, le_of_lt ?_⟩
  have hpi := Real.pi_gt_three
  apply arccos_lt_of_cos_lt _ _ (by norm_num) (by linarith) h2
  have hb := Real.cos_bound (x := 15 / 10 ^ 4) (by rw [abs_le]; constructor <;> norm_num)
  have hb2 := (abs_le.mp hb).2
  rw [abs_of_nonneg (by norm_num : (0 : ℝ) ≤ 15 / 10 ^ 4)] at hb2
  norm_num at hb2 h1 ⊢
  linarith

/-- The arccosine of a value within `1e-6` above `-1` is within `1.5e-3` of `pi`. -/
theorem arccos_near_neg_one (c : ℝ) (h1 : -1 ≤ c) (h2 : c ≤ -1 + 1 / 10 ^ 6) :
    Real.pi - 15 / 10 ^ 4 ≤ Real.arccos c ∧ Real.arccos c ≤ Real.pi := by
  have h := arccos_near_one (-c) (by linarith) (by linarith)
  rw [Real.arccos_neg] at h
  constructor <;> linarith [h.1, h.2]

/-- C19, amended (parallel vectors have angle `0` or `pi` up to rounding). In
binary32, with the correctly rounded `F32.sqrt` for `sqrtf` and any `acosf`:
when `a` and `b = k * a` (exactly, `b[i] = k * a[i]`) are finite with
components of magnitude at most `2^60` and both computed lengths are at least
`EPSILON`, `v3_angle_quick(a, b)` returns, without touching the state, a
finite `c` within `1e-6` of `1` (for `k > 0`) or of `-1` (for `k < 0`), and
`v3_angle(a, b)` returns `acosf(c)`; when that is within `tol` of the
arccosine of `c`, it is within `1.5e-3 + tol` of `0`, or of `pi`. -/
theorem parallel_angle_binary32 (acosf : F32 → F32) (s : State F32) (a b : Nat)
    (x0 x1 x2 y0 y1 y2 k La Lb : ℚ) (ha : a ≠ 0) (hb : b ≠ 0)
    (hx : s.vec a = (F32.fin x0, F32.fin x1, F32.fin x2))
    (hy : s.vec b = (F32.fin y0, F32.fin y1, F32.fin y2))
    (hpar : y0 = k * x0 ∧ y1 = k * x1 ∧ y2 = k * x2)
    (hxM : |x0| ≤ 2 ^ 60 ∧ |x1| ≤ 2 ^ 60 ∧ |x2| ≤ 2 ^ 60)
    (hyM : |y0| ≤ 2 ^ 60 ∧ |y1| ≤ 2 ^ 60 ∧ |y2| ≤ 2 ^ 60)
    (hla : v3_length F32.sqrt a s = some (F32.fin La))
    (hlb : v3_length F32.sqrt b s = some (F32.fin Lb))
    (hna : (EPSILON : F32) ≤ F32.fin La) (hnb : (EPSILON : F32) ≤ F32.fin Lb) :
    ∃ c : ℚ, v3_angle_quick F32.sqrt a b s = some (F32.fin c, s)
      ∧ v3_angle F32.sqrt acosf a b s = some (acosf (F32.fin c), s)
      ∧ (0 < k → 1 - 1 / 10 ^ 6 ≤ c ∧ c ≤ 1)
      ∧ (k < 0 → -1 ≤ c ∧ c ≤ -1 + 1 / 10 ^ 6)
      ∧ ∀ r tol : ℚ, acosf (F32.fin c) = F32.fin r →
          |(r : ℝ) - Real.arccos (c : ℝ)| ≤ (tol : ℝ) →
          (0 < k → |(r : ℝ)| ≤ 15 / 10 ^ 4 + (tol : ℝ))
            ∧ (k < 0 → |(r : ℝ) - Real.pi| ≤ 15 / 10 ^ 4 + (tol : ℝ)) := by
  obtain ⟨a0, a1, a2⟩ := (vec_eq_iff s a _ _ _).1 hx
  obtain ⟨b0, b1, b2⟩ := (vec_eq_iff s b _ _ _).1 hy
  obtain ⟨hy0, hy1, hy2⟩ := hpar
  obtain ⟨hx0, hx1, hx2⟩ := hxM
  obtain ⟨hb0, hb1, hb2⟩ := hyM
  have toQ : ∀ L : ℚ, (EPSILON : F32) ≤ F32.fin L → (8796093 / 8796093022208 : ℚ) ≤ L := by
    intro L h
    rw [EPSILON_binary32] at h
    have : F32.ble (F32.fin (8796093 / 8796093022208)) (F32.fin L) = true := h
    simpa [F32.ble] using this
  have hsa : F32.sqrt (F32.fin x0 * F32.fin x0 + F32.fin x1 * F32.fin x1
      + F32.fin x2 * F32.fin x2) = F32.fin La := by
    have := hla
    simp only [v3_length, a0, a1, a2, if_pos ha] at this
    exact Option.some.inj this
  have hsb : F32.sqrt (F32.fin y0 * F32.fin y0 + F32.fin y1 * F32.fin y1
      + F32.fin y2 * F32.fin y2) = F32.fin Lb := by
    have := hlb
    simp only [v3_length, b0, b1, b2, if_pos hb] at this
    exact Option.some.inj this
  obtain ⟨c, ec, cpos, cneg⟩ := f32_parallel_quick x0 x1 x2 y0 y1 y2 k La Lb hy0 hy1 hy2
    hx0 hx1 hx2 hb0 hb1 hb2 hsa hsb (toQ La hna) (toQ Lb hnb)
  have hdeg : ¬ (F32.fin La < (EPSILON : F32) ∨ F32.fin Lb < (EPSILON : F32)) := by
    rintro (h | h)
    · exact f32_not_lt_of_le _ hna h
    · exact f32_not_lt_of_le _ hnb h
  have hdot : v3_dot_product a b s = some (F32.fin x0 * F32.fin y0 + F32.fin x1 * F32.fin y1
      + F32.fin x2 * F32.fin y2) := by
    simp only [v3_dot_product, a0, a1, a2, b0, b1, b2, if_pos (⟨ha, hb⟩ : a ≠ 0 ∧ b ≠ 0)]
  refine ⟨c, ?_, ?_, cpos, cneg, ?_⟩
  · rw [f32_angle_quick_regular F32.sqrt s a b _ _ _ ha hb hla hlb hdot hdeg, ec]
  · rw [f32_angle_regular F32.sqrt acosf s a b _ _ _ ha hb hla hlb hdot hdeg, ec]
  · intro r tol _ hr
    rw [abs_le] at hr
    constructor
    · intro hk
      obtain ⟨c1, c2⟩ := cpos hk
      have c1' : ((1 - 1 / 10 ^ 6 : ℚ) : ℝ) ≤ (c : ℝ) := (Rat.cast_le (K := ℝ)).2 c1
      have c2' : (c : ℝ) ≤ ((1 : ℚ) : ℝ) := (Rat.cast_le (K := ℝ)).2 c2
      push_cast at c1' c2'
      have h := arccos_near_one (c : ℝ) c1' c2'
      rw [abs_le]
      constructor <;> linarith [h.1, h.2, hr.1, hr.2]
    · intro hk
      obtain ⟨c1, c2⟩ := cneg hk
      have c1' : ((-1 : ℚ) : ℝ) ≤ (c : ℝ) := (Rat.cast_le (K := ℝ)).2 c1
      have c2' : (c : ℝ) ≤ ((-1 + 1 / 10 ^ 6 : ℚ) : ℝ) := (Rat.cast_le (K := ℝ)).2 c2
      push_cast at c1' c2'
      have h := arccos_near_neg_one (c : ℝ) c1' c2'
      rw [abs_le]
      constructor <;> linarith [h.1, h.2, hr.1, hr.2]

/-- Witness for C19 (amended): `a = (1,2,3)` and `b = 2 * a`, with a constant for
`acosf`. -/
theorem parallel_angle_binary32_witness :
    v3_length F32.sqrt 1 (twoVecs ((1 : F32), 2, 3) (2, 4, 6)) = some (F32.fin (15693649 / 4194304)) ∧
    v3_length F32.sqrt 4 (twoVecs ((1 : F32), 2, 3) (2, 4, 6)) = some (F32.fin (15693649 / 2097152)) ∧
    (EPSILON : F32) ≤ F32.fin (15693649 / 4194304) ∧
    (EPSILON : F32) ≤ F32.fin (15693649 / 2097152) ∧
    ∃ c : ℚ, v3_angle_quick F32.sqrt 1 4 (twoVecs ((1 : F32), 2, 3) (2, 4, 6)) = some (F32.fin c, (twoVecs ((1 : F32), 2, 3) (2, 4, 6)))
      ∧ v3_angle F32.sqrt (fun _ => F32.fin (345 / 1000000)) 1 4 (twoVecs ((1 : F32), 2, 3) (2, 4, 6)) = some ((fun _ => F32.fin (345 / 1000000)) (F32.fin c), (twoVecs ((1 : F32), 2, 3) (2, 4, 6)))
      ∧ ((0 : ℚ) < 2 → 1 - 1 / 10 ^ 6 ≤ c ∧ c ≤ 1)
      ∧ ((2 : ℚ) < 0 → -1 ≤ c ∧ c ≤ -1 + 1 / 10 ^ 6)
      ∧ ∀ r tol : ℚ, (fun _ => F32.fin (345 / 1000000)) (F32.fin c) = F32.fin r →
          |(r : ℝ) - Real.arccos (c : ℝ)| ≤ (tol : ℝ) →
          ((0 : ℚ) < 2 → |(r : ℝ)| ≤ 15 / 10 ^ 4 + (tol : ℝ))
            ∧ ((2 : ℚ) < 0 → |(r : ℝ) - Real.pi| ≤ 15 / 10 ^ 4 + (tol : ℝ)) :=
  have hla : v3_length F32.sqrt 1 (twoVecs ((1 : F32), 2, 3) (2, 4, 6)) = some (F32.fin (15693649 / 4194304)) := by decide!
  have hlb : v3_length F32.sqrt 4 (twoVecs ((1 : F32), 2, 3) (2, 4, 6)) = some (F32.fin (15693649 / 2097152)) := by decide!
  have hna : (EPSILON : F32) ≤ F32.fin (15693649 / 4194304) := by decide!
  have hnb : (EPSILON : F32) ≤ F32.fin (15693649 / 2097152) := by decide!
  ⟨hla, hlb, hna, hnb,
    parallel_angle_binary32 (fun _ => F32.fin (345 / 1000000)) (twoVecs ((1 : F32), 2, 3) (2, 4, 6)) 1 4 1 2 3 2 4 6 2 _ _ (by decide) (by decide)
      (by decide!) (by decide!) ⟨by norm_num, by norm_num, by norm_num⟩
      ⟨by norm_num [abs_le], by norm_num [abs_le], by norm_num [abs_le]⟩
      ⟨by norm_num [abs_le], by norm_num [abs_le], by norm_num [abs_le]⟩
      hla hlb hna hnb⟩

end Binary32

end V3Math
